import Mathlib

/-!
# Thread API synchronisation objects (`src/threadapi.c`)

A shallow embedding of the channel, barrier, synchronisation-variable, semaphore,
migration, locking, monitor wait-list and keep-alive code of `threadapi.c`, with theorems
about it.

Modelling conventions.

* A plain list `queue` of length `capacity` stands for the slots
  `ADDR_OBJ(queue)[1 .. capacity]`; slot `i` of the model is `ADDR_OBJ(queue)[i+1]`.
* Fields of C type `int` that hold indices and sizes (`head`, `tail`, `size`,
  `capacity`) are natural numbers; signed arithmetic on them is exact (C leaves signed
  overflow undefined).  Counters that the code decrements without a guard (`waiting`,
  the barrier `count`) are integers.
* Arithmetic in C type `unsigned` is modular, written with an explicit `% 2 ^ 32`.
  Values passed between `Int`, `int` and `unsigned` are taken to be in the range of all
  three, except where the code itself stores an `unsigned` into an `int`
  (`intOfUnsigned`).
* Every operation that talks to a monitor also returns the sequence of monitor calls it
  made (`MonitorCall`); a blocking wait hands control to the other threads, whose effect
  on the shared object is an explicit argument (a "wake").
* Linked structures (the wait list of a monitor, the keep-alive list) are memories from
  addresses to nodes, with `none` for a null pointer; a loop that follows pointers takes
  a number of turns ("fuel").
-/

namespace ThreadAPI

/-! ## Objects, regions, thread-local storage -/

/-- A value of C type `Obj`. -/
inductive Obj where
  /-- the null pointer, `(Obj) 0` -/
  | null
  /-- an immediate small integer, `INTOBJ_INT n` -/
  | intobj (n : Int)
  /-- a reference to a bag, by address -/
  | bag (addr : Nat)
  /-- a reference to a plain list of bag references, as built by `ReachableObjectsFrom` -/
  | plist (elems : List Nat)
  deriving DecidableEq, Repr, Inhabited

/-- Modelled from the spec: the macro `IS_BAG_REF` is declared outside `threadapi.c`;
it holds of references to bags, and of neither the null pointer nor immediate objects. -/
def IS_BAG_REF : Obj → Bool
  | .bag _ => true
  | .plist _ => true
  | _ => false

/-- The fields of a `Region` that the code of this file reads. -/
structure Region where
  /-- the owning thread, `none` for `NULL` -/
  owner : Option Nat
  fixed_owner : Bool
  deriving DecidableEq, Repr

/-- The part of the heap outside the synchronisation objects: the region pointer in the
header of every bag (`DS_BAG`, `none` for `NULL`) and the region records by address. -/
structure Heap where
  DS_BAG : Nat → Option Nat
  region : Nat → Region

/-- The fields of the calling thread's `TLS` record that the code of this file reads. -/
structure ThreadLocalStorage where
  threadID : Nat
  currentRegion : Option Nat
  multiplexRandomSeed : Nat

/-- What the code takes from outside `threadapi.c`: the calling thread, the limbo region
and the reachability walk `ReachableObjectsFrom` (which reads the heap and returns a
plain list of bags, or null). -/
structure Context where
  TLS : ThreadLocalStorage
  LimboRegion : Option Nat
  ReachableObjectsFrom : Heap → Obj → Option (List Nat)

/-- The region pointer `DS_BAG(obj)` of an object; immediate objects and null have no
region field, and the region of a children list is not modelled. -/
def Heap.dsOf (h : Heap) : Obj → Option Nat
  | .bag a => h.DS_BAG a
  | _ => none

/-- The loop `for (i=1; i<=len; i++) DS_BAG(ELM_PLIST(children, i)) = ds`. -/
def Heap.setRegions (h : Heap) (items : List Nat) (ds : Option Nat) : Heap :=
  items.foldl (fun hp item => { hp with DS_BAG := Function.update hp.DS_BAG item ds }) h

/-! ## Monitor calls -/

/-- A call into the monitor layer, by monitor address. -/
inductive MonitorCall where
  | LockMonitor (m : Nat)
  | UnlockMonitor (m : Nat)
  | SignalMonitor (m : Nat)
  | WaitForMonitor (m : Nat)
  | LockMonitors (ms : List Nat)
  | WaitForAnyMonitor (ms : List Nat)
  deriving DecidableEq, Repr

/-- Whether a monitor call suspends the calling thread. -/
def MonitorCall.isWait : MonitorCall → Bool
  | .WaitForMonitor _ => true
  | .WaitForAnyMonitor _ => true
  | _ => false

/-! ## Channels -/

/-- The C struct `Channel`; `queueRegion` is `DS_BAG(channel->queue)`. -/
structure Channel where
  monitor : Nat
  queue : List Obj
  queueRegion : Option Nat
  waiting : Int
  head : Nat
  tail : Nat
  size : Nat
  capacity : Nat
  dynamic : Bool
  deriving DecidableEq, Repr

/-- The result of an operation on one channel: the returned value, the channel and the
heap afterwards, and the monitor calls made. -/
structure Ret (α : Type) where
  val : α
  channel : Channel
  heap : Heap
  calls : List MonitorCall

def LockChannel (channel : Channel) : List MonitorCall :=
  [MonitorCall.LockMonitor channel.monitor]

def UnlockChannel (channel : Channel) : List MonitorCall :=
  [MonitorCall.UnlockMonitor channel.monitor]

def SignalChannel (channel : Channel) : List MonitorCall :=
  if channel.waiting ≠ 0 then [MonitorCall.SignalMonitor channel.monitor] else []

/-- What the other threads do to the channel and the heap while the caller is suspended
in `WaitForMonitor`. -/
abbrev Wake := Channel × Heap → Channel × Heap

/-- The function `WaitChannel`: `waiting++`, the wait itself, `waiting--`. -/
def WaitChannel (channel : Channel) (heap : Heap) (wake : Wake) : Channel × Heap :=
  let woken := wake ({ channel with waiting := channel.waiting + 1 }, heap)
  ({ woken.1 with waiting := woken.1.waiting - 1 }, woken.2)

/-- The first copy loop of `ExpandChannel`:
`for (i = head; i < oldCapacity; i++) newqueue[i+1] = queue[i+1]`. -/
def expandCopyHead (queue : List Obj) (head oldCapacity : Nat) (newqueue : List Obj) : List Obj :=
  (List.range' head (oldCapacity - head)).foldl
    (fun nq i => nq.set i (queue.getD i Obj.null)) newqueue

/-- The second copy loop of `ExpandChannel`: slot `i < tail` goes to `oldCapacity + i`,
reduced by `newCapacity` when it reaches it. -/
def expandCopyTail (queue : List Obj) (tail oldCapacity newCapacity : Nat) (newqueue : List Obj) :
    List Obj :=
  (List.range tail).foldl
    (fun nq i =>
      let d := oldCapacity + i
      let d := if d ≥ newCapacity then d - newCapacity else d
      nq.set d (queue.getD i Obj.null)) newqueue

/-- The place slot `i` of the wrapped segment is copied to by the second loop of
`ExpandChannel`. -/
def expandTarget (oldCapacity newCapacity i : Nat) : Nat :=
  if oldCapacity + i ≥ newCapacity then oldCapacity + i - newCapacity else oldCapacity + i

/-- The new capacity computed by `ExpandChannel`, in `unsigned` arithmetic. -/
def expandCapacity (oldCapacity : Nat) : Nat :=
  let newCapacity := ((oldCapacity * 25 % 2 ^ 32 / 16) ||| 1) + 1
  if newCapacity = oldCapacity then newCapacity + 2 else newCapacity

/-- The function `ExpandChannel`. A store outside the new queue, which the copy loops make
only after the product `oldCapacity * 25` has wrapped, is not part of the queue. -/
def ExpandChannel (channel : Channel) : Channel :=
  let oldCapacity := channel.capacity % 2 ^ 32
  let newCapacity := expandCapacity oldCapacity
  let newqueue := List.replicate newCapacity Obj.null
  let newqueue := expandCopyHead channel.queue channel.head oldCapacity newqueue
  let newqueue := expandCopyTail channel.queue channel.tail oldCapacity newCapacity newqueue
  let tail := channel.head + oldCapacity
  let tail := if tail ≥ newCapacity then tail - newCapacity else tail
  { channel with capacity := newCapacity, tail := tail, queue := newqueue }

/-- The statement
`if (channel->size == channel->capacity && channel->dynamic) ExpandChannel(channel);`
that opens every send. -/
def expandIfFull (channel : Channel) : Channel :=
  if channel.size = channel.capacity && channel.dynamic then ExpandChannel channel else channel

/-- The function `AddToChannel`: the children of a migrated object go to the region of the
queue, then the object and its children list take the two slots at `tail`. -/
def AddToChannel (ctx : Context) (heap : Heap) (channel : Channel) (obj : Obj) (migrate : Bool) :
    Channel × Heap :=
  let ds := channel.queueRegion
  let children : Option (List Nat) :=
    if migrate && IS_BAG_REF obj &&
        (match heap.dsOf obj with
         | some r => decide ((heap.region r).owner = some ctx.TLS.threadID) &&
                       (heap.region r).fixed_owner
         | none => false)
    then ctx.ReachableObjectsFrom heap obj
    else none
  let heap := heap.setRegions (children.getD []) ds
  let childrenObj := match children with
    | some l => Obj.plist l
    | none => Obj.null
  let queue := channel.queue.set channel.tail obj
  let queue := queue.set (channel.tail + 1) childrenObj
  let tail := channel.tail + 2
  let tail := if tail = channel.capacity then 0 else tail
  ({ channel with queue := queue, tail := tail, size := channel.size + 2 }, heap)

/-- The function `RetrieveFromChannel`: takes the two slots at `head` and clears them; the
children go to the current region of the caller. Its callers call it with `size > 0`. -/
def RetrieveFromChannel (ctx : Context) (heap : Heap) (channel : Channel) :
    Obj × Channel × Heap :=
  let obj := channel.queue.getD channel.head Obj.null
  let children := channel.queue.getD (channel.head + 1) Obj.null
  let ds := ctx.TLS.currentRegion
  let items := match children with
    | Obj.plist l => l
    | _ => []
  let queue := channel.queue.set channel.head Obj.null
  let queue := queue.set (channel.head + 1) Obj.null
  let head := channel.head + 2
  let head := if head = channel.capacity then 0 else head
  let heap := heap.setRegions items ds
  (obj, { channel with queue := queue, head := head, size := channel.size - 2 }, heap)

/-- The function `CreateChannel`; `newMonitor` is the address of the monitor that
`NewMonitor` returns. `NEW_PLIST` gives a queue of null slots. -/
def CreateChannel (ctx : Context) (newMonitor : Nat) (capacity : Int) : Channel :=
  let cap : Nat := if capacity < 0 then 20 else (capacity * 2).toNat
  { monitor := newMonitor
    size := 0, head := 0, tail := 0
    capacity := cap
    dynamic := decide (capacity < 0)
    waiting := 0
    queue := List.replicate cap Obj.null
    queueRegion := ctx.LimboRegion }

/-! ### Sending -/

/-- The loop `while (channel->size == channel->capacity) WaitChannel(channel);`, one wake
per turn.  `none`: the channel is still full after the last wake, the caller is still
suspended. -/
def waitWhileFull : List Wake → Channel → Heap → Option (Channel × Heap × List MonitorCall)
  | [], channel, heap =>
    if channel.size = channel.capacity then none else some (channel, heap, [])
  | wake :: wakes, channel, heap =>
    if channel.size = channel.capacity then
      let woken := WaitChannel channel heap wake
      (waitWhileFull wakes woken.1 woken.2).map
        (fun r => (r.1, r.2.1, MonitorCall.WaitForMonitor channel.monitor :: r.2.2))
    else some (channel, heap, [])

/-- The common body of `SendChannel` (`migrate = true`) and `TransmitChannel`
(`migrate = false`). -/
def sendBody (ctx : Context) (migrate : Bool) (heap : Heap) (channel : Channel) (obj : Obj)
    (wakes : List Wake) : Option (Ret Unit) :=
  let calls := LockChannel channel
  let channel := expandIfFull channel
  match waitWhileFull wakes channel heap with
  | none => none
  | some (channel, heap, waits) =>
    let added := AddToChannel ctx heap channel obj migrate
    some { val := (), channel := added.1, heap := added.2,
           calls := calls ++ waits ++ SignalChannel added.1 ++ UnlockChannel added.1 }

def SendChannel (ctx : Context) (heap : Heap) (channel : Channel) (obj : Obj)
    (wakes : List Wake) : Option (Ret Unit) :=
  sendBody ctx true heap channel obj wakes

def TransmitChannel (ctx : Context) (heap : Heap) (channel : Channel) (obj : Obj)
    (wakes : List Wake) : Option (Ret Unit) :=
  sendBody ctx false heap channel obj wakes

/-- The common body of `TrySendChannel` (`migrate = true`) and `TryTransmitChannel`
(`migrate = false`). -/
def trySendBody (ctx : Context) (migrate : Bool) (heap : Heap) (channel : Channel) (obj : Obj) :
    Ret Int :=
  let calls := LockChannel channel
  let channel := expandIfFull channel
  if channel.size = channel.capacity then
    { val := 0, channel := channel, heap := heap, calls := calls ++ UnlockChannel channel }
  else
    let added := AddToChannel ctx heap channel obj migrate
    { val := 1, channel := added.1, heap := added.2,
      calls := calls ++ SignalChannel added.1 ++ UnlockChannel added.1 }

def TrySendChannel (ctx : Context) (heap : Heap) (channel : Channel) (obj : Obj) : Ret Int :=
  trySendBody ctx true heap channel obj

def TryTransmitChannel (ctx : Context) (heap : Heap) (channel : Channel) (obj : Obj) : Ret Int :=
  trySendBody ctx false heap channel obj

/-- The loop `while (channel->size == 0) WaitChannel(channel);`. -/
def waitWhileEmpty : List Wake → Channel → Heap → Option (Channel × Heap × List MonitorCall)
  | [], channel, heap =>
    if channel.size = 0 then none else some (channel, heap, [])
  | wake :: wakes, channel, heap =>
    if channel.size = 0 then
      let woken := WaitChannel channel heap wake
      (waitWhileEmpty wakes woken.1 woken.2).map
        (fun r => (r.1, r.2.1, MonitorCall.WaitForMonitor channel.monitor :: r.2.2))
    else some (channel, heap, [])

def ReceiveChannel (ctx : Context) (heap : Heap) (channel : Channel) (wakes : List Wake) :
    Option (Ret Obj) :=
  let calls := LockChannel channel
  match waitWhileEmpty wakes channel heap with
  | none => none
  | some (channel, heap, waits) =>
    let r := RetrieveFromChannel ctx heap channel
    some { val := r.1, channel := r.2.1, heap := r.2.2,
           calls := calls ++ waits ++ SignalChannel r.2.1 ++ UnlockChannel r.2.1 }

def TryReceiveChannel (ctx : Context) (heap : Heap) (channel : Channel) (defaultobj : Obj) :
    Ret Obj :=
  let calls := LockChannel channel
  if channel.size = 0 then
    { val := defaultobj, channel := channel, heap := heap,
      calls := calls ++ UnlockChannel channel }
  else
    let r := RetrieveFromChannel ctx heap channel
    { val := r.1, channel := r.2.1, heap := r.2.2,
      calls := calls ++ SignalChannel r.2.1 ++ UnlockChannel r.2.1 }

/-- The loop `for (i=0; i<count; i++)` of `MultiReceiveChannel`, with `n` turns to go:
each turn stores the retrieved item at position `i+1` of `result` (slot `i` here). -/
def multiReceiveLoop (ctx : Context) :
    Nat → Nat → Channel → Heap → List Obj → List Obj × Channel × Heap
  | 0, _, channel, heap, result => (result, channel, heap)
  | n + 1, i, channel, heap, result =>
    let r := RetrieveFromChannel ctx heap channel
    multiReceiveLoop ctx n (i + 1) r.2.1 r.2.2 (result.set i r.1)

def MultiReceiveChannel (ctx : Context) (heap : Heap) (channel : Channel) (max : Nat) :
    Ret (List Obj) :=
  let calls := LockChannel channel
  let count := if max > channel.size / 2 then channel.size / 2 else max
  let result := List.replicate count Obj.null
  let r := multiReceiveLoop ctx count 0 channel heap result
  { val := r.1, channel := r.2.1, heap := r.2.2,
    calls := calls ++ SignalChannel r.2.1 ++ UnlockChannel r.2.1 }

/-- One turn of the loop of `InspectChannel`, for the loop counter `i`: the state is the
queue position `p` and the result list.  `SET_ELM_PLIST(result, i+1, ...)` stores into slot
`i` of the result; a store past the allocated length is not part of the list. -/
def inspectTurn (channel : Channel) (st : Nat × List Obj) (i : Nat) : Nat × List Obj :=
  let result := st.2.set i (channel.queue.getD st.1 Obj.null)
  let p := st.1 + 1
  let p := if p = channel.capacity then 0 else p
  (p, result)

/-- The function `InspectChannel`: the loop `for (i = 0, p = head; i < size; i += 2)` runs for
`i = 0, 2, 4, ...` below `size`. -/
def InspectChannel (heap : Heap) (channel : Channel) : Ret (List Obj) :=
  let calls := LockChannel channel
  let result := List.replicate (channel.size / 2) Obj.null
  let counters := (List.range ((channel.size + 1) / 2)).map (fun j => 2 * j)
  let st := counters.foldl (inspectTurn channel) (channel.head, result)
  { val := st.2, channel := channel, heap := heap, calls := calls ++ UnlockChannel channel }

/-! ### Creating a channel from the interpreter -/

/-- The outcome of a function of the binding table: a value, or the message handed to
`ArgumentError` (which does not return: it leaves through `ErrorQuit`). -/
abbrev Result (α : Type) := Except String α

/-- The channels of the heap, by address. -/
abbrev Channels := Nat → Channel

/-- Modelled from the spec: `MergeSort` is declared outside `threadapi.c`; it sorts the
array by the supplied less-than comparator. -/
def MergeSort (array : List Nat) (lessThan : Nat → Nat → Bool) : List Nat :=
  array.insertionSort (fun a b => lessThan b a = false)

/-- The comparator `ChannelOrder`: by the address of the monitor. -/
def ChannelOrder (chans : Channels) (c1 c2 : Nat) : Bool :=
  decide ((chans c1).monitor < (chans c2).monitor)

def SortChannels (chans : Channels) (channels : List Nat) : List Nat :=
  MergeSort channels (ChannelOrder chans)

/-- What the other threads do while the caller is suspended in `WaitForAnyMonitor`, and
the index of the signalled monitor that the call returns. -/
structure AnyWake where
  effect : Channels × Heap → Channels × Heap
  signalled : Nat

/-- Why a call has not returned a value. -/
inductive Stop where
  /-- the caller is still suspended after the last wake -/
  | blocked
  /-- the statement `p %= count` with `count = 0` -/
  | moduloByZero
  /-- the call of `WaitForAnyMonitor` returned an index outside the array -/
  | badIndex
  deriving DecidableEq, Repr

/-- The value returned by `ReceiveAnyChannel`: the received object, or the two slots of
the plain list built when `with_index` is set. -/
inductive Received where
  | object (result : Obj)
  | list (first second : Obj)
  deriving DecidableEq, Repr

/-- The result of `ReceiveAnyChannel`. -/
structure AnyRet where
  val : Received
  /-- the channel the value was retrieved from -/
  channel : Nat
  chans : Channels
  heap : Heap
  multiplexRandomSeed : Nat
  calls : List MonitorCall

/-- The probe loop `for (i=0; i<count; i++)` of `ReceiveAnyChannel` with `n` turns to go;
returns the final `i`, `p` and `channel`. -/
def probeLoop (chans : Channels) (channels : List Nat) (count : Nat) :
    Nat → Nat → Nat → Nat → Nat × Nat × Nat
  | 0, i, p, channel => (i, p, channel)
  | n + 1, i, p, _ =>
    let channel := channels.getD p 0
    if (chans channel).size > 0 then (i, p, channel)
    else
      let p := p + 1
      let p := if p ≥ count then 0 else p
      probeLoop chans channels count n (i + 1) p channel

/-- The loops `for (i=0; i<count; i++) channels[i]->waiting++` (`delta = 1`) and
`channels[i]->waiting--` (`delta = -1`). -/
def bumpWaiting (chans : Channels) (channels : List Nat) (delta : Int) : Channels :=
  channels.foldl
    (fun cs c => Function.update cs c { cs c with waiting := (cs c).waiting + delta }) chans

/-- The loop `for (;;)` of `ReceiveAnyChannel` taken when all channels are empty, one wake
per turn; returns the index `p`, the channel found and the monitor calls made. -/
def waitAnyLoop (channels monitors : List Nat) (count : Nat) :
    List AnyWake → Channels → Heap → Except Stop (Nat × Nat × Channels × Heap × List MonitorCall)
  | [], _, _ => .error Stop.blocked
  | wake :: wakes, chans, heap =>
    let chans := bumpWaiting chans channels 1
    let woken := wake.effect (chans, heap)
    let p := wake.signalled
    let chans := bumpWaiting woken.1 channels (-1)
    if p < count then
      let channel := channels.getD p 0
      if (chans channel).size > 0 then
        .ok (p, channel, chans, woken.2, [MonitorCall.WaitForAnyMonitor monitors])
      else
        (waitAnyLoop channels monitors count wakes chans woken.2).map
          (fun r => (r.1, r.2.1, r.2.2.1, r.2.2.2.1,
            [MonitorCall.WaitForAnyMonitor monitors,
             MonitorCall.UnlockMonitor (monitors.getD p 0),
             MonitorCall.LockMonitors monitors] ++ r.2.2.2.2))
    else .error Stop.badIndex

/-- The search `for (i=1; i<=count; i++) if (ObjPtr(ELM_PLIST(channelList, i)) == channel)`
from position `i` on: the first position holding `channel`, if any. -/
def findChannel (channel : Nat) : List Nat → Nat → Option Nat
  | [], _ => none
  | c :: rest, i => if c = channel then some i else findChannel channel rest (i + 1)

/-- The middle of `ReceiveAnyChannel`, with all monitors locked: the probe loop from the
start index `p`, then either the branch "found a channel with data" (`p = i`, unlock the
monitors other than `monitors[p]`) or the wait loop. Returns `p`, `channel`, the channels
and the heap at that point, and the monitor calls made. -/
def receiveAnyFind (chans : Channels) (heap : Heap) (channels monitors : List Nat) (count p : Nat)
    (wakes : List AnyWake) : Except Stop (Nat × Nat × Channels × Heap × List MonitorCall) :=
  let probe := probeLoop chans channels count count 0 p 0
  let i := probe.1
  if i < count then
    let p := i
    .ok (p, probe.2.2, chans, heap,
      ((List.range count).filter (fun j => j ≠ p)).map
        (fun j => MonitorCall.UnlockMonitor (monitors.getD j 0)))
  else waitAnyLoop channels monitors count wakes chans heap

/-- The end of `ReceiveAnyChannel`: retrieve from `channel`, signal it, unlock
`monitors[p]`, build the value to return. -/
def receiveAnyFinish (ctx : Context) (channelList monitors : List Nat) (with_index : Bool)
    (seed : Nat) (calls : List MonitorCall)
    (found : Nat × Nat × Channels × Heap × List MonitorCall) : AnyRet :=
  let p := found.1
  let channel := found.2.1
  let chans := found.2.2.1
  let r := RetrieveFromChannel ctx found.2.2.2.1 (chans channel)
  let result := r.1
  let calls3 := SignalChannel r.2.1 ++ [MonitorCall.UnlockMonitor (monitors.getD p 0)]
  let val :=
    if with_index then
      match findChannel channel channelList 1 with
      | some i => Received.list result (Obj.intobj i)
      | none => Received.list result Obj.null
    else Received.object result
  { val := val, channel := channel, chans := Function.update chans channel r.2.1,
    heap := r.2.2, multiplexRandomSeed := seed,
    calls := calls ++ found.2.2.2.2 ++ calls3 }

/-- The function `ReceiveAnyChannel`; `channelList` holds the addresses of the channels, in
the caller's order. -/
def ReceiveAnyChannel (ctx : Context) (chans : Channels) (heap : Heap) (channelList : List Nat)
    (with_index : Bool) (wakes : List AnyWake) : Except Stop AnyRet :=
  let count := channelList.length
  let channels := SortChannels chans channelList
  let monitors := channels.map (fun c => (chans c).monitor)
  let calls := [MonitorCall.LockMonitors monitors]
  let p := ctx.TLS.multiplexRandomSeed % 2 ^ 32
  let p := (p * 5 + 1) % 2 ^ 32
  let seed := p
  if count = 0 then .error Stop.moduloByZero
  else
    let p := p % count
    match receiveAnyFind chans heap channels monitors count p wakes with
    | .error e => .error e
    | .ok found => .ok (receiveAnyFinish ctx channelList monitors with_index seed calls found)

/-! ## Barriers -/

/-- The C struct `Barrier`; `phase` has C type `unsigned`. -/
structure Barrier where
  monitor : Nat
  count : Int
  phase : Nat
  waiting : Int
  deriving DecidableEq, Repr

/-- The value of an `unsigned` stored into an `int`. -/
def intOfUnsigned (u : Nat) : Int :=
  if u % 2 ^ 32 < 2 ^ 31 then ((u % 2 ^ 32 : Nat) : Int) else ((u % 2 ^ 32 : Nat) : Int) - 2 ^ 32

def LockBarrier (barrier : Barrier) : List MonitorCall :=
  [MonitorCall.LockMonitor barrier.monitor]

def UnlockBarrier (barrier : Barrier) : List MonitorCall :=
  [MonitorCall.UnlockMonitor barrier.monitor]

/-- The function `JoinBarrier`: `waiting++`, the wait itself (during which the other threads change
the barrier by `wake`), `waiting--`. -/
def JoinBarrier (barrier : Barrier) (wake : Barrier → Barrier) : Barrier × List MonitorCall :=
  let woken := wake { barrier with waiting := barrier.waiting + 1 }
  ({ woken with waiting := woken.waiting - 1 }, [MonitorCall.WaitForMonitor barrier.monitor])

def SignalBarrier (barrier : Barrier) : List MonitorCall :=
  if barrier.waiting ≠ 0 then [MonitorCall.SignalMonitor barrier.monitor] else []

def CreateBarrier (newMonitor : Nat) : Barrier :=
  { monitor := newMonitor, count := 0, phase := 0, waiting := 0 }

/-- The function `StartBarrier`; `count` has C type `unsigned`. -/
def StartBarrier (barrier : Barrier) (count : Nat) : Barrier × List MonitorCall :=
  let calls := LockBarrier barrier
  let barrier := { barrier with count := intOfUnsigned count }
  let barrier := { barrier with phase := (barrier.phase + 1) % 2 ^ 32 }
  (barrier, calls ++ UnlockBarrier barrier)

/-- The function `WaitBarrier`; `wake` is what the other threads do to the barrier while the caller is
suspended in `JoinBarrier`, if it is. -/
def WaitBarrier (barrier : Barrier) (wake : Barrier → Barrier) :
    Result Unit × Barrier × List MonitorCall :=
  let calls := LockBarrier barrier
  let phaseDelta := barrier.phase % 2 ^ 32
  let barrier := { barrier with count := barrier.count - 1 }
  let joined := if barrier.count > 0 then JoinBarrier barrier wake else (barrier, [])
  let barrier := joined.1
  let calls := calls ++ joined.2 ++ SignalBarrier barrier
  let phaseDelta := (phaseDelta + 2 ^ 32 - barrier.phase % 2 ^ 32) % 2 ^ 32
  let calls := calls ++ UnlockBarrier barrier
  let result : Result Unit :=
    if phaseDelta ≠ 0 then .error "WaitBarrier: Barrier was reset" else .ok ()
  (result, barrier, calls)

/-! ## Synchronisation variables -/

/-- The C struct `SyncVar` (the fields this file uses). -/
structure SyncVar where
  monitor : Nat
  value : Obj
  written : Bool
  deriving DecidableEq, Repr

def CreateSyncVar (newMonitor : Nat) : SyncVar :=
  { monitor := newMonitor, written := false, value := Obj.null }

/-- The function `SyncWrite`: the outcome, the variable afterwards and the monitor calls
made. -/
def SyncWrite (var : SyncVar) (value : Obj) : Result Unit × SyncVar × List MonitorCall :=
  let monitor := var.monitor
  let calls := [MonitorCall.LockMonitor monitor]
  if var.written then
    (.error "SyncWrite: Variable already has a value", var,
      calls ++ [MonitorCall.UnlockMonitor monitor])
  else
    let var := { var with written := true }
    let var := { var with value := value }
    (.ok (), var,
      calls ++ [MonitorCall.SignalMonitor monitor, MonitorCall.UnlockMonitor monitor])

/-- What the other threads do while the caller is suspended in `WaitForMonitor` on the
monitor of a synchronisation variable: the variable afterwards. -/
abbrev SyncWake := SyncVar → SyncVar

/-- The loop `while (!var->written) WaitForMonitor(monitor);`, one wake per turn. `none`:
the variable is still unwritten after the last wake, the caller is still suspended. -/
def waitUntilWritten : List SyncWake → SyncVar → Option (SyncVar × List MonitorCall)
  | [], var => if var.written then some (var, []) else none
  | wake :: wakes, var =>
    if var.written then some (var, [])
    else (waitUntilWritten wakes (wake var)).map
      (fun r => (r.1, MonitorCall.WaitForMonitor var.monitor :: r.2))

/-- The function `SyncRead`; `monitorHead` tells whether the wait list of the monitor is non-empty
(`monitor->head != NULL`) when the caller holds the monitor after its wait. -/
def SyncRead (var : SyncVar) (monitorHead : Bool) (wakes : List SyncWake) :
    Option (Obj × SyncVar × List MonitorCall) :=
  let monitor := var.monitor
  let calls := [MonitorCall.LockMonitor monitor]
  match waitUntilWritten wakes var with
  | none => none
  | some (var, waits) =>
    let calls := calls ++ waits
    let calls := if monitorHead then calls ++ [MonitorCall.SignalMonitor monitor] else calls
    some (var.value, var, calls ++ [MonitorCall.UnlockMonitor monitor])

/-- Later attempts to write a synchronisation variable, in order; a failed attempt leaves
through `ArgumentError` with the variable as `SyncWrite` left it. -/
def syncWrites (var : SyncVar) (values : List Obj) : SyncVar :=
  values.foldl (fun v value => (SyncWrite v value).2.1) var

/-! ## Reading a channel as a queue -/

/-- The `j`-th slot of the ring buffer counted from `head`. -/
def Channel.slot (c : Channel) (j : Nat) : Obj :=
  c.queue.getD ((c.head + j) % c.capacity) Obj.null

/-- The queued values, oldest first: the first slot of every queued pair. -/
def Channel.values (c : Channel) : List Obj :=
  (List.range (c.size / 2)).map (fun j => c.slot (2 * j))

/-- A well-formed channel: the queue has `capacity` slots, `size`, `head` and `tail` are
within it, `tail` is `size` slots after `head`, and all of them are even (whole pairs). -/
def WellFormed (c : Channel) : Prop :=
  c.queue.length = c.capacity ∧ c.size ≤ c.capacity ∧ c.head < c.capacity ∧
  c.tail < c.capacity ∧ c.tail = (c.head + c.size) % c.capacity ∧
  c.capacity % 2 = 0 ∧ c.size % 2 = 0 ∧ c.head % 2 = 0

instance (c : Channel) : Decidable (WellFormed c) := by
  unfold WellFormed
  infer_instance

/-! ### Schedules of enqueue and dequeue steps -/

/-- The function `TrySendChannel` called once for every object of a list, in order, with no receive
in between; returns the values the calls returned. -/
def trySendAll (ctx : Context) : List Obj → Channel → Heap → List Int × Channel × Heap
  | [], channel, heap => ([], channel, heap)
  | obj :: rest, channel, heap =>
    let r := TrySendChannel ctx heap channel obj
    let rs := trySendAll ctx rest r.channel r.heap
    (r.val :: rs.1, rs.2)


/-- The C struct `Semaphore`. -/
structure Semaphore where
  monitor : Nat
  count : Int
  waiting : Int
  deriving DecidableEq, Repr

/-- An argument that a function of the binding table expects to be a semaphore: the
semaphore held by a bag of type `T_SEMAPHORE`, or an object of another type. -/
inductive SemaphoreArg where
  | semaphore (sem : Semaphore)
  | other (obj : Obj)
  deriving DecidableEq, Repr

def CreateSemaphore (newMonitor : Nat) (count : Int) : Semaphore :=
  { monitor := newMonitor, count := count, waiting := 0 }

def FuncCreateSemaphore (newMonitor : Nat) (args : List Obj) : Result Semaphore :=
  match args with
  | [] => .ok (CreateSemaphore newMonitor 0)
  | [arg] =>
    match arg with
    | Obj.intobj count =>
      if count < 0 then .error "CreateSemaphore: Initial count must be non-negative"
      else .ok (CreateSemaphore newMonitor count)
    | _ => .error "CreateSemaphore: Argument must be initial count"
  | _ => .error "CreateSemaphore: Function takes up to two arguments"

def FuncSignalSemaphore (semaphore : SemaphoreArg) : Result (Semaphore × List MonitorCall) :=
  match semaphore with
  | SemaphoreArg.other _ => .error "SignalSemaphore: Argument must be a semaphore"
  | SemaphoreArg.semaphore sem =>
    let calls := [MonitorCall.LockMonitor sem.monitor]
    let sem := { sem with count := sem.count + 1 }
    let calls := if sem.waiting ≠ 0 then calls ++ [MonitorCall.SignalMonitor sem.monitor] else calls
    .ok (sem, calls ++ [MonitorCall.UnlockMonitor sem.monitor])

/-- What the other threads do to a semaphore while the caller is suspended in
`WaitForMonitor`. -/
abbrev SemWake := Semaphore → Semaphore

/-- The loop `while (sem->count == 0) WaitForMonitor(...)`, one wake per turn. `none`: the
count is still 0 after the last wake, the caller is still suspended. -/
def waitWhileZero : List SemWake → Semaphore → Option (Semaphore × List MonitorCall)
  | [], sem => if sem.count = 0 then none else some (sem, [])
  | wake :: wakes, sem =>
    if sem.count = 0 then
      (waitWhileZero wakes (wake sem)).map
        (fun r => (r.1, MonitorCall.WaitForMonitor sem.monitor :: r.2))
    else some (sem, [])

/-- The function `FuncWaitSemaphore`; the inner `none` says that the caller is still
suspended after the last wake. -/
def FuncWaitSemaphore (semaphore : SemaphoreArg) (wakes : List SemWake) :
    Result (Option (Semaphore × List MonitorCall)) :=
  match semaphore with
  | SemaphoreArg.other _ => .error "WaitSemaphore: Argument must be a semaphore"
  | SemaphoreArg.semaphore sem =>
    let calls := [MonitorCall.LockMonitor sem.monitor]
    let sem := { sem with waiting := sem.waiting + 1 }
    match waitWhileZero wakes sem with
    | none => .ok none
    | some (sem, waits) =>
      let sem := { sem with count := sem.count - 1 }
      let sem := { sem with waiting := sem.waiting - 1 }
      let calls := calls ++ waits
      let calls := if sem.waiting ≠ 0 ∧ sem.count > 0
        then calls ++ [MonitorCall.SignalMonitor sem.monitor] else calls
      .ok (some (sem, calls ++ [MonitorCall.UnlockMonitor sem.monitor]))

/-- The function `FuncTryWaitSemaphore`; the boolean is `true` for the object `True`. -/
def FuncTryWaitSemaphore (semaphore : SemaphoreArg) :
    Result (Bool × Semaphore × List MonitorCall) :=
  match semaphore with
  | SemaphoreArg.other _ => .error "WaitSemaphore: Argument must be a semaphore"
  | SemaphoreArg.semaphore sem =>
    let calls := [MonitorCall.LockMonitor sem.monitor]
    let success := decide (sem.count > 0)
    let sem := if success then { sem with count := sem.count - 1 } else sem
    let sem := { sem with waiting := sem.waiting - 1 }
    let calls := if sem.waiting ≠ 0 ∧ sem.count > 0
      then calls ++ [MonitorCall.SignalMonitor sem.monitor] else calls
    .ok (success, sem, calls ++ [MonitorCall.UnlockMonitor sem.monitor])

/-- A call on one semaphore; a `wait` comes with what the other threads do while it is
suspended. -/
inductive SemOp where
  | signal
  | wait (wakes : List SemWake)
  | tryWait

/-- The semaphore after a call that has returned; `none` for a `wait` that is still
suspended. -/
def semStep (sem : Semaphore) : SemOp → Option Semaphore
  | SemOp.signal =>
    match FuncSignalSemaphore (SemaphoreArg.semaphore sem) with
    | .ok r => some r.1
    | .error _ => none
  | SemOp.wait wakes =>
    match FuncWaitSemaphore (SemaphoreArg.semaphore sem) wakes with
    | .ok (some r) => some r.1
    | _ => none
  | SemOp.tryWait =>
    match FuncTryWaitSemaphore (SemaphoreArg.semaphore sem) with
    | .ok r => some r.2.1
    | .error _ => none

/-- The semaphore after a sequence of calls that have all returned. -/
def semRun : List SemOp → Semaphore → Option Semaphore
  | [], sem => some sem
  | op :: ops, sem =>
    match semStep sem op with
    | none => none
    | some sem => semRun ops sem

/-- The other threads keep the count of a semaphore non-negative during the waits of a
call. -/
def SemOp.envKeepsCount : SemOp → Prop
  | SemOp.wait wakes => ∀ wake ∈ wakes, ∀ sem : Semaphore, 0 ≤ sem.count → 0 ≤ (wake sem).count
  | _ => True

/-! ## Migration -/

/-- The store `DS_BAG(obj) = ds`. For an object that is not a bag the store does not go to
a region field of the heap. -/
def Heap.setRegion (h : Heap) (obj : Obj) (ds : Option Nat) : Heap :=
  match obj with
  | Obj.bag a => { h with DS_BAG := Function.update h.DS_BAG a ds }
  | _ => h

/-- The test of the first loop of `MigrateObjects` on one object: `false` when the loop
returns 0 at it. -/
def migrateCheck (ctx : Context) (ProtectedRegion : Option Nat) (heap : Heap) (obj : Obj) : Bool :=
  if IS_BAG_REF obj then
    match heap.dsOf obj with
    | none => false
    | some ds =>
      decide ((heap.region ds).owner = some ctx.TLS.threadID) &&
        decide (some ds ≠ ProtectedRegion)
  else true

/-- The function `MigrateObjects`: the value returned, the heap afterwards, and the objects
whose region field the second loop stored to, in order. -/
def MigrateObjects (ctx : Context) (ProtectedRegion : Option Nat) (heap : Heap)
    (objects : List Obj) (target : Option Nat) : Int × Heap × List Obj :=
  if objects.all (migrateCheck ctx ProtectedRegion heap) then
    (1, objects.foldl (fun h obj => h.setRegion obj target) heap, objects)
  else (0, heap, [])

/-! ## Locking from the interpreter -/

/-- The objects `True`, `False` and `Fail` of the interpreter. -/
structure Booleans where
  True : Obj
  False : Obj
  Fail : Obj

/-- The macro `IS_INTOBJ`. -/
def IS_INTOBJ : Obj → Bool
  | Obj.intobj _ => true
  | _ => false

/-- The state of the argument loop of `FuncLOCK` and `FuncTRYLOCK`: the arrays `objects`
and `modes` (their length is `count`) and the variable `mode`. -/
structure LockArgs where
  objects : List Obj
  modes : List Int
  mode : Int
  deriving DecidableEq, Repr

/-- One turn of the loop of `FuncLOCK`. -/
def lockTurn (b : Booleans) (st : LockArgs) (obj : Obj) : LockArgs :=
  if obj = b.True then { st with mode := 1 }
  else if obj = b.False then { st with mode := 0 }
  else
    match obj with
    | Obj.intobj n => { st with mode := if n ≠ 0 then 1 else 0 }
    | _ => { st with objects := st.objects ++ [obj], modes := st.modes ++ [st.mode] }

/-- The function `FuncLOCK`; `LockObjects` is declared outside `threadapi.c`. -/
def FuncLOCK (b : Booleans) (LockObjects : List Obj → List Int → Int) (args : List Obj) :
    Result Obj :=
  if args.length > 1024 then .error "LOCK: Too many arguments"
  else
    let st := args.foldl (lockTurn b) { objects := [], modes := [], mode := 1 }
    let result := LockObjects st.objects st.modes
    if result ≥ 0 then .ok (Obj.intobj result) else .ok b.Fail

/-- One turn of the loop of `FuncTRYLOCK`. -/
def tryLockTurn (b : Booleans) (st : LockArgs) (obj : Obj) : LockArgs :=
  if obj = b.True then { st with mode := 1 }
  else if obj = b.False then { st with mode := 0 }
  else
    match obj with
    | Obj.intobj n => { st with mode := if n ≠ 0 then 1 else 0 }
    | _ => { st with objects := st.objects ++ [obj], modes := st.modes ++ [st.mode] }

/-- The function `FuncTRYLOCK`; `TryLockObjects` is declared outside `threadapi.c`. -/
def FuncTRYLOCK (b : Booleans) (TryLockObjects : List Obj → List Int → Int) (args : List Obj) :
    Result Obj :=
  if args.length > 1024 then .error "TRYLOCK: Too many arguments"
  else
    let st := args.foldl (tryLockTurn b) { objects := [], modes := [], mode := 1 }
    let result := TryLockObjects st.objects st.modes
    if result ≥ 0 then .ok (Obj.intobj result) else .ok b.Fail

/-- Whether an argument of `LOCK` switches the mode: a boolean or a small integer. -/
def isSwitch (b : Booleans) (obj : Obj) : Bool :=
  decide (obj = b.True) || decide (obj = b.False) || IS_INTOBJ obj

/-- The mode a switch argument sets: write (1) for `true` or a nonzero integer, read (0)
for `false` or 0. -/
def switchMode (b : Booleans) (obj : Obj) : Int :=
  if obj = b.True then 1
  else if obj = b.False then 0
  else
    match obj with
    | Obj.intobj n => if n ≠ 0 then 1 else 0
    | _ => 1

/-- The mode in force at position `i` of the argument list: the one set by the most recent
switch argument before `i`, or write (1) if no switch precedes. -/
def modeAt (b : Booleans) (args : List Obj) (i : Nat) : Int :=
  match (args.take i).reverse.find? (isSwitch b) with
  | some switch => switchMode b switch
  | none => 1

/-- The objects to lock with their modes, as the interface describes them: the arguments
that are not switches, in argument order, each with the mode in force at its position. -/
def lockPairs (b : Booleans) (args : List Obj) : List (Obj × Int) :=
  (List.range args.length).filterMap
    (fun i => if isSwitch b (args.getD i Obj.null) then none
      else some (args.getD i Obj.null, modeAt b args i))

/-! ## Monitors: the wait list -/

/-- The C struct `WaitList`: a node of the wait list of a monitor; `prev` and `next` are
addresses of nodes, `none` for `NULL`. -/
structure WaitList where
  prev : Option Nat
  next : Option Nat
  thread : Nat
  deriving DecidableEq, Repr

/-- The fields `head` and `tail` of the C struct `Monitor`. -/
structure Monitor where
  head : Option Nat
  tail : Option Nat
  deriving DecidableEq, Repr

/-- One monitor with the memory its wait list lives in: the nodes by address, and the slot
`acquiredMonitor` of every thread (the address of a monitor, `none` for `NULL`). -/
structure MonitorState where
  monitor : Monitor
  nodes : Nat → WaitList
  acquiredMonitor : Nat → Option Nat

def AddWaitList (s : MonitorState) (node : Nat) : MonitorState :=
  match s.monitor.tail with
  | some tail =>
    let nodes := Function.update s.nodes tail { s.nodes tail with next := some node }
    let nodes := Function.update nodes node { nodes node with prev := some tail }
    let nodes := Function.update nodes node { nodes node with next := none }
    { s with nodes := nodes, monitor := { s.monitor with tail := some node } }
  | none =>
    let nodes := Function.update s.nodes node { s.nodes node with next := none, prev := none }
    { s with nodes := nodes, monitor := { head := some node, tail := some node } }

/-- The entry of a thread into a wait: `node.thread = TLS; AddWaitList(monitor, &node);`
with the node of the thread at address `node`. -/
def enqueueWaiter (s : MonitorState) (waiter : Nat × Nat) : MonitorState :=
  AddWaitList
    { s with nodes := Function.update s.nodes waiter.1 { s.nodes waiter.1 with thread := waiter.2 } }
    waiter.1

/-- The loop of `SignalMonitor` from the node `queue` on, with `fuel` turns to go: returns
the slots afterwards and the thread signalled, if any. `none`: the turns ran out. -/
def signalWalk (self : Nat) (nodes : Nat → WaitList) :
    Nat → Option Nat → (Nat → Option Nat) → Option ((Nat → Option Nat) × Option Nat)
  | _, none, acquired => some (acquired, none)
  | 0, some _, _ => none
  | fuel + 1, some queue, acquired =>
    let thread := (nodes queue).thread
    if acquired thread = none then
      some (Function.update acquired thread (some self), some thread)
    else signalWalk self nodes fuel (nodes queue).next acquired

/-- The function `SignalMonitor` on the monitor at address `self`: the state afterwards
and the thread handed to `SignalThread`, if any. -/
def SignalMonitor (fuel : Nat) (self : Nat) (s : MonitorState) :
    Option (MonitorState × Option Nat) :=
  (signalWalk self s.nodes fuel s.monitor.head s.acquiredMonitor).map
    (fun r => ({ s with acquiredMonitor := r.1 }, r.2))

/-- Successive calls of `SignalMonitor`: the state afterwards and the threads signalled,
call by call. -/
def signalTimes (fuel : Nat) (self : Nat) : Nat → MonitorState →
    Option (MonitorState × List (Option Nat))
  | 0, s => some (s, [])
  | k + 1, s =>
    match SignalMonitor fuel self s with
    | none => none
    | some (s, thread) => (signalTimes fuel self k s).map (fun r => (r.1, thread :: r.2))

/-- The wait list read from the node `queue` on by following `next`: the addresses of its
nodes. -/
def waitChain (nodes : Nat → WaitList) : Option Nat → List Nat → Prop
  | queue, [] => queue = none
  | queue, node :: rest => queue = some node ∧ waitChain nodes (nodes node).next rest

/-- The function `MonitorsAreSorted`. -/
def MonitorsAreSorted (monitors : List Nat) : Bool :=
  (List.range' 1 (monitors.length - 1)).all
    (fun i => !decide (monitors.getD (i - 1) 0 > monitors.getD i 0))

/-! ## The keep-alive list -/

/-- A node of the keep-alive list: the slots `KEPTALIVE`, `PREV_KEPT` and `NEXT_KEPT` of a
bag; `prev` and `next` are addresses of nodes, `none` for null. -/
structure KeptNode where
  kept : Obj
  prev : Option Nat
  next : Option Nat
  deriving DecidableEq, Repr

/-- The globals `FirstKeepAlive` and `LastKeepAlive`, and the nodes by address. -/
structure KeepAliveList where
  FirstKeepAlive : Option Nat
  LastKeepAlive : Option Nat
  nodes : Nat → KeptNode

/-- The function `KeepAlive`; `newKeepAlive` is the address of the bag that `NewBag`
returns. -/
def KeepAlive (s : KeepAliveList) (newKeepAlive : Nat) (obj : Obj) : KeepAliveList × Nat :=
  let nodes := Function.update s.nodes newKeepAlive
    { kept := obj, prev := s.LastKeepAlive, next := none }
  match s.LastKeepAlive with
  | some last =>
    ({ s with nodes := Function.update nodes last { nodes last with next := some newKeepAlive } },
      newKeepAlive)
  | none =>
    ({ FirstKeepAlive := some newKeepAlive, LastKeepAlive := some newKeepAlive, nodes := nodes },
      newKeepAlive)

def StopKeepAlive (s : KeepAliveList) (node : Nat) : KeepAliveList :=
  let pred := (s.nodes node).prev
  let succ := (s.nodes node).next
  let s := match pred with
    | some p => { s with nodes := Function.update s.nodes p { s.nodes p with next := succ } }
    | none => { s with FirstKeepAlive := succ }
  match succ with
  | some n => { s with nodes := Function.update s.nodes n { s.nodes n with prev := pred } }
  | none => { s with LastKeepAlive := pred }

/-- The nodes reached from `node` by following `next`, at most `fuel` of them. -/
def keptFrom (s : KeepAliveList) : Nat → Option Nat → List Nat
  | _, none => []
  | 0, some _ => []
  | fuel + 1, some node => node :: keptFrom s fuel (s.nodes node).next

/-! ## A concrete thread and heap, for instances of the theorems -/

/-- Thread 1, whose current region is region 1; the limbo region is region 0; every bag
reaches itself only. -/
def exampleContext : Context :=
  { TLS := { threadID := 1, currentRegion := some 1, multiplexRandomSeed := 0 }
    LimboRegion := some 0
    ReachableObjectsFrom := fun _ obj =>
      match obj with
      | Obj.bag a => some [a]
      | _ => none }

/-- Every bag is in region 1, which thread 1 owns. -/
def exampleHeap : Heap :=
  { DS_BAG := fun _ => some 1
    region := fun _ => { owner := some 1, fixed_owner := true } }

/-- A dynamic channel that is full: ten objects sent into a fresh dynamic channel, whose
capacity is 20 slots. -/
def exampleFullDynamic : Channel :=
  (trySendAll exampleContext ((List.range 10).map (fun i => Obj.intobj i))
    (CreateChannel exampleContext 0 (-1)) exampleHeap).2.1

/-- Two channels for `ReceiveAnyChannel`: channel 0 (`A`) is empty, channel 1 (`B`) holds
42; the monitor of `B` has the lower address, so sorting puts `B` first. -/
def exampleChannels : Channels := fun c =>
  if c = 1 then
    (TrySendChannel exampleContext exampleHeap (CreateChannel exampleContext 10 1)
      (Obj.intobj 42)).channel
  else CreateChannel exampleContext 20 1

/-- A barrier started with 3 on which three `WaitBarrier` calls have arrived: the second
call arrives during the wait of the first, the third during the wait of the second. -/
def exampleBarrier : Barrier :=
  (WaitBarrier (StartBarrier (CreateBarrier 0) 3).1
    (fun b => (WaitBarrier b (fun b => (WaitBarrier b (fun b => b)).2.1)).2.1)).2.1

/-- Bag 2 is in region 2, which thread 2 owns; every other bag is in region 1, which
thread 1 owns. -/
def exampleHeapMixed : Heap :=
  { DS_BAG := fun a => if a = 2 then some 2 else some 1
    region := fun r => if r = 2 then { owner := some 2, fixed_owner := true }
      else { owner := some 1, fixed_owner := true } }

/-- The test of `AddToChannel`, when `migrate` is set, for moving the objects reachable
from `obj`: `obj` is a bag in a region with a fixed owner that is the calling thread. -/
def sendMigrates (ctx : Context) (heap : Heap) (obj : Obj) : Bool :=
  IS_BAG_REF obj &&
    (match heap.dsOf obj with
     | some r => decide ((heap.region r).owner = some ctx.TLS.threadID) &&
                   (heap.region r).fixed_owner
     | none => false)

/-- The children list that `AddToChannel` queues with an object sent with `migrate` set. -/
def sendChildren (ctx : Context) (heap : Heap) (obj : Obj) : Option (List Nat) :=
  if sendMigrates ctx heap obj then ctx.ReachableObjectsFrom heap obj else none

/-- A receiving thread: thread 2, whose current region is region 2. -/
def exampleReceiver : Context :=
  { exampleContext with TLS := { threadID := 2, currentRegion := some 2, multiplexRandomSeed := 0 } }

/-! ## Descriptions, invariants and instances for locking, wait lists and the keep-alive list -/

/-- The state that the interface's description gives for the argument loop after the
arguments `args`. -/
def lockArgsOf (b : Booleans) (args : List Obj) : LockArgs :=
  { objects := (lockPairs b args).map Prod.fst
    modes := (lockPairs b args).map Prod.snd
    mode := modeAt b args args.length }

/-- The array `monitors` that `ReceiveAnyChannel` builds from `channelList`: the channels
sorted by `SortChannels`, then `monitors[i] = ObjPtr(channels[i]->monitor)`. -/
def receiveAnyMonitors (chans : Channels) (channelList : List Nat) : List Nat :=
  (SortChannels chans channelList).map (fun c => (chans c).monitor)

/-- Whether a monitor call takes an array of monitors other than `monitors`. -/
def MonitorCall.usesOnly (monitors : List Nat) : MonitorCall → Prop
  | .LockMonitors ms => ms = monitors
  | .WaitForAnyMonitor ms => ms = monitors
  | _ => True

/-- Whether a waiter's thread has an empty slot `acquiredMonitor`. -/
def unclaimed (s : MonitorState) (node : Nat) : Bool :=
  decide (s.acquiredMonitor (s.nodes node).thread = none)

/-- What holds of a monitor on which the waiters `l` were enqueued, in that order. -/
def Enqueued (a0 : Nat → Option Nat) (s : MonitorState) (l : List (Nat × Nat)) : Prop :=
  waitChain s.nodes s.monitor.head (l.map Prod.fst) ∧
    s.monitor.tail = (l.map Prod.fst).getLast? ∧
    (l = [] → s.monitor.head = none) ∧
    (∀ w ∈ l, (s.nodes w.1).thread = w.2) ∧
    s.acquiredMonitor = a0

/-- The slots `acquiredMonitor` after the first `k` waiters of `ws` were claimed for the
monitor `self`. -/
def claimed (a0 : Nat → Option Nat) (self : Nat) (ws : List (Nat × Nat)) (k : Nat) :
    Nat → Option Nat :=
  fun t => if t ∈ (ws.take k).map Prod.snd then some self else a0 t

/-- The booleans of the interpreter, as the bags 100, 101 and 102. -/
def exampleBooleans : Booleans :=
  { True := Obj.bag 100, False := Obj.bag 101, Fail := Obj.bag 102 }

/-- The registry before any call: both globals null. -/
def emptyKeepAlive : KeepAliveList :=
  { FirstKeepAlive := none, LastKeepAlive := none
    nodes := fun _ => { kept := Obj.null, prev := none, next := none } }

/-- Three `KeepAlive` calls on the empty registry, pinning the bags 11, 12 and 13; `NewBag`
returns the addresses 1, 2 and 3. -/
def keepThree : KeepAliveList :=
  (KeepAlive (KeepAlive (KeepAlive emptyKeepAlive 1 (Obj.bag 11)).1 2 (Obj.bag 12)).1 3
    (Obj.bag 13)).1

/-- A monitor with an empty wait list; no thread has acquired a monitor. -/
def exampleMonitor : MonitorState :=
  { monitor := { head := none, tail := none }
    nodes := fun _ => { prev := none, next := none, thread := 0 }
    acquiredMonitor := fun _ => none }

/-- The threads 1, 2 and 3 with their wait-list nodes at the addresses 101, 102 and 103. -/
def exampleWaiters : List (Nat × Nat) := [(101, 1), (102, 2), (103, 3)]

/-- The monitor at address 7 after the three waiters were enqueued and thread 1 was
claimed. -/
def exampleWaiting : MonitorState :=
  { exampleWaiters.foldl enqueueWaiter exampleMonitor with
    acquiredMonitor := fun t => if t = 1 then some 7 else none }

/-! ## Further functions of the binding table, and instances -/

/-- The function `IsChannel`: `obj && TNUM_OBJ(obj) == T_CHANNEL`; `isChannelBag a` says
that the bag at address `a` has the type `T_CHANNEL`. -/
def IsChannel (isChannelBag : Nat → Bool) : Obj → Bool
  | Obj.bag a => isChannelBag a
  | _ => false

/-- The function `IsChannelList` on the elements of a plain list. -/
def IsChannelList (isChannelBag : Nat → Bool) (list : List Obj) : Bool :=
  list.all (IsChannel isChannelBag)

/-- The addresses of the bags of a list of objects. -/
def bagAddresses (list : List Obj) : List Nat :=
  list.filterMap (fun obj =>
    match obj with
    | Obj.bag a => some a
    | _ => none)

/-- The body shared by `FuncReceiveAnyChannel` (`with_index = false`) and
`FuncReceiveAnyChannelWithIndex` (`with_index = true`): the arguments `args` are channels,
or one plain list of channels. -/
def receiveAnyArgs (ctx : Context) (isChannelBag : Nat → Bool) (chans : Channels) (heap : Heap)
    (args : List Obj) (with_index : Bool) (wakes : List AnyWake) : Result (Except Stop AnyRet) :=
  if IsChannelList isChannelBag args then
    .ok (ReceiveAnyChannel ctx chans heap (bagAddresses args) with_index wakes)
  else
    match args with
    | [Obj.plist elems] =>
      if IsChannelList isChannelBag (elems.map Obj.bag) then
        .ok (ReceiveAnyChannel ctx chans heap elems with_index wakes)
      else .error "ReceiveAnyChannel: Argument list must be channels"
    | _ => .error "ReceiveAnyChannel: Argument list must be channels"

def FuncReceiveAnyChannel (ctx : Context) (isChannelBag : Nat → Bool) (chans : Channels)
    (heap : Heap) (args : List Obj) (wakes : List AnyWake) : Result (Except Stop AnyRet) :=
  receiveAnyArgs ctx isChannelBag chans heap args false wakes

def FuncReceiveAnyChannelWithIndex (ctx : Context) (isChannelBag : Nat → Bool) (chans : Channels)
    (heap : Heap) (args : List Obj) (wakes : List AnyWake) : Result (Except Stop AnyRet) :=
  receiveAnyArgs ctx isChannelBag chans heap args true wakes

/-- The function `FuncMAKE_PUBLIC_NORECURSE`: the object returned, the heap afterwards and
the objects whose region field `MigrateObjects` stored to. -/
def FuncMAKE_PUBLIC_NORECURSE (ctx : Context) (ProtectedRegion : Option Nat) (heap : Heap)
    (obj : Obj) : Result (Obj × Heap × List Obj) :=
  let r := MigrateObjects ctx ProtectedRegion heap [obj] none
  if r.1 = 0 then
    .error "MAKE_PUBLIC_NORECURSE: Thread does not have exclusive access to objects"
  else .ok (obj, r.2)

/-- The registry after two `KeepAlive` calls on the empty registry, pinning the bags 11 and
12; `NewBag` returns the addresses 1 and 2. -/
def keepTwo : KeepAliveList :=
  (KeepAlive (KeepAlive emptyKeepAlive 1 (Obj.bag 11)).1 2 (Obj.bag 12)).1

/-- A third `KeepAlive` call on `keepTwo`, then `StopKeepAlive` on the node it returned. -/
def keepTwoRoundTrip : KeepAliveList :=
  StopKeepAlive (KeepAlive keepTwo 3 (Obj.bag 13)).1 (KeepAlive keepTwo 3 (Obj.bag 13)).2

/-! ## Steps on the queue of a channel -/

/-- A step on the queue of a channel: a call of `AddToChannel`, of `RetrieveFromChannel`
or of `ExpandChannel`. -/
inductive QueueStep where
  | add (obj : Obj) (migrate : Bool)
  | retrieve
  | expand
  deriving DecidableEq, Repr

/-- One step, made in the states in which the code calls the function: `AddToChannel`
when `size ≠ capacity` (the senders return, leave their loop or wait while
`size == capacity`), `RetrieveFromChannel` when `size ≠ 0`, `ExpandChannel` when
`size == capacity && dynamic`. `none`: the step is not made. -/
def queueStep (ctx : Context) (st : Channel × Heap) : QueueStep → Option (Channel × Heap)
  | QueueStep.add obj migrate =>
    if st.1.size ≠ st.1.capacity then some (AddToChannel ctx st.2 st.1 obj migrate) else none
  | QueueStep.retrieve =>
    if st.1.size ≠ 0 then some (RetrieveFromChannel ctx st.2 st.1).2 else none
  | QueueStep.expand =>
    if st.1.size = st.1.capacity ∧ st.1.dynamic = true then some (ExpandChannel st.1, st.2)
    else none

/-- A sequence of steps; `none` when one of them is not made. -/
def queueRun (ctx : Context) : List QueueStep → Channel × Heap → Option (Channel × Heap)
  | [], st => some st
  | step :: steps, st =>
    match queueStep ctx st step with
    | none => none
    | some st => queueRun ctx steps st

/-- A full dynamic channel of `k` slots whose contents start at slot 0 is reached from
the state `st0` by steps on the queue. -/
def ReachedFull (ctx : Context) (st0 : Channel × Heap) (k : Nat) : Prop :=
  ∃ (steps : List QueueStep) (c : Channel) (heap : Heap),
    queueRun ctx steps st0 = some (c, heap) ∧ WellFormed c ∧ c.dynamic = true ∧
      c.size = k ∧ c.capacity = k ∧ c.head = 0

/-! ## Monitors: removing a waiter -/

/-- The first statement of the body of `RemoveWaitList`:
`if (node->prev) node->prev->next = node->next; else monitor->head = node->next;`. -/
def removePrevLink (s : MonitorState) (node : Nat) : MonitorState :=
  match (s.nodes node).prev with
  | some prev =>
    { s with nodes := Function.update s.nodes prev { s.nodes prev with next := (s.nodes node).next } }
  | none => { s with monitor := { s.monitor with head := (s.nodes node).next } }

/-- The second statement of the body of `RemoveWaitList`:
`if (node->next) node->next->prev = node->prev; else monitor->tail = node->prev;`. -/
def removeNextLink (s : MonitorState) (node : Nat) : MonitorState :=
  match (s.nodes node).next with
  | some next =>
    { s with nodes := Function.update s.nodes next { s.nodes next with prev := (s.nodes node).prev } }
  | none => { s with monitor := { s.monitor with tail := (s.nodes node).prev } }

/-- The function `RemoveWaitList`. -/
def RemoveWaitList (s : MonitorState) (node : Nat) : MonitorState :=
  match s.monitor.head with
  | none => s
  | some _ => removeNextLink (removePrevLink s node) node

/-- A stretch of a doubly-linked wait list: from the pointer `queue`, whose predecessor is
`prev`, the nodes `l` follow one another by `next`, each with its predecessor in `prev`;
`last` is the last node passed (`prev` when `l` is empty) and `rest` the pointer after
it. -/
def waitSegment (nodes : Nat → WaitList) :
    Option Nat → Option Nat → List Nat → Option Nat → Option Nat → Prop
  | prev, queue, [], last, rest => last = prev ∧ rest = queue
  | prev, queue, node :: l, last, rest =>
    queue = some node ∧ (nodes node).prev = prev ∧
      waitSegment nodes (some node) (nodes node).next l last rest

/-- The wait list of the monitor is the doubly-linked list of the distinct nodes `l`:
from `head` by `next` to null, with `tail` the last node and every `prev` link the
predecessor. -/
def WaitListOf (s : MonitorState) (l : List Nat) : Prop :=
  l.Nodup ∧ waitSegment s.nodes none s.monitor.head l s.monitor.tail none

/-- The nodes met from `queue` by following `next`, at most `fuel` of them. -/
def waitersFrom (nodes : Nat → WaitList) : Nat → Option Nat → List Nat
  | _, none => []
  | 0, some _ => []
  | fuel + 1, some node => node :: waitersFrom nodes fuel (nodes node).next

/-- The nodes met from `queue` by following `prev`, at most `fuel` of them. -/
def waitersBack (nodes : Nat → WaitList) : Nat → Option Nat → List Nat
  | _, none => []
  | 0, some _ => []
  | fuel + 1, some node => node :: waitersBack nodes fuel (nodes node).prev

/-- The monitor after the threads 1, 2 and 3 were enqueued with their nodes 101, 102 and
103. -/
def exampleEnqueued : MonitorState :=
  exampleWaiters.foldl enqueueWaiter exampleMonitor

/-- Two empty channels for `ReceiveAnyChannel`: channel 0 (`A`) with the monitor 20,
channel 1 (`B`) with the monitor 10. -/
def exampleEmptyChannels : Channels := fun c =>
  if c = 1 then CreateChannel exampleContext 10 1 else CreateChannel exampleContext 20 1

/-- What another thread does during the wait: it sends 7 into channel `A` and signals its
monitor, which is at index 1 of the sorted array. -/
def exampleWake : AnyWake :=
  { effect := fun st =>
      (Function.update st.1 0 (TrySendChannel exampleContext st.2 (st.1 0) (Obj.intobj 7)).channel,
        (TrySendChannel exampleContext st.2 (st.1 0) (Obj.intobj 7)).heap)
    signalled := 1 }

/-! ## Arithmetic and list lemmas -/

theorem or_one_eq (n : Nat) : n ||| 1 = 2 * (n / 2) + 1 := by
  have h1 : (1 : Nat) = Nat.bit true 0 := by simp [Nat.bit_val]
  have hn : Nat.bit n.bodd (n / 2) = n := by
    have := Nat.bit_decomp n
    simpa [Nat.div2_val] using this
  calc n ||| 1 = Nat.bit n.bodd (n / 2) ||| Nat.bit true 0 := by rw [hn, ← h1]
    _ = Nat.bit (n.bodd || true) (n / 2 ||| 0) := by rw [Nat.lor_bit]
    _ = 2 * (n / 2) + 1 := by simp [Nat.bit_val]

/-- Reduction modulo `n` of a number below `2 * n`. -/
theorem mod_wrap (a n : Nat) (h : a < 2 * n) : a % n = if a < n then a else a - n := by
  split
  · exact Nat.mod_eq_of_lt ‹_›
  · rw [Nat.mod_eq_sub_mod (by omega)]
    exact Nat.mod_eq_of_lt (by omega)

theorem expandCapacity_spec (old : Nat) (h : old * 25 < 2 ^ 32) (he : old % 2 = 0) :
    old + 2 ≤ expandCapacity old ∧ expandCapacity old % 2 = 0 ∧
      expandCapacity old ≤ old * 25 / 16 + 4 := by
  unfold expandCapacity
  simp only [Nat.mod_eq_of_lt h, or_one_eq]
  split <;> omega

/-- Slots written by a loop of stores at distinct places. -/
theorem foldl_set_length (f : Nat → Nat) (g : Nat → Obj) (is : List Nat) (q : List Obj) :
    (is.foldl (fun nq i => nq.set (f i) (g i)) q).length = q.length := by
  induction is generalizing q with
  | nil => rfl
  | cons a rest ih => simp [List.foldl_cons, ih]

theorem foldl_set_other (f : Nat → Nat) (g : Nat → Obj) (is : List Nat) (q : List Obj) (k : Nat)
    (hk : ∀ i ∈ is, f i ≠ k) :
    (is.foldl (fun nq i => nq.set (f i) (g i)) q)[k]? = q[k]? := by
  induction is generalizing q with
  | nil => rfl
  | cons a rest ih =>
    simp only [List.foldl_cons]
    rw [ih _ (fun i hi => hk i (List.mem_cons_of_mem _ hi))]
    exact List.getElem?_set_ne (hk a (List.mem_cons_self _ _))

theorem foldl_set_written (f : Nat → Nat) (g : Nat → Obj) (is : List Nat) (q : List Obj) (i : Nat)
    (hnd : is.Nodup) (hinj : ∀ a ∈ is, ∀ b ∈ is, f a = f b → a = b)
    (hi : i ∈ is) (hlt : f i < q.length) :
    (is.foldl (fun nq i => nq.set (f i) (g i)) q)[f i]? = some (g i) := by
  induction is generalizing q with
  | nil => cases hi
  | cons a rest ih =>
    simp only [List.foldl_cons]
    rw [List.nodup_cons] at hnd
    rcases List.mem_cons.mp hi with rfl | hi'
    · rw [foldl_set_other]
      · exact List.getElem?_set_self hlt
      · intro j hj hfj
        have := hinj j (List.mem_cons_of_mem _ hj) i (List.mem_cons_self _ _) hfj
        subst this
        exact hnd.1 hj
    · apply ih _ hnd.2 (fun x hx y hy => hinj x (List.mem_cons_of_mem _ hx) y (List.mem_cons_of_mem _ hy)) hi'
      simpa using hlt

theorem expandCopyTail_eq (queue : List Obj) (tail old new : Nat) (nq : List Obj) :
    expandCopyTail queue tail old new nq =
      (List.range tail).foldl
        (fun q i => q.set (expandTarget old new i) (queue.getD i Obj.null)) nq := rfl

theorem expandCopyHead_eq (queue : List Obj) (head old : Nat) (nq : List Obj) :
    expandCopyHead queue head old nq =
      (List.range' head (old - head)).foldl
        (fun q i => q.set ((fun x => x) i) (queue.getD i Obj.null)) nq := rfl

/-- The queue built by `ExpandChannel`, slot by slot, when `old + 2 ≤ new`. -/
theorem expand_queue_get (queue : List Obj) (head old new : Nat) (hlen : queue.length = old)
    (hh : head < old) (hnew : old + 2 ≤ new) (j : Nat) (hj : j < old) :
    (expandCopyTail queue head old new
        (expandCopyHead queue head old (List.replicate new Obj.null)))[(head + j) % new]? =
      queue[(head + j) % old]? := by
  have hlen1 : (expandCopyHead queue head old (List.replicate new Obj.null)).length = new := by
    rw [expandCopyHead_eq, foldl_set_length]; simp
  rw [mod_wrap (head + j) new (by omega), mod_wrap (head + j) old (by omega)]
  by_cases hc : head + j < old
  · -- the segment from head to the end keeps its place
    rw [if_pos (by omega), if_pos hc, expandCopyTail_eq, foldl_set_other]
    · rw [expandCopyHead_eq]
      have hw := foldl_set_written (fun x => x) (fun i => queue.getD i Obj.null)
        (List.range' head (old - head)) (List.replicate new Obj.null) (head + j)
        (List.nodup_range' _ _) (fun a _ b _ h => h)
        (by simp [List.mem_range']; omega) (by simp; omega)
      simp only at hw
      rw [hw, List.getD_eq_getElem?_getD, List.getElem?_eq_getElem (by omega)]
      simp
    · intro i hi
      simp only [List.mem_range] at hi
      unfold expandTarget
      split <;> omega
  · -- the segment from 0 to tail moves behind the old end, wrapping at the new end
    rw [if_neg hc]
    have hi : head + j - old ∈ List.range head := by simp [List.mem_range]; omega
    have hw := foldl_set_written (expandTarget old new) (fun i => queue.getD i Obj.null)
      (List.range head) (expandCopyHead queue head old (List.replicate new Obj.null))
      (head + j - old) (List.nodup_range _)
      (by
        intro a ha b hb
        simp only [List.mem_range] at ha hb
        unfold expandTarget
        split <;> split <;> omega)
      hi (by rw [hlen1]; unfold expandTarget; split <;> omega)
    have ht : expandTarget old new (head + j - old) =
        if head + j < new then head + j else head + j - new := by
      unfold expandTarget
      split <;> split <;> omega
    rw [ht] at hw
    rw [expandCopyTail_eq, hw]
    simp only [List.getD_eq_getElem?_getD]
    rw [List.getElem?_eq_getElem (by omega)]
    simp


/-! ## The channel steps on a well-formed channel -/

/-- The values of a channel are determined by its size and its slots below the size. -/
theorem values_congr (c c' : Channel) (hs : c'.size = c.size)
    (h : ∀ j, j < c.size → c'.slot j = c.slot j) : c'.values = c.values := by
  unfold Channel.values
  rw [hs]
  apply List.map_congr_left
  intro j hj
  simp only [List.mem_range] at hj
  exact h _ (by omega)

theorem values_length (c : Channel) : c.values.length = c.size / 2 := by
  simp [Channel.values]

/-- The effect of `ExpandChannel` on a full well-formed channel, when the product `oldCapacity * 25`
does not wrap. -/
theorem ExpandChannel_full (c : Channel) (hwf : WellFormed c) (hfull : c.size = c.capacity)
    (hr : c.capacity * 25 < 2 ^ 32) :
    WellFormed (ExpandChannel c) ∧ (ExpandChannel c).size = c.size ∧
      (ExpandChannel c).size < (ExpandChannel c).capacity ∧
      (ExpandChannel c).dynamic = c.dynamic ∧
      (ExpandChannel c).head = c.head ∧
      (ExpandChannel c).capacity = expandCapacity c.capacity ∧
      (∀ j, j < c.size → (ExpandChannel c).slot j = c.slot j) := by
  obtain ⟨hlen, hsz, hhd, htl, hteq, hce, hse, hhe⟩ := hwf
  have hmod : c.capacity % 2 ^ 32 = c.capacity := Nat.mod_eq_of_lt (by omega)
  have hmod' : c.capacity % 4294967296 = c.capacity := hmod
  obtain ⟨hge, hev, _⟩ := expandCapacity_spec c.capacity hr hce
  have htail : c.tail = c.head := by
    rw [hteq, hfull, mod_wrap _ _ (by omega)]
    split <;> omega
  have hql : (ExpandChannel c).queue.length = expandCapacity c.capacity := by
    simp only [ExpandChannel, hmod, expandCopyTail_eq, expandCopyHead_eq, foldl_set_length,
      List.length_replicate]
  refine ⟨⟨?_, ?_, ?_, ?_, ?_, ?_, ?_, ?_⟩, rfl, ?_, rfl, rfl, ?_, ?_⟩
  · simpa [ExpandChannel, hmod'] using hql
  · simp only [ExpandChannel, hmod]; omega
  · simp only [ExpandChannel, hmod]; omega
  · simp only [ExpandChannel, hmod]; split <;> omega
  · simp only [ExpandChannel, hmod]
    rw [mod_wrap _ _ (by omega)]
    split <;> split <;> omega
  · simpa [ExpandChannel, hmod'] using hev
  · simpa [ExpandChannel] using hse
  · simpa [ExpandChannel] using hhe
  · simp only [ExpandChannel, hmod]; omega
  · simp [ExpandChannel, hmod']
  · intro j hj
    have := expand_queue_get c.queue c.head c.capacity (expandCapacity c.capacity) hlen hhd hge j
      (by omega)
    simp only [Channel.slot, List.getD_eq_getElem?_getD, ExpandChannel, hmod, htail, this]

/-- The effect of `AddToChannel` on a well-formed channel that is not full. -/
theorem AddToChannel_spec (ctx : Context) (heap : Heap) (c : Channel) (obj : Obj) (migrate : Bool)
    (hwf : WellFormed c) (hlt : c.size < c.capacity) :
    WellFormed (AddToChannel ctx heap c obj migrate).1 ∧
      (AddToChannel ctx heap c obj migrate).1.size = c.size + 2 ∧
      (AddToChannel ctx heap c obj migrate).1.capacity = c.capacity ∧
      (AddToChannel ctx heap c obj migrate).1.dynamic = c.dynamic ∧
      (AddToChannel ctx heap c obj migrate).1.head = c.head ∧
      (∀ j, j < c.size → (AddToChannel ctx heap c obj migrate).1.slot j = c.slot j) ∧
      (AddToChannel ctx heap c obj migrate).1.slot c.size = obj := by
  obtain ⟨hlen, hsz, hhd, htl, hteq, hce, hse, hhe⟩ := hwf
  rw [mod_wrap _ _ (by omega)] at hteq
  have hte : c.tail % 2 = 0 := by split at hteq <;> omega
  refine ⟨⟨?_, ?_, ?_, ?_, ?_, ?_, ?_, ?_⟩, rfl, rfl, rfl, rfl, ?_, ?_⟩
  · simpa [AddToChannel] using hlen
  · simp only [AddToChannel]; omega
  · simpa [AddToChannel] using hhd
  · simp only [AddToChannel]; split <;> omega
  · simp only [AddToChannel]
    rw [mod_wrap _ _ (by omega)]
    split at hteq <;> split <;> split <;> omega
  · simpa [AddToChannel] using hce
  · simp only [AddToChannel]; omega
  · simpa [AddToChannel] using hhe
  · intro j hj
    simp only [Channel.slot, AddToChannel, List.getD_eq_getElem?_getD]
    rw [List.getElem?_set_ne, List.getElem?_set_ne]
    · rw [mod_wrap _ _ (by omega)]; split at hteq <;> split <;> omega
    · rw [mod_wrap _ _ (by omega)]; split at hteq <;> split <;> omega
  · simp only [Channel.slot, AddToChannel, List.getD_eq_getElem?_getD]
    have h1 : (c.head + c.size) % c.capacity = c.tail := by
      rw [mod_wrap _ _ (by omega)]; exact hteq.symm
    rw [h1, List.getElem?_set_ne (by omega), List.getElem?_set_self (by omega)]
    rfl

/-- The effect of `RetrieveFromChannel` on a well-formed channel that is not empty. -/
theorem RetrieveFromChannel_spec (ctx : Context) (heap : Heap) (c : Channel)
    (hwf : WellFormed c) (hpos : 0 < c.size) :
    (RetrieveFromChannel ctx heap c).1 = c.slot 0 ∧
      WellFormed (RetrieveFromChannel ctx heap c).2.1 ∧
      (RetrieveFromChannel ctx heap c).2.1.size = c.size - 2 ∧
      (RetrieveFromChannel ctx heap c).2.1.capacity = c.capacity ∧
      (RetrieveFromChannel ctx heap c).2.1.dynamic = c.dynamic ∧
      (∀ j, j + 2 < c.size → (RetrieveFromChannel ctx heap c).2.1.slot j = c.slot (j + 2)) := by
  obtain ⟨hlen, hsz, hhd, htl, hteq, hce, hse, hhe⟩ := hwf
  rw [mod_wrap _ _ (by omega)] at hteq
  refine ⟨?_, ⟨?_, ?_, ?_, ?_, ?_, ?_, ?_, ?_⟩, rfl, rfl, rfl, ?_⟩
  · simp [RetrieveFromChannel, Channel.slot, Nat.mod_eq_of_lt hhd]
  · simpa [RetrieveFromChannel] using hlen
  · simp only [RetrieveFromChannel]; omega
  · simp only [RetrieveFromChannel]; split <;> omega
  · simpa [RetrieveFromChannel] using htl
  · simp only [RetrieveFromChannel]
    rw [mod_wrap _ _ (by split <;> omega)]
    split at hteq <;> split <;> split <;> omega
  · simpa [RetrieveFromChannel] using hce
  · simp only [RetrieveFromChannel]; omega
  · simp only [RetrieveFromChannel]; split <;> omega
  · intro j hj
    simp only [Channel.slot, RetrieveFromChannel, List.getD_eq_getElem?_getD]
    have hidx : ((if c.head + 2 = c.capacity then 0 else c.head + 2) + j) % c.capacity =
        (c.head + (j + 2)) % c.capacity := by
      rw [mod_wrap _ _ (by split <;> omega), mod_wrap _ _ (by omega)]
      split <;> split <;> split <;> omega
    rw [hidx, List.getElem?_set_ne, List.getElem?_set_ne]
    · rw [mod_wrap _ _ (by omega)]; split <;> omega
    · rw [mod_wrap _ _ (by omega)]; split <;> omega



theorem values_getElem? (c : Channel) (k : Nat) :
    c.values[k]? = if k < c.size / 2 then some (c.slot (2 * k)) else none := by
  unfold Channel.values
  rw [List.getElem?_map]
  split
  · rw [List.getElem?_range ‹_›]; rfl
  · rw [List.getElem?_eq_none (by simp; omega)]; rfl

theorem values_ExpandChannel (c : Channel) (hwf : WellFormed c) (hfull : c.size = c.capacity)
    (hr : c.capacity * 25 < 2 ^ 32) : (ExpandChannel c).values = c.values := by
  obtain ⟨_, hs, _, _, _, _, hslot⟩ := ExpandChannel_full c hwf hfull hr
  exact values_congr c _ hs hslot

theorem values_RetrieveFromChannel (ctx : Context) (heap : Heap) (c : Channel)
    (hwf : WellFormed c) (hpos : 0 < c.size) :
    c.values = (RetrieveFromChannel ctx heap c).1 :: (RetrieveFromChannel ctx heap c).2.1.values := by
  obtain ⟨hv, _, hs, _, _, hslot⟩ := RetrieveFromChannel_spec ctx heap c hwf hpos
  have hse : c.size % 2 = 0 := hwf.2.2.2.2.2.2.1
  apply List.ext_getElem?
  intro k
  rw [values_getElem?]
  cases k with
  | zero => rw [if_pos (by omega), hv]; simp
  | succ k =>
    rw [List.getElem?_cons_succ, values_getElem?, hs]
    by_cases h1 : k + 1 < c.size / 2
    · rw [if_pos h1, if_pos (by omega), hslot _ (by omega)]
      congr 2
    · rw [if_neg h1, if_neg (by omega)]


/-- The opening statement of every send, on a well-formed channel: the channel stays
well-formed with the same values, and a dynamic channel has room afterwards. -/
theorem expandIfFull_spec (c : Channel) (hwf : WellFormed c)
    (hr : c.dynamic = true → c.size * 25 < 2 ^ 32) :
    WellFormed (expandIfFull c) ∧ (expandIfFull c).values = c.values ∧
      (expandIfFull c).size = c.size ∧ (expandIfFull c).dynamic = c.dynamic ∧
      (c.dynamic = true → (expandIfFull c).size < (expandIfFull c).capacity) ∧
      (c.dynamic = false ∨ c.size < c.capacity → expandIfFull c = c) := by
  have hsz : c.size ≤ c.capacity := hwf.2.1
  by_cases hfd : c.size = c.capacity ∧ c.dynamic = true
  · obtain ⟨hfull, hd⟩ := hfd
    have hE : expandIfFull c = ExpandChannel c := by simp [expandIfFull, hfull, hd]
    obtain ⟨hwf', hs, hlt, hdy, _, _, _⟩ :=
      ExpandChannel_full c hwf hfull (by rw [← hfull]; exact hr hd)
    have hv := values_ExpandChannel c hwf hfull (by rw [← hfull]; exact hr hd)
    rw [hE]
    refine ⟨hwf', hv, hs, hdy, fun _ => hlt, ?_⟩
    intro h
    rcases h with h | h
    · rw [hd] at h; cases h
    · omega
  · have hE : expandIfFull c = c := by
      unfold expandIfFull
      by_cases h1 : c.size = c.capacity
      · have : c.dynamic = false := by
          cases h : c.dynamic
          · rfl
          · exact absurd ⟨h1, h⟩ hfd
        simp [this]
      · simp [h1]
    rw [hE]
    refine ⟨hwf, rfl, rfl, rfl, ?_, fun _ => rfl⟩
    intro hd
    have : c.size ≠ c.capacity := fun h => hfd ⟨h, hd⟩
    omega

theorem WellFormed_CreateChannel (ctx : Context) (newMonitor : Nat) (capacity : Int)
    (h : capacity ≠ 0) : WellFormed (CreateChannel ctx newMonitor capacity) := by
  unfold WellFormed CreateChannel
  by_cases hneg : capacity < 0
  · simp [hneg]
  · simp only [hneg, if_false, List.length_replicate, Nat.zero_le, Nat.zero_mod,
      Nat.add_zero, true_and, and_true]
    omega


/-! ## Channel FIFO -/

theorem waitWhileFull_room (wakes : List Wake) (c : Channel) (heap : Heap)
    (h : c.size < c.capacity) : waitWhileFull wakes c heap = some (c, heap, []) := by
  cases wakes <;> simp [waitWhileFull, Nat.ne_of_lt h]

theorem SignalChannel_isWait (c : Channel) : ∀ call ∈ SignalChannel c, call.isWait = false := by
  intro call h
  unfold SignalChannel at h
  split at h
  · simp only [List.mem_singleton] at h; subst h; rfl
  · cases h

/-- The effect of `SendChannel` / `TransmitChannel` when there is room after the optional expansion: no
wait is made. -/
theorem sendBody_room (ctx : Context) (migrate : Bool) (heap : Heap) (c : Channel) (obj : Obj)
    (wakes : List Wake) (h : (expandIfFull c).size < (expandIfFull c).capacity) :
    sendBody ctx migrate heap c obj wakes =
      some { val := (), channel := (AddToChannel ctx heap (expandIfFull c) obj migrate).1,
             heap := (AddToChannel ctx heap (expandIfFull c) obj migrate).2,
             calls := LockChannel c ++ [] ++
               SignalChannel (AddToChannel ctx heap (expandIfFull c) obj migrate).1 ++
               UnlockChannel (AddToChannel ctx heap (expandIfFull c) obj migrate).1 } := by
  simp only [sendBody, waitWhileFull_room wakes _ heap h]

theorem take_set_succ (l : List Obj) (i : Nat) (v : Obj) (h : i < l.length) :
    (l.set i v).take (i + 1) = l.take i ++ [v] := by
  apply List.ext_getElem?
  intro k
  rw [List.getElem?_take, List.getElem?_append, List.getElem?_set]
  simp only [List.length_take, Nat.min_eq_left (Nat.le_of_lt h), List.getElem?_take]
  by_cases h1 : k < i
  · rw [if_pos (by omega), if_neg (by omega), if_pos h1, if_pos h1]
  · by_cases h2 : k = i
    · subst h2
      simp [h]
    · rw [if_neg (by omega), if_neg h1]
      rw [List.getElem?_eq_none (by simp; omega)]

theorem multiReceiveLoop_spec (ctx : Context) (n : Nat) :
    ∀ (i : Nat) (c : Channel) (heap : Heap) (result : List Obj), WellFormed c →
      n ≤ c.size / 2 → result.length = i + n →
      (multiReceiveLoop ctx n i c heap result).1 = result.take i ++ c.values.take n ∧
        (multiReceiveLoop ctx n i c heap result).2.1.values = c.values.drop n := by
  induction n with
  | zero =>
    intro i c heap result _ _ hlen
    simp only [multiReceiveLoop, List.take_zero, List.append_nil, List.drop_zero, and_true]
    rw [List.take_of_length_le (by omega)]
  | succ n ih =>
    intro i c heap result hwf hn hlen
    have hse : c.size % 2 = 0 := hwf.2.2.2.2.2.2.1
    have hpos : 0 < c.size := by omega
    obtain ⟨_, hwf', hs, _, _, _⟩ := RetrieveFromChannel_spec ctx heap c hwf hpos
    have hv := values_RetrieveFromChannel ctx heap c hwf hpos
    obtain ⟨h1, h2⟩ := ih (i + 1) (RetrieveFromChannel ctx heap c).2.1
      (RetrieveFromChannel ctx heap c).2.2 (result.set i (RetrieveFromChannel ctx heap c).1)
      hwf' (by rw [hs]; omega) (by rw [List.length_set]; omega)
    simp only [multiReceiveLoop]
    rw [h1, h2, take_set_succ _ _ _ (by omega)]
    constructor
    · conv_rhs => rw [hv]
      simp
    · conv_rhs => rw [hv]
      simp

/-- C6. On a well-formed channel, `MultiReceiveChannel channel max` returns a list of
exactly `min max (size / 2)` values, which are the oldest queued values in FIFO order,
removes exactly those from the channel, and makes no call that waits. -/
theorem MultiReceiveChannel_takes_oldest (ctx : Context) (heap : Heap) (c : Channel) (max : Nat)
    (hwf : WellFormed c) :
    (MultiReceiveChannel ctx heap c max).val.length = min max (c.size / 2) ∧
      (MultiReceiveChannel ctx heap c max).val = c.values.take (min max (c.size / 2)) ∧
      (MultiReceiveChannel ctx heap c max).channel.values =
        c.values.drop (min max (c.size / 2)) ∧
      ∀ call ∈ (MultiReceiveChannel ctx heap c max).calls, call.isWait = false := by
  have hcount : (if max > c.size / 2 then c.size / 2 else max) = min max (c.size / 2) := by
    split <;> omega
  obtain ⟨h1, h2⟩ := multiReceiveLoop_spec ctx (min max (c.size / 2)) 0 c heap
    (List.replicate (min max (c.size / 2)) Obj.null) hwf (by omega) (by simp)
  simp only [List.take_zero, List.nil_append] at h1
  simp only [MultiReceiveChannel, hcount]
  refine ⟨?_, h1, h2, ?_⟩
  · rw [h1, List.length_take, values_length]; omega
  · intro call hcall
    simp only [LockChannel, UnlockChannel, List.mem_append, List.mem_singleton] at hcall
    rcases hcall with (h | h) | h
    · subst h; rfl
    · exact SignalChannel_isWait _ _ h
    · subst h; rfl

/-- C6 at a channel holding ten values, asked for three. -/
theorem MultiReceiveChannel_takes_oldest_witness :
    (MultiReceiveChannel exampleContext exampleHeap exampleFullDynamic 3).val.length =
        min 3 (exampleFullDynamic.size / 2) ∧
      (MultiReceiveChannel exampleContext exampleHeap exampleFullDynamic 3).val =
        exampleFullDynamic.values.take (min 3 (exampleFullDynamic.size / 2)) ∧
      (MultiReceiveChannel exampleContext exampleHeap exampleFullDynamic 3).channel.values =
        exampleFullDynamic.values.drop (min 3 (exampleFullDynamic.size / 2)) ∧
      ∀ call ∈ (MultiReceiveChannel exampleContext exampleHeap exampleFullDynamic 3).calls,
        call.isWait = false :=
  MultiReceiveChannel_takes_oldest exampleContext exampleHeap exampleFullDynamic 3 (by decide)


/-! ## Creating a channel from the interpreter -/

/-- C7 fails on the code. A channel that holds the two values 1 and 2 is inspected as
`[1, null]`: the loop counter `i` advances by 2 while it indexes the result, and the queue
position `p` advances by 1, so the second turn reads the second slot of the first pair and
stores it past the end of the result. With three queued bags the third element of the
result is the list of children that was queued with the first bag. -/
theorem InspectChannel_loses_values :
    (trySendAll exampleContext [Obj.intobj 1, Obj.intobj 2]
        (CreateChannel exampleContext 0 2) exampleHeap).2.1.values =
        [Obj.intobj 1, Obj.intobj 2] ∧
      (InspectChannel exampleHeap
        (trySendAll exampleContext [Obj.intobj 1, Obj.intobj 2]
          (CreateChannel exampleContext 0 2) exampleHeap).2.1).val =
        [Obj.intobj 1, Obj.null] ∧
      (trySendAll exampleContext [Obj.bag 5, Obj.bag 6, Obj.bag 7]
        (CreateChannel exampleContext 0 3) exampleHeap).2.1.values =
        [Obj.bag 5, Obj.bag 6, Obj.bag 7] ∧
      (InspectChannel exampleHeap
        (trySendAll exampleContext [Obj.bag 5, Obj.bag 6, Obj.bag 7]
          (CreateChannel exampleContext 0 3) exampleHeap).2.1).val =
        [Obj.bag 5, Obj.null, Obj.plist [5]] := by
  decide

/-! ## Receiving from any of several channels -/

theorem SortChannels_perm (chans : Channels) (l : List Nat) : (SortChannels chans l).Perm l := by
  unfold SortChannels MergeSort
  exact List.perm_insertionSort _ _

/-- The step of the probe position: `p++; if (p >= count) p = 0;`. -/
theorem probe_next (a count : Nat) (hc : 0 < count) :
    (if a % count + 1 ≥ count then 0 else a % count + 1) = (a + 1) % count := by
  have hlt : a % count < count := Nat.mod_lt _ hc
  have h1 : (a + 1) % count = (a % count + 1) % count := (Nat.mod_add_mod a count 1).symm
  rw [h1, mod_wrap (a % count + 1) count (by omega)]
  split <;> split <;> omega

/-- The probe loop started at position `p0` either stops at a channel with data, or has
found the channels at all positions it visited empty. -/
theorem probeLoop_spec (chans : Channels) (channels : List Nat) (count p0 : Nat)
    (hc : 0 < count) (n : Nat) :
    ∀ (i ch0 : Nat), n + i = count →
      (probeLoop chans channels count n i ((p0 + i) % count) ch0).1 ≤ count ∧
      ((probeLoop chans channels count n i ((p0 + i) % count) ch0).1 < count →
        (probeLoop chans channels count n i ((p0 + i) % count) ch0).2.2 =
            channels.getD (probeLoop chans channels count n i ((p0 + i) % count) ch0).2.1 0 ∧
          (probeLoop chans channels count n i ((p0 + i) % count) ch0).2.1 < count ∧
          0 < (chans (probeLoop chans channels count n i ((p0 + i) % count) ch0).2.2).size) ∧
      (¬ (probeLoop chans channels count n i ((p0 + i) % count) ch0).1 < count →
        ∀ k, i ≤ k → k < count → (chans (channels.getD ((p0 + k) % count) 0)).size = 0) := by
  induction n with
  | zero =>
    intro i ch0 hi
    simp only [probeLoop]
    refine ⟨by omega, fun h => by omega, fun _ k hk1 hk2 => by omega⟩
  | succ n ih =>
    intro i ch0 hi
    simp only [probeLoop]
    by_cases hsize : 0 < (chans (channels.getD ((p0 + i) % count) 0)).size
    · simp only [gt_iff_lt, hsize, if_true]
      refine ⟨by omega, fun _ => ⟨trivial, Nat.mod_lt _ hc, trivial⟩, fun h => by omega⟩
    · simp only [gt_iff_lt, hsize, if_false]
      rw [probe_next _ _ hc, Nat.add_assoc]
      obtain ⟨h1, h2, h3⟩ := ih (i + 1) (channels.getD ((p0 + i) % count) 0) (by omega)
      refine ⟨h1, h2, ?_⟩
      intro hnot k hk1 hk2
      by_cases hki : k = i
      · subst hki; omega
      · exact h3 hnot k (by omega) hk2

/-- Every position is visited by `count` turns of the probe loop. -/
theorem probe_covers (count p0 j : Nat) (hp : p0 < count) (hj : j < count) :
    ∃ k, k < count ∧ (p0 + k) % count = j := by
  by_cases h : p0 ≤ j
  · exact ⟨j - p0, by omega, by rw [Nat.mod_eq_of_lt (by omega)]; omega⟩
  · refine ⟨j + count - p0, by omega, ?_⟩
    rw [mod_wrap _ _ (by omega)]
    split <;> omega

/-- When the wait loop of `ReceiveAnyChannel` ends, it has found a channel of the array
that holds data. -/
theorem waitAnyLoop_spec (channels monitors : List Nat) (count : Nat) (wakes : List AnyWake) :
    ∀ (chans : Channels) (heap : Heap) r,
      waitAnyLoop channels monitors count wakes chans heap = Except.ok r →
      r.1 < count ∧ r.2.1 = channels.getD r.1 0 ∧ 0 < (r.2.2.1 r.2.1).size := by
  induction wakes with
  | nil => intro chans heap r h; simp [waitAnyLoop] at h
  | cons wake wakes ih =>
    intro chans heap r h
    simp only [waitAnyLoop] at h
    split at h
    · rename_i hp
      split at h
      · rename_i hsize
        cases h
        exact ⟨hp, rfl, hsize⟩
      · cases hrec : waitAnyLoop channels monitors count wakes
            (bumpWaiting (wake.effect (bumpWaiting chans channels 1, heap)).1 channels (-1))
            (wake.effect (bumpWaiting chans channels 1, heap)).2 with
        | error e => rw [hrec] at h; cases h
        | ok r' =>
          rw [hrec] at h
          cases h
          exact ih _ _ r' hrec
    · cases h



theorem getD_mem (l : List Nat) (p : Nat) (h : p < l.length) : l.getD p 0 ∈ l := by
  rw [List.getD_eq_getElem?_getD, List.getElem?_eq_getElem h]
  exact List.getElem_mem h

/-- What the middle of `ReceiveAnyChannel` returns is a channel of the array that holds
data; when a channel of the array holds data on entry, it returns without a wait, with the
channels and the heap as they were. -/
theorem receiveAnyFind_spec (chans : Channels) (heap : Heap) (channels monitors : List Nat)
    (p : Nat) (wakes : List AnyWake) (hp : p < channels.length) :
    (∀ r, receiveAnyFind chans heap channels monitors channels.length p wakes = Except.ok r →
        r.2.1 ∈ channels ∧ 0 < (r.2.2.1 r.2.1).size) ∧
      ((∃ c ∈ channels, 0 < (chans c).size) →
        ∃ r, receiveAnyFind chans heap channels monitors channels.length p wakes = Except.ok r ∧
          r.2.2.1 = chans ∧ r.2.2.2.1 = heap ∧ ∀ call ∈ r.2.2.2.2, call.isWait = false) := by
  have hc : 0 < channels.length := by omega
  have hp0 : (p + 0) % channels.length = p := by simp [Nat.mod_eq_of_lt hp]
  have hprobe := probeLoop_spec chans channels channels.length p hc channels.length 0 0 (by omega)
  rw [hp0] at hprobe
  obtain ⟨_, hfound, hnone⟩ := hprobe
  constructor
  · intro r hr
    unfold receiveAnyFind at hr
    by_cases hi : (probeLoop chans channels channels.length channels.length 0 p 0).1 <
        channels.length
    · simp only [hi, if_true] at hr
      cases hr
      obtain ⟨h1, h2, h3⟩ := hfound hi
      refine ⟨?_, h3⟩
      simp only
      rw [h1]
      exact getD_mem _ _ h2
    · simp only [hi, if_false] at hr
      obtain ⟨h1, h2, h3⟩ := waitAnyLoop_spec _ _ _ _ _ _ r hr
      refine ⟨?_, h3⟩
      rw [h2]
      exact getD_mem _ _ h1
  · rintro ⟨c, hmem, hsize⟩
    have hi : (probeLoop chans channels channels.length channels.length 0 p 0).1 <
        channels.length := by
      by_contra hnot
      obtain ⟨j, hj, hcj⟩ := List.getElem_of_mem hmem
      obtain ⟨k, hk, hkj⟩ := probe_covers channels.length p j hp hj
      have := hnone hnot k (by omega) hk
      rw [hkj, List.getD_eq_getElem?_getD, List.getElem?_eq_getElem hj, Option.getD_some,
        hcj] at this
      omega
    refine ⟨((probeLoop chans channels channels.length channels.length 0 p 0).1,
        (probeLoop chans channels channels.length channels.length 0 p 0).2.2, chans, heap,
        ((List.range channels.length).filter
          (fun j => j ≠ (probeLoop chans channels channels.length channels.length 0 p 0).1)).map
          (fun j => MonitorCall.UnlockMonitor (monitors.getD j 0))),
      by simp only [receiveAnyFind, hi, if_true], rfl, rfl, ?_⟩
    intro call hcall
    simp only [List.mem_map, List.mem_filter] at hcall
    obtain ⟨j, _, rfl⟩ := hcall
    rfl

theorem syncWrites_written (values : List Obj) :
    ∀ var : SyncVar, var.written = true → syncWrites var values = var := by
  induction values with
  | nil => intro var _; rfl
  | cons value rest ih =>
    intro var h
    have : (SyncWrite var value).2.1 = var := by simp [SyncWrite, h]
    simp only [syncWrites, List.foldl_cons, this]
    exact ih var h

/-- C9. SyncVar write-once: on a variable that is not yet written, `SyncWrite var v` stores
`v` and sets the written flag; on a variable that is already written it fails with an
error and leaves the variable unchanged; hence after the first successful write of `v`
every `SyncRead` returns `v` without waiting, whatever `SyncWrite` calls are attempted
after the first. -/
theorem SyncVar_write_once (var : SyncVar) (v : Obj) :
    (var.written = false →
        (SyncWrite var v).1 = Except.ok () ∧ (SyncWrite var v).2.1.value = v ∧
          (SyncWrite var v).2.1.written = true) ∧
      (var.written = true →
        (SyncWrite var v).1 = Except.error "SyncWrite: Variable already has a value" ∧
          (SyncWrite var v).2.1 = var) ∧
      (var.written = false →
        ∀ (later : List Obj) (monitorHead : Bool) (wakes : List SyncWake),
          (SyncRead (syncWrites (SyncWrite var v).2.1 later) monitorHead wakes).map
              (fun r => (r.1, r.2.1)) =
            some (v, (SyncWrite var v).2.1)) := by
  refine ⟨?_, ?_, ?_⟩
  · intro h; simp [SyncWrite, h]
  · intro h; simp [SyncWrite, h]
  · intro h later monitorHead wakes
    have hw : (SyncWrite var v).2.1.written = true := by simp [SyncWrite, h]
    have hv : (SyncWrite var v).2.1.value = v := by simp [SyncWrite, h]
    rw [syncWrites_written later _ hw]
    have hwait : waitUntilWritten wakes (SyncWrite var v).2.1 = some ((SyncWrite var v).2.1, []) := by
      cases wakes <;> simp [waitUntilWritten, hw]
    simp only [SyncRead, hwait, Option.map_some', hv]

/-! ## Barriers -/

/-- C10. `WaitBarrier` raises the error "Barrier was reset" if and only if the phase of the
barrier when the call has finished its wait differs (as a value of type `unsigned`) from
the phase it recorded on entry, and returns normally otherwise; a call that makes no wait
(the last arrival) never raises it, and a call during whose wait `StartBarrier` runs once
does. -/
theorem WaitBarrier_reset_iff (barrier : Barrier) (wake : Barrier → Barrier) :
    ((WaitBarrier barrier wake).1 = Except.error "WaitBarrier: Barrier was reset" ↔
        (WaitBarrier barrier wake).2.1.phase % 2 ^ 32 ≠ barrier.phase % 2 ^ 32) ∧
      ((WaitBarrier barrier wake).1 = Except.ok () ↔
        (WaitBarrier barrier wake).2.1.phase % 2 ^ 32 = barrier.phase % 2 ^ 32) ∧
      ((∀ call ∈ (WaitBarrier barrier wake).2.2, call.isWait = false) →
        (WaitBarrier barrier wake).1 = Except.ok ()) ∧
      ∀ count : Nat, barrier.count - 1 > 0 →
        (WaitBarrier barrier (fun b => (StartBarrier b count).1)).1 =
          Except.error "WaitBarrier: Barrier was reset" := by
  have hdelta : ∀ p q : Nat, (p % 2 ^ 32 + 2 ^ 32 - q % 2 ^ 32) % 2 ^ 32 ≠ 0 ↔
      q % 2 ^ 32 ≠ p % 2 ^ 32 := by
    intro p q
    omega
  have hphase : ∀ w : Barrier → Barrier,
      ((WaitBarrier barrier w).1 = Except.error "WaitBarrier: Barrier was reset" ↔
        (WaitBarrier barrier w).2.1.phase % 2 ^ 32 ≠ barrier.phase % 2 ^ 32) ∧
      ((WaitBarrier barrier w).1 = Except.ok () ↔
        (WaitBarrier barrier w).2.1.phase % 2 ^ 32 = barrier.phase % 2 ^ 32) := by
    intro w
    have h1 : (WaitBarrier barrier w).1 =
        if (barrier.phase % 2 ^ 32 + 2 ^ 32 - (WaitBarrier barrier w).2.1.phase % 2 ^ 32) %
            2 ^ 32 ≠ 0
        then Except.error "WaitBarrier: Barrier was reset" else Except.ok () := rfl
    rw [h1]
    split
    · rename_i h
      rw [hdelta] at h
      exact ⟨⟨fun _ => h, fun _ => rfl⟩, ⟨fun h' => (by cases h'), fun h' => absurd h' h⟩⟩
    · rename_i h
      rw [hdelta] at h
      simp only [ne_eq, not_not] at h
      exact ⟨⟨fun h' => (by cases h'), fun h' => absurd h h'⟩, ⟨fun _ => h, fun _ => rfl⟩⟩
  refine ⟨(hphase wake).1, (hphase wake).2, ?_, ?_⟩
  · intro hno
    rw [(hphase wake).2]
    by_cases hc : barrier.count - 1 > 0
    · exfalso
      have hmem : MonitorCall.WaitForMonitor barrier.monitor ∈ (WaitBarrier barrier wake).2.2 := by
        simp only [WaitBarrier, hc, if_true, JoinBarrier, LockBarrier]
        simp
      have := hno _ hmem
      simp [MonitorCall.isWait] at this
    · simp only [WaitBarrier, hc, if_false]
  · intro count hc
    rw [(hphase _).1]
    simp only [WaitBarrier, hc, if_true, JoinBarrier, StartBarrier]
    omega

/-! ## Barriers: a late arrival -/

/-- C11, as the claim states it, fails: after `StartBarrier` with 3 and three arrivals the
count is 0, and a fourth `WaitBarrier` call makes no wait call: it returns, without an
error, leaving the count at -1. -/
theorem WaitBarrier_fourth_returns :
    exampleBarrier.count = 0 ∧
      (WaitBarrier exampleBarrier (fun b => b)).1 = Except.ok () ∧
      (WaitBarrier exampleBarrier (fun b => b)).2.2.all (fun call => !call.isWait) = true ∧
      (WaitBarrier exampleBarrier (fun b => b)).2.1.count = -1 := by
  refine ⟨by decide, rfl, by decide, by decide⟩

/-- C11, amended. `WaitBarrier` takes the `JoinBarrier` branch (its only wait) exactly when
the count is above 1 on entry; in particular, after a barrier has been started with 3 and
three calls have arrived (count = 0), a fourth call made before any new `StartBarrier`
does not block: it decrements the count to -1 and returns without an error. -/
theorem WaitBarrier_blocks_iff (barrier : Barrier) (wake : Barrier → Barrier) :
    ((∃ call ∈ (WaitBarrier barrier wake).2.2, call.isWait = true) ↔ barrier.count > 1) ∧
      (barrier.count = 0 →
        (WaitBarrier barrier wake).1 = Except.ok () ∧
          (WaitBarrier barrier wake).2.1 = { barrier with count := -1 } ∧
          ∀ call ∈ (WaitBarrier barrier wake).2.2, call.isWait = false) := by
  have hcalls : ∀ b : Barrier, ∀ call ∈ SignalBarrier b, call.isWait = false := by
    intro b call h
    unfold SignalBarrier at h
    split at h
    · simp only [List.mem_singleton] at h; subst h; rfl
    · cases h
  have hno : ¬ barrier.count - 1 > 0 → ∀ call ∈ (WaitBarrier barrier wake).2.2,
      call.isWait = false := by
    intro hc call hcall
    simp only [WaitBarrier, hc, if_false, LockBarrier, UnlockBarrier, List.append_nil,
      List.mem_append, List.mem_singleton] at hcall
    rcases hcall with (h | h) | h
    · subst h; rfl
    · exact hcalls _ _ h
    · subst h; rfl
  constructor
  · constructor
    · rintro ⟨call, hmem, hw⟩
      by_contra hc
      have := hno (by omega) call hmem
      rw [hw] at this
      cases this
    · intro hc
      refine ⟨MonitorCall.WaitForMonitor barrier.monitor, ?_, rfl⟩
      have hc' : barrier.count - 1 > 0 := by omega
      simp only [WaitBarrier, hc', if_true, JoinBarrier, LockBarrier]
      simp
  · intro h0
    have hc : ¬ barrier.count - 1 > 0 := by omega
    refine ⟨?_, ?_, hno hc⟩
    · simp only [WaitBarrier, hc, if_false]
      rw [if_neg]
      omega
    · simp only [WaitBarrier, hc, if_false, h0]
      rfl

/-! ## Semaphores -/

/-- When the wait loop of `FuncWaitSemaphore` ends, the count it has observed is not 0; it
is non-negative if it was on entry and the other threads keep it so. -/
theorem waitWhileZero_spec (wakes : List SemWake) :
    ∀ (sem sem' : Semaphore) (calls : List MonitorCall),
      waitWhileZero wakes sem = some (sem', calls) →
      sem'.count ≠ 0 ∧
        (0 ≤ sem.count →
          (∀ wake ∈ wakes, ∀ s : Semaphore, 0 ≤ s.count → 0 ≤ (wake s).count) →
          0 ≤ sem'.count) := by
  induction wakes with
  | nil =>
    intro sem sem' calls h
    simp only [waitWhileZero] at h
    split at h
    · cases h
    · cases h
      exact ⟨by assumption, fun h0 _ => h0⟩
  | cons wake wakes ih =>
    intro sem sem' calls h
    simp only [waitWhileZero] at h
    split at h
    · cases hrec : waitWhileZero wakes (wake sem) with
      | none => rw [hrec] at h; cases h
      | some r =>
        rw [hrec] at h
        cases h
        obtain ⟨h1, h2⟩ := ih (wake sem) r.1 r.2 hrec
        refine ⟨h1, fun h0 henv => h2 (henv wake (List.mem_cons_self _ _) sem h0) ?_⟩
        intro w hw
        exact henv w (List.mem_cons_of_mem _ hw)
    · cases h
      exact ⟨by assumption, fun h0 _ => h0⟩

theorem semStep_count_nonneg (sem sem' : Semaphore) (op : SemOp) (h0 : 0 ≤ sem.count)
    (henv : op.envKeepsCount) (hstep : semStep sem op = some sem') : 0 ≤ sem'.count := by
  cases op with
  | signal =>
    simp only [semStep, FuncSignalSemaphore, Option.some.injEq] at hstep
    subst hstep
    simp only
    omega
  | tryWait =>
    simp only [semStep, FuncTryWaitSemaphore, Option.some.injEq] at hstep
    subst hstep
    simp only
    split
    · rename_i h
      simp only [decide_eq_true_eq] at h
      simp only
      omega
    · exact h0
  | wait wakes =>
    simp only [semStep, FuncWaitSemaphore] at hstep
    cases hw : waitWhileZero wakes { sem with waiting := sem.waiting + 1 } with
    | none => simp [hw] at hstep
    | some r =>
      obtain ⟨h1, h2⟩ := waitWhileZero_spec wakes _ r.1 r.2 hw
      have h3 := h2 h0 henv
      simp only [hw, Option.some.injEq] at hstep
      subst hstep
      simp only
      omega

theorem semRun_count_nonneg (ops : List SemOp) :
    ∀ (sem sem' : Semaphore), 0 ≤ sem.count → (∀ op ∈ ops, op.envKeepsCount) →
      semRun ops sem = some sem' → 0 ≤ sem'.count := by
  induction ops with
  | nil =>
    intro sem sem' h0 _ hrun
    simp only [semRun, Option.some.injEq] at hrun
    subst hrun
    exact h0
  | cons op ops ih =>
    intro sem sem' h0 henv hrun
    simp only [semRun] at hrun
    cases hstep : semStep sem op with
    | none => simp [hstep] at hrun
    | some s1 =>
      simp only [hstep] at hrun
      exact ih s1 sem' (semStep_count_nonneg sem s1 op h0 (henv op (List.mem_cons_self _ _)) hstep)
        (fun o ho => henv o (List.mem_cons_of_mem _ ho)) hrun

/-- C12. The count of a semaphore is never negative: `FuncCreateSemaphore` rejects a
negative initial count and creates a count that is not negative; `FuncTryWaitSemaphore`
decrements the count only when it is positive and returns `True` exactly then;
`FuncWaitSemaphore` decrements only a count it has observed to be not 0 (and returns at
once, without a wait, when the count is not 0 on entry); and after every sequence of
calls of `FuncSignalSemaphore`, `FuncWaitSemaphore` and `FuncTryWaitSemaphore` on a
created semaphore (the other threads keeping the count non-negative during the waits) the
count is at least 0. -/
theorem Semaphore_count_nonneg :
    (∀ (newMonitor : Nat) (n : Int), n < 0 →
        FuncCreateSemaphore newMonitor [Obj.intobj n] =
          Except.error "CreateSemaphore: Initial count must be non-negative") ∧
      (∀ sem : Semaphore, ∃ calls,
        FuncTryWaitSemaphore (SemaphoreArg.semaphore sem) =
          Except.ok (decide (sem.count > 0),
            { sem with count := if sem.count > 0 then sem.count - 1 else sem.count,
                       waiting := sem.waiting - 1 }, calls)) ∧
      (∀ (sem sem' : Semaphore) (wakes : List SemWake) (calls : List MonitorCall),
        FuncWaitSemaphore (SemaphoreArg.semaphore sem) wakes = Except.ok (some (sem', calls)) →
        ∃ (observed : Semaphore) (waits : List MonitorCall),
          waitWhileZero wakes { sem with waiting := sem.waiting + 1 } = some (observed, waits) ∧
          observed.count ≠ 0 ∧ sem'.count = observed.count - 1) ∧
      (∀ (sem : Semaphore) (wakes : List SemWake), sem.count ≠ 0 →
        ∃ calls, FuncWaitSemaphore (SemaphoreArg.semaphore sem) wakes =
            Except.ok (some ({ sem with count := sem.count - 1 }, calls)) ∧
          ∀ call ∈ calls, call.isWait = false) ∧
      (∀ (newMonitor : Nat) (args : List Obj) (sem0 sem : Semaphore) (ops : List SemOp),
        FuncCreateSemaphore newMonitor args = Except.ok sem0 →
        (∀ op ∈ ops, op.envKeepsCount) → semRun ops sem0 = some sem → 0 ≤ sem.count) := by
  refine ⟨?_, ?_, ?_, ?_, ?_⟩
  · intro newMonitor n hn
    simp only [FuncCreateSemaphore, hn, if_true]
  · intro sem
    by_cases hpos : sem.count > 0
    · exact ⟨_, by simp only [FuncTryWaitSemaphore, hpos, decide_True, if_true]; rfl⟩
    · exact ⟨_, by
        simp only [FuncTryWaitSemaphore, hpos, decide_False, if_false, Bool.false_eq_true]
        rfl⟩
  · intro sem sem' wakes calls h
    simp only [FuncWaitSemaphore] at h
    cases hw : waitWhileZero wakes { sem with waiting := sem.waiting + 1 } with
    | none => simp [hw] at h
    | some r =>
      obtain ⟨h1, _⟩ := waitWhileZero_spec wakes _ r.1 r.2 hw
      simp only [hw, Except.ok.injEq, Option.some.injEq, Prod.mk.injEq] at h
      refine ⟨r.1, r.2, rfl, h1, ?_⟩
      rw [← h.1]
  · intro sem wakes hne
    have hw : waitWhileZero wakes { sem with waiting := sem.waiting + 1 } =
        some ({ sem with waiting := sem.waiting + 1 }, []) := by
      cases wakes <;> simp [waitWhileZero, hne]
    refine ⟨_, by
      simp only [FuncWaitSemaphore, hw, add_sub_cancel_right, List.append_nil]
      rfl, ?_⟩
    intro call hcall
    split at hcall
    · simp only [List.mem_append, List.mem_cons, List.mem_singleton, List.not_mem_nil,
        or_false] at hcall
      rcases hcall with (h | h) | h <;> (rw [h]; rfl)
    · simp only [List.mem_append, List.mem_singleton] at hcall
      rcases hcall with h | h <;> (rw [h]; rfl)
  · intro newMonitor args sem0 sem ops hcreate henv hrun
    have h0 : 0 ≤ sem0.count := by
      unfold FuncCreateSemaphore at hcreate
      split at hcreate
      · cases hcreate; simp [CreateSemaphore]
      · split at hcreate
        · split at hcreate
          · cases hcreate
          · cases hcreate
            simp only [CreateSemaphore]
            omega
        · cases hcreate
      · cases hcreate
    exact semRun_count_nonneg ops sem0 sem h0 henv hrun

/-! ## Migration -/

theorem setRegion_fold_DS_BAG (target : Option Nat) (objects : List Obj) :
    ∀ (heap : Heap) (a : Nat),
      (objects.foldl (fun h obj => h.setRegion obj target) heap).DS_BAG a =
        if Obj.bag a ∈ objects then target else heap.DS_BAG a := by
  induction objects with
  | nil => intro heap a; simp
  | cons obj rest ih =>
    intro heap a
    simp only [List.foldl_cons, ih, List.mem_cons]
    by_cases hrest : Obj.bag a ∈ rest
    · simp [hrest]
    · simp only [hrest, if_false, or_false]
      by_cases hobj : Obj.bag a = obj
      · subst hobj
        simp [Heap.setRegion]
      · rw [if_neg hobj]
        cases obj with
        | bag b =>
          have : a ≠ b := fun h => hobj (by rw [h])
          simp [Heap.setRegion, Function.update_noteq this]
        | null => rfl
        | intobj n => rfl
        | plist l => rfl

theorem setRegion_fold_region (target : Option Nat) (objects : List Obj) :
    ∀ heap : Heap, (objects.foldl (fun h obj => h.setRegion obj target) heap).region =
      heap.region := by
  induction objects with
  | nil => intro heap; rfl
  | cons obj rest ih =>
    intro heap
    simp only [List.foldl_cons, ih]
    cases obj <;> rfl

/-- C13. Migration failure is atomic: when `MigrateObjects` returns 0, the heap is the one
before the call (the region of every object is unchanged, also of the objects listed before
the offending one) and no region field has been stored to. -/
theorem MigrateObjects_failure_atomic (ctx : Context) (ProtectedRegion : Option Nat)
    (heap : Heap) (objects : List Obj) (target : Option Nat)
    (h : (MigrateObjects ctx ProtectedRegion heap objects target).1 = 0) :
    (MigrateObjects ctx ProtectedRegion heap objects target).2.1 = heap ∧
      (MigrateObjects ctx ProtectedRegion heap objects target).2.2 = [] ∧
      ∀ obj : Obj,
        (MigrateObjects ctx ProtectedRegion heap objects target).2.1.dsOf obj = heap.dsOf obj := by
  unfold MigrateObjects at h ⊢
  split at h
  · cases h
  · rename_i hall
    rw [if_neg hall]
    exact ⟨rfl, rfl, fun _ => rfl⟩

/-- C13 at a list whose second object is in a region of another thread. -/
theorem MigrateObjects_failure_atomic_witness :
    (MigrateObjects exampleContext (some 9) exampleHeapMixed [Obj.bag 1, Obj.bag 2] (some 3)).2.1 =
        exampleHeapMixed ∧
      (MigrateObjects exampleContext (some 9) exampleHeapMixed [Obj.bag 1, Obj.bag 2]
        (some 3)).2.2 = [] ∧
      ∀ obj : Obj,
        (MigrateObjects exampleContext (some 9) exampleHeapMixed [Obj.bag 1, Obj.bag 2]
          (some 3)).2.1.dsOf obj = exampleHeapMixed.dsOf obj :=
  MigrateObjects_failure_atomic exampleContext (some 9) exampleHeapMixed [Obj.bag 1, Obj.bag 2]
    (some 3) (by decide)

/-- C14, as the claim states it, fails: `MigrateObjects` succeeds on a list that holds the
immediate object 5, which is in no region that the calling thread owns, and the object is
not in the target region afterwards. -/
theorem MigrateObjects_immediate_succeeds :
    (MigrateObjects exampleContext (some 9) exampleHeap [Obj.intobj 5] (some 3)).1 = 1 ∧
      exampleHeap.dsOf (Obj.intobj 5) = none ∧
      (MigrateObjects exampleContext (some 9) exampleHeap [Obj.intobj 5] (some 3)).2.1.dsOf
        (Obj.intobj 5) ≠ some 3 := by
  decide

/-- C14, amended. `MigrateObjects` succeeds (returns 1, and 0 otherwise) exactly when, for
each listed object that is a bag reference, the calling thread owns the region of the
object and that region is not the protected region; listed objects that are not bag
references are not checked. When it succeeds the region of every listed bag is the target
region, and the region of every other bag is unchanged. -/
theorem MigrateObjects_spec (ctx : Context) (ProtectedRegion : Option Nat) (heap : Heap)
    (objects : List Obj) (target : Option Nat) :
    ((MigrateObjects ctx ProtectedRegion heap objects target).1 = 1 ∨
        (MigrateObjects ctx ProtectedRegion heap objects target).1 = 0) ∧
      ((MigrateObjects ctx ProtectedRegion heap objects target).1 = 1 ↔
        ∀ obj ∈ objects, IS_BAG_REF obj = true →
          ∃ ds, heap.dsOf obj = some ds ∧
            (heap.region ds).owner = some ctx.TLS.threadID ∧ some ds ≠ ProtectedRegion) ∧
      ((MigrateObjects ctx ProtectedRegion heap objects target).1 = 1 →
        ∀ a : Nat,
          (MigrateObjects ctx ProtectedRegion heap objects target).2.1.DS_BAG a =
            if Obj.bag a ∈ objects then target else heap.DS_BAG a) := by
  have hcheck : ∀ obj, migrateCheck ctx ProtectedRegion heap obj = true ↔
      (IS_BAG_REF obj = true → ∃ ds, heap.dsOf obj = some ds ∧
        (heap.region ds).owner = some ctx.TLS.threadID ∧ some ds ≠ ProtectedRegion) := by
    intro obj
    unfold migrateCheck
    cases hb : IS_BAG_REF obj
    · simp
    · cases hds : heap.dsOf obj with
      | none => simp
      | some ds => simp
  by_cases hall : objects.all (migrateCheck ctx ProtectedRegion heap) = true
  · have h1 : (MigrateObjects ctx ProtectedRegion heap objects target).1 = 1 := by
      simp only [MigrateObjects, hall, if_true]
    refine ⟨Or.inl h1, ⟨fun _ obj hobj => (hcheck obj).mp (List.all_eq_true.mp hall obj hobj),
      fun _ => h1⟩, ?_⟩
    intro _ a
    simp only [MigrateObjects, hall, if_true]
    exact setRegion_fold_DS_BAG target objects heap a
  · have h0 : (MigrateObjects ctx ProtectedRegion heap objects target).1 = 0 := by
      simp only [MigrateObjects, hall]
      rfl
    refine ⟨Or.inr h0, ⟨fun h => ?_, fun h => ?_⟩, fun h => ?_⟩
    · rw [h0] at h; cases h
    · exfalso
      apply hall
      rw [List.all_eq_true]
      exact fun obj hobj => (hcheck obj).mpr (h obj hobj)
    · rw [h0] at h; cases h

/-! ## Region transfer on send and receive -/

theorem setRegions_DS_BAG (ds : Option Nat) (items : List Nat) :
    ∀ (heap : Heap) (a : Nat),
      (heap.setRegions items ds).DS_BAG a = if a ∈ items then ds else heap.DS_BAG a := by
  induction items with
  | nil => intro heap a; simp [Heap.setRegions]
  | cons item rest ih =>
    intro heap a
    simp only [Heap.setRegions, List.foldl_cons, List.mem_cons] at ih ⊢
    rw [ih]
    by_cases hrest : a ∈ rest
    · simp [hrest]
    · simp only [hrest, if_false, or_false]
      by_cases ha : a = item
      · subst ha; simp
      · simp [ha, Function.update_noteq ha]

theorem AddToChannel_heap (ctx : Context) (heap : Heap) (c : Channel) (obj : Obj) :
    (AddToChannel ctx heap c obj true).2 =
      heap.setRegions ((sendChildren ctx heap obj).getD []) c.queueRegion := by
  simp only [AddToChannel, sendChildren, sendMigrates, Bool.true_and]

/-- The second slot that `AddToChannel` fills: the children list, or null. -/
theorem AddToChannel_children (ctx : Context) (heap : Heap) (c : Channel) (obj : Obj)
    (hwf : WellFormed c) (hlt : c.size < c.capacity) :
    (AddToChannel ctx heap c obj true).1.slot (c.size + 1) =
      match sendChildren ctx heap obj with
      | some l => Obj.plist l
      | none => Obj.null := by
  obtain ⟨hlen, hsz, hhd, htl, hteq, hce, hse, hhe⟩ := hwf
  rw [mod_wrap _ _ (by omega)] at hteq
  have hte : c.tail % 2 = 0 := by split at hteq <;> omega
  have h1 : (c.head + (c.size + 1)) % c.capacity = c.tail + 1 := by
    rw [mod_wrap _ _ (by omega)]
    split at hteq <;> split <;> omega
  simp only [Channel.slot, AddToChannel, List.getD_eq_getElem?_getD, sendChildren, sendMigrates,
    Bool.true_and]
  rw [h1, List.getElem?_set_self (by simp; omega)]
  rfl

theorem expandIfFull_queueRegion (c : Channel) : (expandIfFull c).queueRegion = c.queueRegion := by
  unfold expandIfFull
  split <;> rfl

/-- C15, as the claim states it, fails: thread 1 sends bag 2, which is in a region that
thread 2 owns; the reachable set of the bag is the bag itself, and after the enqueue it is
still in region 2, not in the region of the queue (the limbo region, region 0). -/
theorem SendChannel_leaves_foreign_region :
    exampleContext.ReachableObjectsFrom exampleHeapMixed (Obj.bag 2) = some [2] ∧
      (CreateChannel exampleContext 0 1).queueRegion = some 0 ∧
      (SendChannel exampleContext exampleHeapMixed (CreateChannel exampleContext 0 1)
        (Obj.bag 2) []).map (fun r => r.heap.DS_BAG 2) = some (some 2) := by
  decide

/-- C15, amended. An object sent with `SendChannel` is queued with its children list. If
the object is a bag in a region with a fixed owner that is the sending thread, the
children list is the reachable set of the object and after the enqueue every object of
that set is in the region of the channel's queue (the limbo region, for a channel made by
`CreateChannel`); otherwise the send changes no region. When the pair queued for the
object is at the head of a channel and `RetrieveFromChannel` takes it, the object is
returned and every object of its children list is in the current region of the receiving
thread. -/
theorem SendChannel_region_transfer (ctx receiver : Context) (heap heap2 : Heap)
    (c c2 : Channel) (obj : Obj) (wakes : List Wake)
    (hwf : WellFormed c) (hr : c.dynamic = true → c.size * 25 < 2 ^ 32)
    (hroom : c.dynamic = true ∨ c.size < c.capacity)
    (hwf2 : WellFormed c2) :
    (∃ r, SendChannel ctx heap c obj wakes = some r ∧ r.channel.slot c.size = obj ∧
        (∀ l, sendMigrates ctx heap obj = true → ctx.ReachableObjectsFrom heap obj = some l →
          r.channel.slot (c.size + 1) = Obj.plist l ∧
            ∀ a ∈ l, r.heap.DS_BAG a = c.queueRegion) ∧
        (sendMigrates ctx heap obj = false → r.heap = heap)) ∧
      (∀ l, c2.slot 0 = obj → c2.slot 1 = Obj.plist l →
        (RetrieveFromChannel receiver heap2 c2).1 = obj ∧
          ∀ a ∈ l, (RetrieveFromChannel receiver heap2 c2).2.2.DS_BAG a =
            receiver.TLS.currentRegion) ∧
      (∀ (newMonitor : Nat) (capacity : Int),
        (CreateChannel ctx newMonitor capacity).queueRegion = ctx.LimboRegion) ∧
      (ExpandChannel c).queueRegion = c.queueRegion := by
  obtain ⟨hwf1, _, hs1, _, hroom1, hsame⟩ := expandIfFull_spec c hwf hr
  have hlt : (expandIfFull c).size < (expandIfFull c).capacity := by
    rcases hroom with h | h
    · exact hroom1 h
    · rw [hsame (Or.inr h)]; exact h
  refine ⟨⟨_, sendBody_room ctx true heap c obj wakes hlt, ?_, ?_, ?_⟩, ?_, fun _ _ => rfl, rfl⟩
  · have := (AddToChannel_spec ctx heap (expandIfFull c) obj true hwf1 hlt).2.2.2.2.2.2
    rw [hs1] at this
    exact this
  · intro l hm hreach
    have hch : sendChildren ctx heap obj = some l := by simp [sendChildren, hm, hreach]
    constructor
    · have := AddToChannel_children ctx heap (expandIfFull c) obj hwf1 hlt
      rw [hs1, hch] at this
      exact this
    · intro a ha
      simp only
      rw [AddToChannel_heap, hch, setRegions_DS_BAG, expandIfFull_queueRegion]
      simp [ha]
  · intro hm
    have hch : sendChildren ctx heap obj = none := by simp [sendChildren, hm]
    simp only
    rw [AddToChannel_heap, hch]
    rfl
  · intro l h0 h1
    obtain ⟨hlen, hsz, hhd, htl, hteq, hce, hse, hhe⟩ := hwf2
    have e0 : c2.queue.getD c2.head Obj.null = obj := by
      have : c2.head % c2.capacity = c2.head := Nat.mod_eq_of_lt hhd
      simpa [Channel.slot, this] using h0
    have e1 : c2.queue.getD (c2.head + 1) Obj.null = Obj.plist l := by
      have : (c2.head + 1) % c2.capacity = c2.head + 1 := Nat.mod_eq_of_lt (by omega)
      simpa [Channel.slot, this] using h1
    refine ⟨by simp only [RetrieveFromChannel, e0], ?_⟩
    intro a ha
    simp only [RetrieveFromChannel, e1]
    rw [setRegions_DS_BAG]
    simp [ha]

/-- C15, amended, at bag 5 sent by thread 1 (which owns its region) into an empty channel
and taken by thread 2 from the channel the send has left. -/
theorem SendChannel_region_transfer_witness :
    (∃ r, SendChannel exampleContext exampleHeap (CreateChannel exampleContext 0 1) (Obj.bag 5)
          [] = some r ∧
        r.channel.slot (CreateChannel exampleContext 0 1).size = Obj.bag 5 ∧
        (∀ l, sendMigrates exampleContext exampleHeap (Obj.bag 5) = true →
          exampleContext.ReachableObjectsFrom exampleHeap (Obj.bag 5) = some l →
          r.channel.slot ((CreateChannel exampleContext 0 1).size + 1) = Obj.plist l ∧
            ∀ a ∈ l, r.heap.DS_BAG a = (CreateChannel exampleContext 0 1).queueRegion) ∧
        (sendMigrates exampleContext exampleHeap (Obj.bag 5) = false → r.heap = exampleHeap)) ∧
      (∀ l,
        (TrySendChannel exampleContext exampleHeap (CreateChannel exampleContext 0 1)
          (Obj.bag 5)).channel.slot 0 = Obj.bag 5 →
        (TrySendChannel exampleContext exampleHeap (CreateChannel exampleContext 0 1)
          (Obj.bag 5)).channel.slot 1 = Obj.plist l →
        (RetrieveFromChannel exampleReceiver exampleHeap
          (TrySendChannel exampleContext exampleHeap (CreateChannel exampleContext 0 1)
            (Obj.bag 5)).channel).1 = Obj.bag 5 ∧
          ∀ a ∈ l, (RetrieveFromChannel exampleReceiver exampleHeap
            (TrySendChannel exampleContext exampleHeap (CreateChannel exampleContext 0 1)
              (Obj.bag 5)).channel).2.2.DS_BAG a = exampleReceiver.TLS.currentRegion) ∧
      (∀ (newMonitor : Nat) (capacity : Int),
        (CreateChannel exampleContext newMonitor capacity).queueRegion =
          exampleContext.LimboRegion) ∧
      (ExpandChannel (CreateChannel exampleContext 0 1)).queueRegion =
        (CreateChannel exampleContext 0 1).queueRegion :=
  SendChannel_region_transfer exampleContext exampleReceiver exampleHeap exampleHeap
    (CreateChannel exampleContext 0 1)
    (TrySendChannel exampleContext exampleHeap (CreateChannel exampleContext 0 1)
      (Obj.bag 5)).channel
    (Obj.bag 5) [] (by decide) (by decide) (by decide) (by decide)

/-! ## Locking from the interpreter: the argument list -/

/-- The mode in force at a position does not depend on later arguments. -/
theorem modeAt_append_le (b : Booleans) (l : List Obj) (a : Obj) (i : Nat) (hi : i ≤ l.length) :
    modeAt b (l ++ [a]) i = modeAt b l i := by
  unfold modeAt
  rw [List.take_append_of_le_length hi]

/-- The mode in force after one more argument. -/
theorem modeAt_snoc (b : Booleans) (l : List Obj) (a : Obj) :
    modeAt b (l ++ [a]) (l.length + 1) =
      if isSwitch b a then switchMode b a else modeAt b l l.length := by
  unfold modeAt
  have h1 : (l ++ [a]).take (l.length + 1) = l ++ [a] := by
    rw [List.take_of_length_le (by simp)]
  rw [h1, List.take_of_length_le (Nat.le_refl _), List.reverse_append, List.reverse_singleton,
    List.singleton_append, List.find?_cons]
  cases hs : isSwitch b a <;> simp

/-- The pairs of the description after one more argument. -/
theorem lockPairs_snoc (b : Booleans) (l : List Obj) (a : Obj) :
    lockPairs b (l ++ [a]) =
      lockPairs b l ++ if isSwitch b a then [] else [(a, modeAt b l l.length)] := by
  unfold lockPairs
  rw [List.length_append, List.length_singleton, List.range_succ, List.filterMap_append]
  congr 1
  · apply List.filterMap_congr
    intro i hi
    simp only [List.mem_range] at hi
    have hget : (l ++ [a]).getD i Obj.null = l.getD i Obj.null := by
      simp only [List.getD_eq_getElem?_getD]
      rw [List.getElem?_append_left hi]
    rw [hget, modeAt_append_le b l a i (Nat.le_of_lt hi)]
  · have hget : (l ++ [a]).getD l.length Obj.null = a := by
      simp [List.getD_eq_getElem?_getD]
    simp only [List.filterMap_cons, List.filterMap_nil, hget,
      modeAt_append_le b l a l.length (Nat.le_refl _)]
    cases hs : isSwitch b a <;> simp

/-- One turn of the loop of `FuncLOCK` does what the description says for one more
argument. -/
theorem lockTurn_spec (b : Booleans) (l : List Obj) (a : Obj) :
    lockTurn b (lockArgsOf b l) a = lockArgsOf b (l ++ [a]) := by
  unfold lockArgsOf
  rw [lockPairs_snoc, List.length_append, List.length_singleton, modeAt_snoc]
  unfold lockTurn
  by_cases h1 : a = b.True
  · simp [h1, isSwitch, switchMode]
  · by_cases h2 : a = b.False
    · rw [h2] at h1 ⊢
      simp [h1, isSwitch, switchMode]
    · cases a with
      | intobj n => simp [h1, h2, isSwitch, switchMode, IS_INTOBJ]
      | null => simp [h1, h2, isSwitch, IS_INTOBJ]
      | bag x => simp [h1, h2, isSwitch, IS_INTOBJ]
      | plist x => simp [h1, h2, isSwitch, IS_INTOBJ]

/-- One turn of the loop of `FuncTRYLOCK` does what the description says for one more
argument. -/
theorem tryLockTurn_spec (b : Booleans) (l : List Obj) (a : Obj) :
    tryLockTurn b (lockArgsOf b l) a = lockArgsOf b (l ++ [a]) := by
  unfold lockArgsOf
  rw [lockPairs_snoc, List.length_append, List.length_singleton, modeAt_snoc]
  unfold tryLockTurn
  by_cases h1 : a = b.True
  · simp [h1, isSwitch, switchMode]
  · by_cases h2 : a = b.False
    · rw [h2] at h1 ⊢
      simp [h1, isSwitch, switchMode]
    · cases a with
      | intobj n => simp [h1, h2, isSwitch, switchMode, IS_INTOBJ]
      | null => simp [h1, h2, isSwitch, IS_INTOBJ]
      | bag x => simp [h1, h2, isSwitch, IS_INTOBJ]
      | plist x => simp [h1, h2, isSwitch, IS_INTOBJ]

/-- Before the first argument: no objects, mode write. -/
theorem lockArgsOf_nil (b : Booleans) :
    lockArgsOf b [] = { objects := [], modes := [], mode := 1 } := by
  simp [lockArgsOf, lockPairs, modeAt]

/-- The argument loops of `FuncLOCK` and `FuncTRYLOCK` end in the state of the
description. -/
theorem lockLoop_spec (b : Booleans) (args : List Obj) :
    args.foldl (lockTurn b) { objects := [], modes := [], mode := 1 } = lockArgsOf b args ∧
      args.foldl (tryLockTurn b) { objects := [], modes := [], mode := 1 } =
        lockArgsOf b args := by
  induction args using List.reverseRecOn with
  | nil => exact ⟨(lockArgsOf_nil b).symm, (lockArgsOf_nil b).symm⟩
  | append_singleton l a ih =>
    rw [List.foldl_append, List.foldl_append, ih.1, ih.2]
    exact ⟨lockTurn_spec b l a, tryLockTurn_spec b l a⟩

/-- C16. `FuncLOCK` and `FuncTRYLOCK` parse their mixed argument list identically: for a
list of at most 1024 arguments, the objects handed to `LockObjects` / `TryLockObjects`
are exactly the arguments that are neither booleans nor small integers, in argument
order, each paired with the mode set by the most recent preceding switch argument (`true`
or a nonzero integer: write = 1, `false` or 0: read = 0), or write if no switch precedes
it; a longer list raises an error in both. -/
theorem FuncLOCK_parses_args (b : Booleans) (LockObjects TryLockObjects : List Obj → List Int → Int)
    (args : List Obj) :
    FuncLOCK b LockObjects args =
        (if args.length > 1024 then Except.error "LOCK: Too many arguments"
         else if LockObjects ((lockPairs b args).map Prod.fst) ((lockPairs b args).map Prod.snd) ≥ 0
           then Except.ok (Obj.intobj
             (LockObjects ((lockPairs b args).map Prod.fst) ((lockPairs b args).map Prod.snd)))
           else Except.ok b.Fail) ∧
      FuncTRYLOCK b TryLockObjects args =
        (if args.length > 1024 then Except.error "TRYLOCK: Too many arguments"
         else if TryLockObjects ((lockPairs b args).map Prod.fst)
             ((lockPairs b args).map Prod.snd) ≥ 0
           then Except.ok (Obj.intobj
             (TryLockObjects ((lockPairs b args).map Prod.fst) ((lockPairs b args).map Prod.snd)))
           else Except.ok b.Fail) := by
  obtain ⟨h1, h2⟩ := lockLoop_spec b args
  constructor
  · simp only [FuncLOCK, h1, lockArgsOf]
  · simp only [FuncTRYLOCK, h2, lockArgsOf]

/-- The description at a list of nine arguments: `fail` and the null object are handed over
like any other object. -/
theorem lockPairs_example :
    lockPairs exampleBooleans
        [Obj.bag 1, Obj.bag 101, Obj.bag 2, Obj.intobj 7, Obj.bag 3, Obj.intobj 0, Obj.null,
          Obj.bag 100, Obj.bag 102] =
      [(Obj.bag 1, 1), (Obj.bag 2, 0), (Obj.bag 3, 1), (Obj.null, 0), (Obj.bag 102, 1)] := by
  decide

/-! ## Signalling a monitor -/

/-- The loop of `SignalMonitor` on a chain: it stops at the first node whose thread has an
empty slot, or at the end of the chain. -/
theorem signalWalk_spec (self : Nat) (nodes : Nat → WaitList) (acquired : Nat → Option Nat)
    (l : List Nat) :
    ∀ (fuel : Nat) (queue : Option Nat), waitChain nodes queue l → l.length ≤ fuel →
      signalWalk self nodes fuel queue acquired =
        some (match l.find? (fun node => decide (acquired (nodes node).thread = none)) with
          | some node =>
            (Function.update acquired (nodes node).thread (some self), some (nodes node).thread)
          | none => (acquired, none)) := by
  induction l with
  | nil =>
    intro fuel queue hchain _
    simp only [waitChain] at hchain
    subst hchain
    cases fuel <;> rfl
  | cons a rest ih =>
    intro fuel queue hchain hfuel
    obtain ⟨hq, hrest⟩ := hchain
    subst hq
    match fuel, hfuel with
    | fuel + 1, hfuel =>
      simp only [signalWalk, List.find?_cons]
      by_cases hslot : acquired (nodes a).thread = none
      · simp only [hslot, if_true, decide_True]
      · simp only [hslot, if_false, decide_False]
        exact ih fuel _ hrest (by simpa using hfuel)

/-- C17. `SignalMonitor` on a monitor whose wait list is the chain `l` returns (with at
least as many turns as the list has nodes), leaves the monitor and the nodes of the wait
list unchanged, and: if `node` is the first node of `l` whose thread has an empty
`acquiredMonitor` slot, that thread is signalled, its slot is set to this monitor and the
slot of every other thread is unchanged; if the list is empty or no waiter has an empty
slot, no thread is signalled and no slot changes. -/
theorem SignalMonitor_claims_oldest (fuel self : Nat) (s : MonitorState) (l : List Nat)
    (hchain : waitChain s.nodes s.monitor.head l) (hfuel : l.length ≤ fuel) :
    ∃ (s' : MonitorState) (signalled : Option Nat),
      SignalMonitor fuel self s = some (s', signalled) ∧
      s'.monitor = s.monitor ∧ s'.nodes = s.nodes ∧
      (∀ pre node post, l = pre ++ node :: post → (∀ n ∈ pre, unclaimed s n = false) →
        unclaimed s node = true →
        signalled = some (s.nodes node).thread ∧
          s'.acquiredMonitor (s.nodes node).thread = some self ∧
          ∀ t, t ≠ (s.nodes node).thread → s'.acquiredMonitor t = s.acquiredMonitor t) ∧
      ((∀ n ∈ l, unclaimed s n = false) →
        signalled = none ∧ s'.acquiredMonitor = s.acquiredMonitor) := by
  have hwalk := signalWalk_spec self s.nodes s.acquiredMonitor l fuel s.monitor.head hchain hfuel
  generalize hfound :
    l.find? (fun node => decide (s.acquiredMonitor (s.nodes node).thread = none)) = found
    at hwalk
  cases found with
  | none =>
    refine ⟨s, none, by simp only [SignalMonitor, hwalk, Option.map_some'], rfl, rfl, ?_, ?_⟩
    · intro pre node post hl _ hnode
      rw [List.find?_eq_none] at hfound
      have := hfound node (by rw [hl]; simp)
      simp only [unclaimed] at hnode
      exact absurd hnode this
    · intro _
      exact ⟨rfl, rfl⟩
  | some first =>
    refine ⟨{ s with acquiredMonitor :=
        Function.update s.acquiredMonitor (s.nodes first).thread (some self) },
      some (s.nodes first).thread, by simp only [SignalMonitor, hwalk, Option.map_some'],
      rfl, rfl, ?_, ?_⟩
    · intro pre node post hl hpre hnode
      have hfind : l.find? (fun node => decide (s.acquiredMonitor (s.nodes node).thread = none)) =
          some node := by
        rw [hl, List.find?_append, List.find?_eq_none.mpr, Option.none_or, List.find?_cons]
        · simp only [unclaimed] at hnode
          simp only [hnode]
        · intro n hn
          have := hpre n hn
          simp only [unclaimed] at this
          simp only [this, Bool.false_eq_true, not_false_eq_true]
      rw [hfind] at hfound
      cases hfound
      refine ⟨rfl, by simp, ?_⟩
      intro t ht
      simp [Function.update_noteq ht]
    · intro hall
      have hmem := List.mem_of_find?_eq_some hfound
      have hp := List.find?_some hfound
      have := hall first hmem
      simp only [unclaimed] at this
      rw [this] at hp
      cases hp

/-- C17 at the wait list of the threads 1, 2, 3 with thread 1 already claimed. -/
theorem SignalMonitor_claims_oldest_witness :
    ∃ (s' : MonitorState) (signalled : Option Nat),
      SignalMonitor 3 7 exampleWaiting = some (s', signalled) ∧
      s'.monitor = exampleWaiting.monitor ∧ s'.nodes = exampleWaiting.nodes ∧
      (∀ pre node post, [101, 102, 103] = pre ++ node :: post →
        (∀ n ∈ pre, unclaimed exampleWaiting n = false) →
        unclaimed exampleWaiting node = true →
        signalled = some (exampleWaiting.nodes node).thread ∧
          s'.acquiredMonitor (exampleWaiting.nodes node).thread = some 7 ∧
          ∀ t, t ≠ (exampleWaiting.nodes node).thread →
            s'.acquiredMonitor t = exampleWaiting.acquiredMonitor t) ∧
      ((∀ n ∈ [101, 102, 103], unclaimed exampleWaiting n = false) →
        signalled = none ∧ s'.acquiredMonitor = exampleWaiting.acquiredMonitor) :=
  SignalMonitor_claims_oldest 3 7 exampleWaiting [101, 102, 103] ⟨rfl, rfl, rfl, rfl⟩
    (by decide)

/-! ## The wait list is first in, first out -/

/-- Appending the node `n` behind the last node of a wait list: the chain is the old one
followed by `n`, when the nodes of the chain other than the last are as before. -/
theorem waitChain_snoc (nodes nodes' : Nat → WaitList) (last n : Nat) (l : List Nat) :
    ∀ queue, waitChain nodes queue (l ++ [last]) → (∀ x ∈ l, nodes' x = nodes x) →
      (nodes' last).next = some n → (nodes' n).next = none →
      waitChain nodes' queue (l ++ [last] ++ [n]) := by
  induction l with
  | nil =>
    intro queue hchain _ hlast hn
    obtain ⟨hq, _⟩ := hchain
    exact ⟨hq, by rw [hlast]; exact ⟨rfl, hn⟩⟩
  | cons a rest ih =>
    intro queue hchain hsame hlast hn
    obtain ⟨hq, hrest⟩ := hchain
    refine ⟨hq, ?_⟩
    rw [hsame a (List.mem_cons_self _ _)]
    exact ih _ hrest (fun x hx => hsame x (List.mem_cons_of_mem _ hx)) hlast hn

/-- The memory after `enqueueWaiter` on a monitor whose wait list ends in the node `last`. -/
theorem enqueueWaiter_some (s : MonitorState) (w : Nat × Nat) (last : Nat)
    (htail : s.monitor.tail = some last) (hne : last ≠ w.1) :
    (enqueueWaiter s w).monitor = { head := s.monitor.head, tail := some w.1 } ∧
      (enqueueWaiter s w).acquiredMonitor = s.acquiredMonitor ∧
      (enqueueWaiter s w).nodes w.1 = { prev := some last, next := none, thread := w.2 } ∧
      (enqueueWaiter s w).nodes last = { s.nodes last with next := some w.1 } ∧
      ∀ x, x ≠ w.1 → x ≠ last → (enqueueWaiter s w).nodes x = s.nodes x := by
  simp only [enqueueWaiter, AddWaitList, htail]
  refine ⟨trivial, trivial, ?_, ?_, ?_⟩
  · simp [Function.update_same, Function.update_noteq hne.symm]
  · simp [Function.update_same, Function.update_noteq hne]
  · intro x hxw hxl
    simp [Function.update_noteq hxw, Function.update_noteq hxl]

/-- The memory after `enqueueWaiter` on a monitor with an empty wait list. -/
theorem enqueueWaiter_none (s : MonitorState) (w : Nat × Nat) (htail : s.monitor.tail = none) :
    (enqueueWaiter s w).monitor = { head := some w.1, tail := some w.1 } ∧
      (enqueueWaiter s w).acquiredMonitor = s.acquiredMonitor ∧
      (enqueueWaiter s w).nodes w.1 = { prev := none, next := none, thread := w.2 } ∧
      ∀ x, x ≠ w.1 → (enqueueWaiter s w).nodes x = s.nodes x := by
  simp only [enqueueWaiter, AddWaitList, htail]
  refine ⟨trivial, trivial, ?_, ?_⟩
  · simp [Function.update_same]
  · intro x hxw
    simp [Function.update_noteq hxw]

/-- One more waiter, with a node that is not in the list, keeps the invariant. -/
theorem enqueueWaiter_Enqueued (a0 : Nat → Option Nat) (s : MonitorState) (l : List (Nat × Nat))
    (w : Nat × Nat) (h : Enqueued a0 s l) (hnodup : (l.map Prod.fst).Nodup)
    (hnew : w.1 ∉ l.map Prod.fst) :
    Enqueued a0 (enqueueWaiter s w) (l ++ [w]) := by
  obtain ⟨hchain, htail, hhead, hthread, hacq⟩ := h
  rcases List.eq_nil_or_concat l with hl | ⟨l', v, hl⟩
  · subst hl
    simp only [List.map_nil, List.getLast?_nil] at htail
    obtain ⟨hmon, hacq', hw, _⟩ := enqueueWaiter_none s w htail
    refine ⟨?_, by rw [hmon]; rfl, by simp, ?_, hacq'.trans hacq⟩
    · simp only [List.nil_append, List.map_cons, List.map_nil, waitChain, hmon, hw, and_self]
    · intro x hx
      simp only [List.nil_append, List.mem_singleton] at hx
      subst hx
      rw [hw]
  · rw [List.concat_eq_append] at hl
    subst hl
    have hvw : v.1 ≠ w.1 := by
      intro heq
      apply hnew
      simp only [List.map_append, List.map_cons, List.map_nil, List.mem_append,
        List.mem_singleton]
      exact Or.inr heq.symm
    have htail' : s.monitor.tail = some v.1 := by
      rw [htail]; simp
    obtain ⟨hmon, hacq', hw, hv, hother⟩ := enqueueWaiter_some s w v.1 htail' hvw
    have hold : ∀ x ∈ l' ++ [v], x.1 ≠ w.1 := by
      intro x hx heq
      apply hnew
      rw [← heq]
      exact List.mem_map_of_mem _ hx
    refine ⟨?_, by rw [hmon]; simp, by simp, ?_, hacq'.trans hacq⟩
    · simp only [List.map_append, List.map_cons, List.map_nil] at hchain ⊢
      rw [hmon]
      apply waitChain_snoc s.nodes _ v.1 w.1 (l'.map Prod.fst) _ hchain
      · intro x hx
        by_cases hxv : x = v.1
        · exfalso
          simp only [List.map_append, List.map_cons, List.map_nil] at hnodup
          exact (List.nodup_append.mp hnodup).2.2 hx (by rw [hxv]; exact List.mem_singleton_self _)
        · apply hother x _ hxv
          intro heq
          apply hnew
          simp only [List.map_append, List.mem_append]
          exact Or.inl (heq ▸ hx)
      · rw [hv]
      · rw [hw]
    · intro x hx
      simp only [List.mem_append, List.mem_singleton] at hx
      rcases hx with hx | hx
      · by_cases hxv : x.1 = v.1
        · rw [hxv, hv, ← hxv]
          exact hthread x (by simp [hx])
        · rw [hother x.1 (hold x (by simp [hx])) hxv]
          exact hthread x (by simp [hx])
      · subst hx
        rw [hw]

/-- The invariant holds after enqueuing waiters with distinct nodes on an empty list. -/
theorem foldl_enqueueWaiter_Enqueued (s0 : MonitorState) (ws : List (Nat × Nat))
    (hempty : s0.monitor = { head := none, tail := none })
    (hnodes : (ws.map Prod.fst).Nodup) :
    Enqueued s0.acquiredMonitor (ws.foldl enqueueWaiter s0) ws := by
  induction ws using List.reverseRecOn with
  | nil =>
    simp only [List.foldl_nil]
    refine ⟨?_, ?_, ?_, ?_, rfl⟩
    · simp only [List.map_nil, waitChain, hempty]
    · simp only [List.map_nil, List.getLast?_nil, hempty]
    · intro _; rw [hempty]
    · intro w hw; cases hw
  | append_singleton l w ih =>
    rw [List.foldl_append, List.foldl_cons, List.foldl_nil]
    simp only [List.map_append, List.map_cons, List.map_nil] at hnodes
    have hl := (List.nodup_append.mp hnodes).1
    have hnew : w.1 ∉ l.map Prod.fst := fun hmem =>
      (List.nodup_append.mp hnodes).2.2 hmem (List.mem_singleton_self w.1)
    exact enqueueWaiter_Enqueued _ _ l w (ih hl) hl hnew

/-- From a state in which the first `k` waiters are claimed, `j` more `SignalMonitor`
calls signal the next `j` waiters in order. -/
theorem signalTimes_spec (fuel self : Nat) (ws : List (Nat × Nat)) (a0 : Nat → Option Nat)
    (hthreads : (ws.map Prod.snd).Nodup) (hslots : ∀ w ∈ ws, a0 w.2 = none)
    (hfuel : ws.length ≤ fuel) (j : Nat) :
    ∀ (k : Nat) (s : MonitorState), k + j ≤ ws.length →
      waitChain s.nodes s.monitor.head (ws.map Prod.fst) →
      (∀ w ∈ ws, (s.nodes w.1).thread = w.2) →
      s.acquiredMonitor = claimed a0 self ws k →
      signalTimes fuel self j s =
        some ({ s with acquiredMonitor := claimed a0 self ws (k + j) },
          ((ws.drop k).take j).map (fun w => some w.2)) := by
  induction j with
  | zero =>
    intro k s _ _ _ hacq
    simp only [signalTimes, Nat.add_zero, List.take_zero, List.map_nil, ← hacq]
  | succ j ih =>
    intro k s hk hchain hthread hacq
    have hklt : k < ws.length := by omega
    have hsplit : ws = ws.take k ++ ws[k] :: ws.drop (k + 1) := by
      rw [← List.drop_eq_getElem_cons hklt, List.take_append_drop]
    have hwalk := signalWalk_spec self s.nodes s.acquiredMonitor (ws.map Prod.fst) fuel
      s.monitor.head hchain (by simpa using hfuel)
    have hmemk : ws[k] ∈ ws := List.getElem_mem hklt
    have hnotin : ws[k].2 ∉ (ws.take k).map Prod.snd := by
      intro hmem
      rw [hsplit] at hthreads
      simp only [List.map_append, List.map_cons] at hthreads
      exact (List.nodup_append.mp hthreads).2.2 hmem (List.mem_cons_self _ _)
    have hfind : (ws.map Prod.fst).find?
        (fun node => decide (s.acquiredMonitor (s.nodes node).thread = none)) = some ws[k].1 := by
      have hmap : ws.map Prod.fst =
          (ws.take k).map Prod.fst ++ ws[k].1 :: (ws.drop (k + 1)).map Prod.fst := by
        conv_lhs => rw [hsplit]
        simp only [List.map_append, List.map_cons]
      rw [hmap, List.find?_append, List.find?_eq_none.mpr, Option.none_or, List.find?_cons]
      · rw [hthread _ hmemk, hacq]
        simp only [claimed, hnotin, if_false, hslots _ hmemk, decide_True]
      · intro node hnode
        obtain ⟨w, hw, rfl⟩ := List.mem_map.mp hnode
        rw [hthread w (List.mem_of_mem_take hw), hacq]
        simp only [claimed, List.mem_map_of_mem Prod.snd hw, if_true, decide_eq_true_eq]
        exact fun h => Option.noConfusion h
    rw [hfind] at hwalk
    have hmem1 : ∀ t, t ∈ (ws.take (k + 1)).map Prod.snd ↔
        t ∈ (ws.take k).map Prod.snd ∨ t = ws[k].2 := by
      intro t
      rw [List.take_succ, List.getElem?_eq_getElem hklt]
      simp only [Option.toList, List.map_append, List.map_cons, List.map_nil, List.mem_append,
        List.mem_singleton]
    have hnext : Function.update s.acquiredMonitor (s.nodes ws[k].1).thread (some self) =
        claimed a0 self ws (k + 1) := by
      funext t
      rw [hthread _ hmemk, hacq]
      by_cases ht : t = ws[k].2
      · rw [ht, Function.update_same]
        unfold claimed
        rw [if_pos ((hmem1 _).mpr (Or.inr rfl))]
      · rw [Function.update_noteq ht]
        unfold claimed
        by_cases hin : t ∈ (ws.take k).map Prod.snd
        · rw [if_pos hin, if_pos ((hmem1 _).mpr (Or.inl hin))]
        · rw [if_neg hin, if_neg (fun h => ((hmem1 _).mp h).elim hin ht)]
    simp only [signalTimes, SignalMonitor, hwalk, Option.map_some', hnext]
    rw [ih (k + 1) { s with acquiredMonitor := claimed a0 self ws (k + 1) } (by omega) hchain
      hthread rfl]
    simp only [Option.map_some', Nat.add_assoc, Nat.add_comm 1 j]
    rw [List.drop_eq_getElem_cons hklt, List.take_succ_cons, List.map_cons, hthread _ hmemk]

/-- C18. FIFO waiter order: when the distinct threads of `ws`, each with an empty
`acquiredMonitor` slot and a wait-list node of its own, are enqueued in that order by
`AddWaitList` on a monitor with an empty wait list, then for every `k` up to their number
`k` successive `SignalMonitor` calls return and signal the first `k` threads in that
order, the `j`-th call the `j`-th thread; afterwards exactly those threads have their
slot set to this monitor, and the wait list still holds all the nodes. -/
theorem SignalMonitor_fifo (fuel self : Nat) (s0 : MonitorState) (ws : List (Nat × Nat)) (k : Nat)
    (hempty : s0.monitor = { head := none, tail := none })
    (hnodes : (ws.map Prod.fst).Nodup) (hthreads : (ws.map Prod.snd).Nodup)
    (hslots : ∀ w ∈ ws, s0.acquiredMonitor w.2 = none)
    (hk : k ≤ ws.length) (hfuel : ws.length ≤ fuel) :
    ∃ s' : MonitorState,
      signalTimes fuel self k (ws.foldl enqueueWaiter s0) =
        some (s', (ws.take k).map (fun w => some w.2)) ∧
      s'.monitor = (ws.foldl enqueueWaiter s0).monitor ∧
      s'.nodes = (ws.foldl enqueueWaiter s0).nodes ∧
      waitChain s'.nodes s'.monitor.head (ws.map Prod.fst) ∧
      ∀ t, s'.acquiredMonitor t =
        if t ∈ (ws.take k).map Prod.snd then some self else s0.acquiredMonitor t := by
  obtain ⟨hchain, _, _, hthread, hacq⟩ := foldl_enqueueWaiter_Enqueued s0 ws hempty hnodes
  have hacq0 : (ws.foldl enqueueWaiter s0).acquiredMonitor =
      claimed s0.acquiredMonitor self ws 0 := by
    rw [hacq]
    funext t
    simp only [claimed, List.take_zero, List.map_nil, List.not_mem_nil, if_false]
  have hrun := signalTimes_spec fuel self ws s0.acquiredMonitor hthreads hslots hfuel k 0
    (ws.foldl enqueueWaiter s0) (by omega) hchain hthread hacq0
  rw [Nat.zero_add, List.drop_zero] at hrun
  exact ⟨_, hrun, rfl, rfl, hchain, fun t => rfl⟩

/-- C18 at the threads 1, 2, 3 and two calls: threads 1 and 2 are signalled, in that
order. -/
theorem SignalMonitor_fifo_witness :
    ∃ s' : MonitorState,
      signalTimes 3 7 2 (exampleWaiters.foldl enqueueWaiter exampleMonitor) =
        some (s', [some 1, some 2]) ∧
      s'.monitor = (exampleWaiters.foldl enqueueWaiter exampleMonitor).monitor ∧
      s'.nodes = (exampleWaiters.foldl enqueueWaiter exampleMonitor).nodes ∧
      waitChain s'.nodes s'.monitor.head [101, 102, 103] ∧
      ∀ t, s'.acquiredMonitor t =
        if t ∈ [1, 2] then some 7 else exampleMonitor.acquiredMonitor t :=
  SignalMonitor_fifo 3 7 exampleMonitor exampleWaiters 2 rfl (by decide) (by decide)
    (fun _ _ => rfl) (by decide) (by decide)

/-! ## The order of multi-monitor acquisition -/

/-- The array `monitors` of `ReceiveAnyChannel` is ascending. -/
theorem receiveAnyMonitors_sorted (chans : Channels) (l : List Nat) :
    (receiveAnyMonitors chans l).Sorted (· ≤ ·) := by
  unfold receiveAnyMonitors SortChannels MergeSort
  haveI : IsTotal Nat (fun a b => ChannelOrder chans b a = false) :=
    ⟨fun a b => by simp only [ChannelOrder, decide_eq_false_iff_not]; omega⟩
  haveI : IsTrans Nat (fun a b => ChannelOrder chans b a = false) :=
    ⟨fun a b c => by simp only [ChannelOrder, decide_eq_false_iff_not]; omega⟩
  have hs := List.sorted_insertionSort (fun a b => ChannelOrder chans b a = false) l
  refine List.Pairwise.map _ ?_ hs
  intro a b hab
  simp only [ChannelOrder, decide_eq_false_iff_not] at hab
  omega

/-- The array `monitors` holds the monitors of the listed channels. -/
theorem receiveAnyMonitors_perm (chans : Channels) (l : List Nat) :
    (receiveAnyMonitors chans l).Perm (l.map (fun c => (chans c).monitor)) :=
  (SortChannels_perm chans l).map _

/-- The loop of `MonitorsAreSorted` finds no descent in an ascending array, and an array
in which it finds none is ascending. -/
theorem MonitorsAreSorted_iff (monitors : List Nat) :
    MonitorsAreSorted monitors = true ↔ monitors.Sorted (· ≤ ·) := by
  unfold MonitorsAreSorted
  rw [List.all_eq_true]
  constructor
  · intro h
    rw [List.Sorted, ← List.chain'_iff_pairwise, List.chain'_iff_get]
    intro i hi
    have := h (i + 1) (by rw [List.mem_range'_1]; omega)
    simp only [Nat.add_sub_cancel, gt_iff_lt, Bool.not_eq_true', decide_eq_false_iff_not,
      List.getD_eq_getElem?_getD] at this
    rw [List.getElem?_eq_getElem (show i < monitors.length by omega),
      List.getElem?_eq_getElem (show i + 1 < monitors.length by omega)] at this
    simp only [Option.getD_some] at this
    simp only [List.get_eq_getElem]
    omega
  · intro h i hi
    rw [List.mem_range'_1] at hi
    rw [List.Sorted, List.pairwise_iff_getElem] at h
    have := h (i - 1) i (by omega) (by omega) (by omega)
    simp only [gt_iff_lt, Bool.not_eq_true', decide_eq_false_iff_not, List.getD_eq_getElem?_getD]
    rw [List.getElem?_eq_getElem (show i - 1 < monitors.length by omega),
      List.getElem?_eq_getElem (show i < monitors.length by omega)]
    simp only [Option.getD_some]
    omega

/-- The wait loop of `ReceiveAnyChannel` passes only its array `monitors` on. -/
theorem waitAnyLoop_calls (channels monitors : List Nat) (count : Nat) (wakes : List AnyWake) :
    ∀ (chans : Channels) (heap : Heap) r,
      waitAnyLoop channels monitors count wakes chans heap = Except.ok r →
      ∀ call ∈ r.2.2.2.2, call.usesOnly monitors := by
  induction wakes with
  | nil => intro chans heap r h; simp [waitAnyLoop] at h
  | cons wake wakes ih =>
    intro chans heap r h
    simp only [waitAnyLoop] at h
    split at h
    · split at h
      · cases h
        intro call hcall
        simp only [List.mem_singleton] at hcall
        subst hcall
        rfl
      · cases hrec : waitAnyLoop channels monitors count wakes
            (bumpWaiting (wake.effect (bumpWaiting chans channels 1, heap)).1 channels (-1))
            (wake.effect (bumpWaiting chans channels 1, heap)).2 with
        | error e => rw [hrec] at h; cases h
        | ok r' =>
          rw [hrec] at h
          cases h
          intro call hcall
          simp only [Except.map, List.mem_append, List.mem_cons, List.mem_singleton,
            List.not_mem_nil, or_false] at hcall
          rcases hcall with (h | h | h) | h
          · subst h; rfl
          · subst h; trivial
          · subst h; rfl
          · exact ih _ _ r' hrec call h
    · cases h

/-- The middle of `ReceiveAnyChannel` passes only its array `monitors` on. -/
theorem receiveAnyFind_calls (chans : Channels) (heap : Heap) (channels monitors : List Nat)
    (count p : Nat) (wakes : List AnyWake) (r : Nat × Nat × Channels × Heap × List MonitorCall)
    (h : receiveAnyFind chans heap channels monitors count p wakes = Except.ok r) :
    ∀ call ∈ r.2.2.2.2, call.usesOnly monitors := by
  simp only [receiveAnyFind] at h
  split at h
  · cases h
    intro call hcall
    simp only [List.mem_map] at hcall
    obtain ⟨j, _, rfl⟩ := hcall
    trivial
  · exact waitAnyLoop_calls channels monitors count wakes chans heap r h

/-- A returned `ReceiveAnyChannel` call starts with `LockMonitors` on its array
`monitors` and passes no other array to `LockMonitors` or `WaitForAnyMonitor`. -/
theorem ReceiveAnyChannel_calls (ctx : Context) (chans : Channels) (heap : Heap)
    (l : List Nat) (with_index : Bool) (wakes : List AnyWake) (r : AnyRet)
    (h : ReceiveAnyChannel ctx chans heap l with_index wakes = Except.ok r) :
    r.calls.head? = some (MonitorCall.LockMonitors (receiveAnyMonitors chans l)) ∧
      ∀ call ∈ r.calls, call.usesOnly (receiveAnyMonitors chans l) := by
  simp only [ReceiveAnyChannel] at h
  split at h
  · cases h
  · split at h
    · cases h
    · rename_i found hfound
      cases h
      have hcalls := receiveAnyFind_calls _ _ _ _ _ _ _ _ hfound
      refine ⟨rfl, ?_⟩
      intro call hcall
      simp only [receiveAnyFinish, List.mem_append, List.mem_singleton] at hcall
      rcases hcall with (h | h) | (h | h)
      · subst h; rfl
      · exact hcalls _ h
      · simp only [SignalChannel] at h
        split at h
        · simp only [List.mem_singleton] at h; subst h; trivial
        · cases h
      · subst h; trivial

/-- When a channel of the list holds data on entry, `ReceiveAnyChannel` returns, whatever
the other threads do. -/
theorem ReceiveAnyChannel_returns (ctx : Context) (chans : Channels) (heap : Heap)
    (l : List Nat) (with_index : Bool) (wakes : List AnyWake)
    (h : ∃ c ∈ l, 0 < (chans c).size) :
    ∃ r, ReceiveAnyChannel ctx chans heap l with_index wakes = Except.ok r := by
  have hperm := SortChannels_perm chans l
  have hlen : (SortChannels chans l).length = l.length := hperm.length_eq
  obtain ⟨c, hmem, hsize⟩ := h
  have hcount : l.length ≠ 0 := by
    intro h0
    rw [List.length_eq_zero] at h0
    rw [h0] at hmem
    cases hmem
  have hp : (ctx.TLS.multiplexRandomSeed % 2 ^ 32 * 5 + 1) % 2 ^ 32 % l.length <
      (SortChannels chans l).length := by
    rw [hlen]; exact Nat.mod_lt _ (by omega)
  obtain ⟨_, hnow⟩ := receiveAnyFind_spec chans heap (SortChannels chans l)
    ((SortChannels chans l).map (fun c => (chans c).monitor)) _ wakes hp
  rw [hlen] at hnow
  obtain ⟨found, hfound, _⟩ := hnow ⟨c, hperm.mem_iff.mpr hmem, hsize⟩
  exact ⟨_, by simp only [ReceiveAnyChannel, hcount, if_false, hfound]; rfl⟩

/-- When all channels of the array are empty, the middle of `ReceiveAnyChannel` enters
the wait loop. -/
theorem receiveAnyFind_waits (chans : Channels) (heap : Heap) (channels monitors : List Nat)
    (p : Nat) (wakes : List AnyWake) (hp : p < channels.length)
    (hempty : ∀ c ∈ channels, (chans c).size = 0) :
    receiveAnyFind chans heap channels monitors channels.length p wakes =
      waitAnyLoop channels monitors channels.length wakes chans heap := by
  have hc : 0 < channels.length := by omega
  have hspec := probeLoop_spec chans channels channels.length p hc channels.length 0 0
    (by omega)
  rw [Nat.add_zero, Nat.mod_eq_of_lt hp] at hspec
  obtain ⟨_, hfound, _⟩ := hspec
  have hnot : ¬ (probeLoop chans channels channels.length channels.length 0 p 0).1 <
      channels.length := by
    intro hlt
    obtain ⟨h1, h2, h3⟩ := hfound hlt
    have := hempty _ (getD_mem channels _ h2)
    rw [h1] at h3
    omega
  simp only [receiveAnyFind, hnot, if_false]

/-- When all channels of the list are empty on entry and the first wake leaves data in the
channel whose monitor it signals, `ReceiveAnyChannel` returns after the calls
`LockMonitors` and `WaitForAnyMonitor` on the array of monitors. -/
theorem ReceiveAnyChannel_wakes (ctx : Context) (chans : Channels) (heap : Heap)
    (l : List Nat) (with_index : Bool) (wake : AnyWake) (wakes : List AnyWake)
    (hne : l ≠ []) (hempty : ∀ c ∈ l, (chans c).size = 0)
    (hsig : wake.signalled < l.length)
    (hdata : 0 < ((bumpWaiting (wake.effect (bumpWaiting chans (SortChannels chans l) 1, heap)).1
      (SortChannels chans l) (-1)) ((SortChannels chans l).getD wake.signalled 0)).size) :
    ∃ r, ReceiveAnyChannel ctx chans heap l with_index (wake :: wakes) = Except.ok r ∧
      r.calls.take 2 = [MonitorCall.LockMonitors (receiveAnyMonitors chans l),
        MonitorCall.WaitForAnyMonitor (receiveAnyMonitors chans l)] := by
  have hperm := SortChannels_perm chans l
  have hlen : (SortChannels chans l).length = l.length := hperm.length_eq
  have hcount : l.length ≠ 0 := by
    intro h0
    exact hne (List.length_eq_zero.mp h0)
  have hp : (ctx.TLS.multiplexRandomSeed % 2 ^ 32 * 5 + 1) % 2 ^ 32 % l.length <
      (SortChannels chans l).length := by
    rw [hlen]; exact Nat.mod_lt _ (by omega)
  have hfind := receiveAnyFind_waits chans heap (SortChannels chans l)
    ((SortChannels chans l).map (fun c => (chans c).monitor)) _ (wake :: wakes) hp
    (fun c hc => hempty c (hperm.mem_iff.mp hc))
  rw [hlen] at hfind
  have hloop : waitAnyLoop (SortChannels chans l)
      ((SortChannels chans l).map (fun c => (chans c).monitor)) l.length (wake :: wakes) chans
      heap = Except.ok (wake.signalled, (SortChannels chans l).getD wake.signalled 0,
        bumpWaiting (wake.effect (bumpWaiting chans (SortChannels chans l) 1, heap)).1
          (SortChannels chans l) (-1),
        (wake.effect (bumpWaiting chans (SortChannels chans l) 1, heap)).2,
        [MonitorCall.WaitForAnyMonitor
          ((SortChannels chans l).map (fun c => (chans c).monitor))]) := by
    simp only [waitAnyLoop, hsig, if_true, gt_iff_lt, hdata]
  rw [hloop] at hfind
  refine ⟨_, by simp only [ReceiveAnyChannel, hcount, if_false, hfind]; rfl, ?_⟩
  simp only [receiveAnyFinish, receiveAnyMonitors, List.singleton_append, List.cons_append,
    List.nil_append, List.take_succ_cons, List.take_zero]

/-- C19. Multi-monitor acquisition order is independent of argument order: for two channel
lists that are permutations of each other (over channels with the same monitors),
`ReceiveAnyChannel` builds the same array of monitors, ascending by monitor address (a
permutation of the monitors of the listed channels), so `MonitorsAreSorted` returns 1 on
it. Every returned call starts with `LockMonitors` on that array, and each of its calls
of `LockMonitors` and `WaitForAnyMonitor` takes that array. The calls are made: when a
listed channel holds data on entry the call returns, for either list, with `LockMonitors`
on that array first; when all are empty and the first wake leaves data in the channel
it signals, the call returns after `LockMonitors` and `WaitForAnyMonitor` on that array.
`MergeSort` is taken to sort by the comparator it is given. -/
theorem ReceiveAnyChannel_lock_order (chans1 chans2 : Channels) (l1 l2 : List Nat)
    (hmon : ∀ c, (chans1 c).monitor = (chans2 c).monitor) (hperm : l1.Perm l2) :
    receiveAnyMonitors chans2 l2 = receiveAnyMonitors chans1 l1 ∧
      (receiveAnyMonitors chans1 l1).Sorted (· ≤ ·) ∧
      (receiveAnyMonitors chans1 l1).Perm (l1.map (fun c => (chans1 c).monitor)) ∧
      MonitorsAreSorted (receiveAnyMonitors chans1 l1) = true ∧
      (∀ ctx heap with_index wakes r,
        ReceiveAnyChannel ctx chans1 heap l1 with_index wakes = Except.ok r →
        r.calls.head? = some (MonitorCall.LockMonitors (receiveAnyMonitors chans1 l1)) ∧
          ∀ call ∈ r.calls, call.usesOnly (receiveAnyMonitors chans1 l1)) ∧
      (∀ ctx heap with_index wakes r,
        ReceiveAnyChannel ctx chans2 heap l2 with_index wakes = Except.ok r →
        r.calls.head? = some (MonitorCall.LockMonitors (receiveAnyMonitors chans1 l1)) ∧
          ∀ call ∈ r.calls, call.usesOnly (receiveAnyMonitors chans1 l1)) ∧
      ((∃ c ∈ l1, 0 < (chans1 c).size) → ∀ ctx heap with_index wakes,
        ∃ r, ReceiveAnyChannel ctx chans1 heap l1 with_index wakes = Except.ok r ∧
          r.calls.head? = some (MonitorCall.LockMonitors (receiveAnyMonitors chans1 l1))) ∧
      ((∃ c ∈ l2, 0 < (chans2 c).size) → ∀ ctx heap with_index wakes,
        ∃ r, ReceiveAnyChannel ctx chans2 heap l2 with_index wakes = Except.ok r ∧
          r.calls.head? = some (MonitorCall.LockMonitors (receiveAnyMonitors chans1 l1))) ∧
      (∀ ctx heap with_index (wake : AnyWake) wakes, l1 ≠ [] →
        (∀ c ∈ l1, (chans1 c).size = 0) → wake.signalled < l1.length →
        0 < ((bumpWaiting (wake.effect (bumpWaiting chans1 (SortChannels chans1 l1) 1, heap)).1
          (SortChannels chans1 l1) (-1)) ((SortChannels chans1 l1).getD wake.signalled 0)).size →
        ∃ r, ReceiveAnyChannel ctx chans1 heap l1 with_index (wake :: wakes) = Except.ok r ∧
          r.calls.take 2 = [MonitorCall.LockMonitors (receiveAnyMonitors chans1 l1),
            MonitorCall.WaitForAnyMonitor (receiveAnyMonitors chans1 l1)]) ∧
      (∀ ctx heap with_index (wake : AnyWake) wakes, l2 ≠ [] →
        (∀ c ∈ l2, (chans2 c).size = 0) → wake.signalled < l2.length →
        0 < ((bumpWaiting (wake.effect (bumpWaiting chans2 (SortChannels chans2 l2) 1, heap)).1
          (SortChannels chans2 l2) (-1)) ((SortChannels chans2 l2).getD wake.signalled 0)).size →
        ∃ r, ReceiveAnyChannel ctx chans2 heap l2 with_index (wake :: wakes) = Except.ok r ∧
          r.calls.take 2 = [MonitorCall.LockMonitors (receiveAnyMonitors chans1 l1),
            MonitorCall.WaitForAnyMonitor (receiveAnyMonitors chans1 l1)]) := by
  have hfun : (fun c => (chans2 c).monitor) = (fun c => (chans1 c).monitor) :=
    funext (fun c => (hmon c).symm)
  have heq : receiveAnyMonitors chans2 l2 = receiveAnyMonitors chans1 l1 := by
    apply List.eq_of_perm_of_sorted _ (receiveAnyMonitors_sorted chans2 l2)
      (receiveAnyMonitors_sorted chans1 l1)
    refine (receiveAnyMonitors_perm chans2 l2).trans ?_
    rw [hfun]
    exact ((receiveAnyMonitors_perm chans1 l1).trans (hperm.map _)).symm
  refine ⟨heq, receiveAnyMonitors_sorted chans1 l1, receiveAnyMonitors_perm chans1 l1,
    (MonitorsAreSorted_iff _).mpr (receiveAnyMonitors_sorted chans1 l1), ?_, ?_, ?_, ?_, ?_, ?_⟩
  · intro ctx heap with_index wakes r h
    exact ReceiveAnyChannel_calls ctx chans1 heap l1 with_index wakes r h
  · intro ctx heap with_index wakes r h
    rw [← heq]
    exact ReceiveAnyChannel_calls ctx chans2 heap l2 with_index wakes r h
  · intro hdata ctx heap with_index wakes
    obtain ⟨r, hr⟩ := ReceiveAnyChannel_returns ctx chans1 heap l1 with_index wakes hdata
    exact ⟨r, hr, (ReceiveAnyChannel_calls ctx chans1 heap l1 with_index wakes r hr).1⟩
  · intro hdata ctx heap with_index wakes
    obtain ⟨r, hr⟩ := ReceiveAnyChannel_returns ctx chans2 heap l2 with_index wakes hdata
    rw [← heq]
    exact ⟨r, hr, (ReceiveAnyChannel_calls ctx chans2 heap l2 with_index wakes r hr).1⟩
  · intro ctx heap with_index wake wakes hne hempty hsig hdata
    exact ReceiveAnyChannel_wakes ctx chans1 heap l1 with_index wake wakes hne hempty hsig hdata
  · intro ctx heap with_index wake wakes hne hempty hsig hdata
    rw [← heq]
    exact ReceiveAnyChannel_wakes ctx chans2 heap l2 with_index wake wakes hne hempty hsig hdata

/-- C19 at the lists `[A, B]` and `[B, A]`: both give the array `[10, 20]`; with `B`
holding data both calls start with `LockMonitors [10, 20]`, and with both channels empty
both calls make `LockMonitors [10, 20]` and `WaitForAnyMonitor [10, 20]`. -/
theorem ReceiveAnyChannel_lock_order_witness :
    receiveAnyMonitors exampleChannels [0, 1] = [10, 20] ∧
      (ReceiveAnyChannel exampleContext exampleChannels exampleHeap [0, 1] false []).toOption.map
          (fun r => r.calls) =
        some [MonitorCall.LockMonitors [10, 20], MonitorCall.UnlockMonitor 10,
          MonitorCall.UnlockMonitor 20] ∧
      (ReceiveAnyChannel exampleContext exampleChannels exampleHeap [1, 0] false []).toOption.map
          (fun r => r.calls) =
        some [MonitorCall.LockMonitors [10, 20], MonitorCall.UnlockMonitor 10,
          MonitorCall.UnlockMonitor 20] ∧
      (ReceiveAnyChannel exampleContext exampleEmptyChannels exampleHeap [0, 1] false
          [exampleWake]).toOption.map (fun r => r.calls) =
        some [MonitorCall.LockMonitors [10, 20], MonitorCall.WaitForAnyMonitor [10, 20],
          MonitorCall.UnlockMonitor 20] ∧
      (ReceiveAnyChannel exampleContext exampleEmptyChannels exampleHeap [1, 0] false
          [exampleWake]).toOption.map (fun r => r.calls) =
        some [MonitorCall.LockMonitors [10, 20], MonitorCall.WaitForAnyMonitor [10, 20],
          MonitorCall.UnlockMonitor 20] ∧
      (receiveAnyMonitors exampleChannels [1, 0] = receiveAnyMonitors exampleChannels [0, 1] ∧
      (receiveAnyMonitors exampleChannels [0, 1]).Sorted (· ≤ ·) ∧
      (∃ r, ReceiveAnyChannel exampleContext exampleChannels exampleHeap [0, 1] true [] =
          Except.ok r ∧
        r.calls.head? =
          some (MonitorCall.LockMonitors (receiveAnyMonitors exampleChannels [0, 1]))) ∧
      (∃ r, ReceiveAnyChannel exampleContext exampleChannels exampleHeap [1, 0] true [] =
          Except.ok r ∧
        r.calls.head? =
          some (MonitorCall.LockMonitors (receiveAnyMonitors exampleChannels [0, 1])))) :=
  ⟨by decide, by decide, by decide, by decide, by decide,
    (ReceiveAnyChannel_lock_order exampleChannels exampleChannels [0, 1] [1, 0]
      (fun _ => rfl) (List.Perm.swap 1 0 [])).1,
    (ReceiveAnyChannel_lock_order exampleChannels exampleChannels [0, 1] [1, 0]
      (fun _ => rfl) (List.Perm.swap 1 0 [])).2.1,
    (ReceiveAnyChannel_lock_order exampleChannels exampleChannels [0, 1] [1, 0]
      (fun _ => rfl) (List.Perm.swap 1 0 [])).2.2.2.2.2.2.1 ⟨1, by decide, by decide⟩
      exampleContext exampleHeap true [],
    (ReceiveAnyChannel_lock_order exampleChannels exampleChannels [0, 1] [1, 0]
      (fun _ => rfl) (List.Perm.swap 1 0 [])).2.2.2.2.2.2.2.1 ⟨1, by decide, by decide⟩
      exampleContext exampleHeap true []⟩

/-! ## The keep-alive list -/

/-- The list read from `FirstKeepAlive` after the three calls, with `fuel` steps. -/
theorem keptFrom_keepThree (fuel : Nat) :
    keptFrom keepThree fuel keepThree.FirstKeepAlive = [1, 3].take fuel := by
  match fuel with
  | 0 => rfl
  | 1 => rfl
  | 2 => rfl
  | fuel + 3 => rfl

/-- C20. Three `KeepAlive` calls on the empty registry: `LastKeepAlive` is still the first
node, the third call has overwritten the `next` link of the first node, and the second
node, which `KeepAlive` returned and `StopKeepAlive` never received, is not reached from
`FirstKeepAlive` by following `next`, with however many steps; the list read from
`FirstKeepAlive` holds the first and the third node only. -/
theorem KeepAlive_third_drops_second :
    keepThree.FirstKeepAlive = some 1 ∧ keepThree.LastKeepAlive = some 1 ∧
      keptFrom keepThree 3 keepThree.FirstKeepAlive = [1, 3] ∧
      (∀ fuel, 2 ∉ keptFrom keepThree fuel keepThree.FirstKeepAlive) ∧
      (KeepAlive (KeepAlive emptyKeepAlive 1 (Obj.bag 11)).1 2 (Obj.bag 12)).2 = 2 ∧
      keepThree.nodes 2 = { kept := Obj.bag 12, prev := some 1, next := none } := by
  refine ⟨rfl, rfl, rfl, ?_, rfl, rfl⟩
  intro fuel h
  rw [keptFrom_keepThree] at h
  have := List.mem_of_mem_take h
  revert this
  decide

/-! ## The keep-alive list: undoing a registration -/

/-- C21. On the registry reached by two `KeepAlive` calls, a third `KeepAlive` followed by
`StopKeepAlive` on the node it returned restores `FirstKeepAlive` and `LastKeepAlive` but
not the links: the `next` link of the first node, which pointed to the second node before
the call, is null afterwards, and the list read from `FirstKeepAlive` has lost the second
node. -/
theorem StopKeepAlive_loses_link :
    keepTwo.FirstKeepAlive = some 1 ∧ keepTwo.LastKeepAlive = some 1 ∧
      (keepTwo.nodes 1).next = some 2 ∧
      keptFrom keepTwo 3 keepTwo.FirstKeepAlive = [1, 2] ∧
      keepTwoRoundTrip.FirstKeepAlive = some 1 ∧ keepTwoRoundTrip.LastKeepAlive = some 1 ∧
      (keepTwoRoundTrip.nodes 1).next = none ∧
      keptFrom keepTwoRoundTrip 3 keepTwoRoundTrip.FirstKeepAlive = [1] := by
  decide

/-- On a registry whose last node has no successor, `KeepAlive` followed by
`StopKeepAlive` on the new node restores both globals and every other node. -/
theorem StopKeepAlive_KeepAlive (s : KeepAliveList) (n : Nat) (obj : Obj)
    (hlast : ∀ last, s.LastKeepAlive = some last → (s.nodes last).next = none ∧ last ≠ n)
    (hfirst : s.LastKeepAlive = none → s.FirstKeepAlive = none) :
    (StopKeepAlive (KeepAlive s n obj).1 (KeepAlive s n obj).2).FirstKeepAlive =
        s.FirstKeepAlive ∧
      (StopKeepAlive (KeepAlive s n obj).1 (KeepAlive s n obj).2).LastKeepAlive =
        s.LastKeepAlive ∧
      ∀ x, x ≠ n →
        (StopKeepAlive (KeepAlive s n obj).1 (KeepAlive s n obj).2).nodes x = s.nodes x := by
  cases hl : s.LastKeepAlive with
  | none =>
    have hf := hfirst hl
    simp [KeepAlive, StopKeepAlive, hl, hf]
    intro x hx
    simp [Function.update_noteq hx]
  | some last =>
    obtain ⟨hnext, hne⟩ := hlast last hl
    simp only [KeepAlive, StopKeepAlive, hl, Function.update_same,
      Function.update_noteq hne.symm, Function.update_noteq hne]
    refine ⟨trivial, trivial, ?_⟩
    intro x hx
    by_cases hxl : x = last
    · subst hxl
      simp [Function.update_same, ← hnext]
    · simp [Function.update_noteq hxl, Function.update_noteq hx]

/-! ## Receiving from any channel: the monitor kept -/

/-- C22. The call `ReceiveAnyChannel` on the list `[A, B]` with seed 0, where only `B`
(monitor 10) holds data: the probe starts at index 1 of the sorted array `[B, A]`, finds
`B` at index 0 after one turn, and `p = i` makes the index 1; the call made before
`RetrieveFromChannel` is `UnlockMonitor 10`, the monitor of the channel `B` that it then
dequeues from, and the final unlock is that of monitor 20, the monitor of `A`. -/
theorem ReceiveAnyChannel_unlocks_source :
    SortChannels exampleChannels [0, 1] = [1, 0] ∧
      receiveAnyMonitors exampleChannels [0, 1] = [10, 20] ∧
      (exampleChannels 1).monitor = 10 ∧ 0 < (exampleChannels 1).size ∧
      (receiveAnyFind exampleChannels exampleHeap [1, 0] [10, 20] 2 1 []).toOption.map
          (fun r => (r.1, r.2.1, r.2.2.2.2)) =
        some (1, 1, [MonitorCall.UnlockMonitor 10]) ∧
      (ReceiveAnyChannel exampleContext exampleChannels exampleHeap [0, 1] false []).toOption.map
          (fun r => (r.val, r.channel, r.calls)) =
        some (Received.object (Obj.intobj 42), 1,
          [MonitorCall.LockMonitors [10, 20], MonitorCall.UnlockMonitor 10,
            MonitorCall.UnlockMonitor 20]) := by
  decide

/-! ## Receiving from any channel: an empty list -/

/-- C27. The function `IsChannelList` accepts the empty list, so `FuncReceiveAnyChannel`
and `FuncReceiveAnyChannelWithIndex`, called with no argument or with one empty plain
list, call `ReceiveAnyChannel` with `count = 0`, which reaches `p %= count`. -/
theorem FuncReceiveAnyChannel_empty_list (ctx : Context) (isChannelBag : Nat → Bool)
    (chans : Channels) (heap : Heap) (wakes : List AnyWake) :
    IsChannelList isChannelBag [] = true ∧
      FuncReceiveAnyChannel ctx isChannelBag chans heap [] wakes =
        Except.ok (Except.error Stop.moduloByZero) ∧
      FuncReceiveAnyChannelWithIndex ctx isChannelBag chans heap [] wakes =
        Except.ok (Except.error Stop.moduloByZero) ∧
      FuncReceiveAnyChannel ctx isChannelBag chans heap [Obj.plist []] wakes =
        Except.ok (Except.error Stop.moduloByZero) ∧
      FuncReceiveAnyChannelWithIndex ctx isChannelBag chans heap [Obj.plist []] wakes =
        Except.ok (Except.error Stop.moduloByZero) := by
  refine ⟨rfl, rfl, rfl, rfl, rfl⟩

/-! ## Semaphores: the waiting counter -/

/-- C29. On the semaphore made by `FuncCreateSemaphore` with no argument, one
`FuncTryWaitSemaphore` call leaves `waiting = -1`; every `FuncTryWaitSemaphore` call
returns with `waiting` one less than before. -/
theorem FuncTryWaitSemaphore_waiting_negative :
    FuncCreateSemaphore 0 [] = Except.ok { monitor := 0, count := 0, waiting := 0 } ∧
      semRun [SemOp.tryWait] (CreateSemaphore 0 0) =
        some { monitor := 0, count := 0, waiting := -1 } ∧
      (∀ sem : Semaphore, ∃ (success : Bool) (sem' : Semaphore) (calls : List MonitorCall),
        FuncTryWaitSemaphore (SemaphoreArg.semaphore sem) = Except.ok (success, sem', calls) ∧
        sem'.waiting = sem.waiting - 1) := by
  refine ⟨rfl, by decide, ?_⟩
  intro sem
  refine ⟨_, _, _, rfl, ?_⟩
  by_cases h : sem.count > 0 <;> simp [h]

/-! ## Migration: the second loop -/

/-- C30. On a list holding one small integer `MigrateObjects` returns 1 and its second
loop stores to the region field of that integer, which is not a bag reference; so does
`FuncMAKE_PUBLIC_NORECURSE` applied to a small integer. -/
theorem MigrateObjects_stores_to_immediate (ctx : Context) (ProtectedRegion : Option Nat)
    (heap : Heap) (n : Int) :
    IS_BAG_REF (Obj.intobj n) = false ∧
      (MigrateObjects ctx ProtectedRegion heap [Obj.intobj n] none).1 = 1 ∧
      (MigrateObjects ctx ProtectedRegion heap [Obj.intobj n] none).2.2 = [Obj.intobj n] ∧
      (FuncMAKE_PUBLIC_NORECURSE ctx ProtectedRegion heap (Obj.intobj n)).toOption.map
          (fun r => (r.1, r.2.2)) = some (Obj.intobj n, [Obj.intobj n]) := by
  refine ⟨rfl, rfl, rfl, rfl⟩

/-! ## The layout of the queue -/

/-- The new capacity of `ExpandChannel`, when the product does not wrap. -/
theorem expandCapacity_eq (old : Nat) (h : old * 25 < 2 ^ 32) :
    expandCapacity old = ((old * 25 / 16) ||| 1) + 1 ∧ old < expandCapacity old ∧
      (old ≠ 1 → old + 2 ≤ expandCapacity old) := by
  have hmod : old * 25 % 2 ^ 32 = old * 25 := Nat.mod_eq_of_lt h
  have hor := or_one_eq (old * 25 / 16)
  have hne : ¬ ((old * 25 / 16) ||| 1) + 1 = old := by omega
  have heq : expandCapacity old = ((old * 25 / 16) ||| 1) + 1 := by
    simp only [expandCapacity, hmod, if_neg hne]
  rw [heq]
  refine ⟨rfl, by omega, fun h1 => by omega⟩

/-- A sequence of steps made in two parts. -/
theorem queueRun_append (ctx : Context) (steps1 steps2 : List QueueStep) :
    ∀ st : Channel × Heap,
      queueRun ctx (steps1 ++ steps2) st = (queueRun ctx steps1 st).bind (queueRun ctx steps2) := by
  induction steps1 with
  | nil => intro st; rfl
  | cons step steps1 ih =>
    intro st
    simp only [List.cons_append, queueRun]
    cases queueStep ctx st step with
    | none => rfl
    | some st1 => exact ih st1

/-- A step that is made on a well-formed channel keeps it well-formed and does not lower
its capacity, when the product `oldCapacity * 25` of `ExpandChannel` does not wrap. -/
theorem queueStep_WellFormed (ctx : Context) (st st' : Channel × Heap) (step : QueueStep)
    (hwf : WellFormed st.1) (hr : st.1.capacity * 25 < 2 ^ 32)
    (h : queueStep ctx st step = some st') :
    WellFormed st'.1 ∧ st.1.capacity ≤ st'.1.capacity := by
  cases step with
  | add obj migrate =>
    simp only [queueStep] at h
    split at h
    · rename_i hne
      cases h
      have hlt : st.1.size < st.1.capacity := Nat.lt_of_le_of_ne hwf.2.1 hne
      obtain ⟨h1, _, h3, _⟩ := AddToChannel_spec ctx st.2 st.1 obj migrate hwf hlt
      exact ⟨h1, by rw [h3]⟩
    · cases h
  | retrieve =>
    simp only [queueStep] at h
    split at h
    · rename_i hne
      cases h
      obtain ⟨_, h1, _, h3, _⟩ :=
        RetrieveFromChannel_spec ctx st.2 st.1 hwf (Nat.pos_of_ne_zero hne)
      exact ⟨h1, by rw [h3]⟩
    · cases h
  | expand =>
    simp only [queueStep] at h
    split at h
    · rename_i hg
      cases h
      obtain ⟨h1, _, _, _, _, h6, _⟩ := ExpandChannel_full st.1 hwf hg.1 hr
      refine ⟨h1, ?_⟩
      have := (expandCapacity_spec st.1.capacity hr hwf.2.2.2.2.2.1).1
      show st.1.capacity ≤ (ExpandChannel st.1).capacity
      rw [h6]; omega
    · cases h

/-- On a well-formed channel with room for `n` more pairs, `n` calls of `AddToChannel` are
made and fill `2 * n` slots. -/
theorem queueRun_fill (ctx : Context) (obj : Obj) (n : Nat) :
    ∀ (c : Channel) (heap : Heap), WellFormed c → c.size + 2 * n ≤ c.capacity →
      ∃ (c' : Channel) (heap' : Heap),
        queueRun ctx (List.replicate n (QueueStep.add obj false)) (c, heap) = some (c', heap') ∧
        WellFormed c' ∧ c'.size = c.size + 2 * n ∧ c'.capacity = c.capacity ∧
        c'.dynamic = c.dynamic ∧ c'.head = c.head := by
  induction n with
  | zero =>
    intro c heap hwf _
    exact ⟨c, heap, rfl, hwf, rfl, rfl, rfl, rfl⟩
  | succ n ih =>
    intro c heap hwf hroom
    have hlt : c.size < c.capacity := by omega
    obtain ⟨h1, h2, h3, h4, h5, _⟩ := AddToChannel_spec ctx heap c obj false hwf hlt
    obtain ⟨c', heap', hrun, hwf', hs, hc, hd, hh⟩ :=
      ih (AddToChannel ctx heap c obj false).1 (AddToChannel ctx heap c obj false).2 h1
        (by rw [h2, h3]; omega)
    refine ⟨c', heap', ?_, hwf', by rw [hs, h2]; omega, by rw [hc, h3], by rw [hd, h4],
      by rw [hh, h5]⟩
    have hne : c.size ≠ c.capacity := by omega
    simp only [List.replicate_succ, queueRun, queueStep, hne, ne_eq, not_false_eq_true, if_true]
    exact hrun

/-- The fresh dynamic channel is filled by ten sends. -/
theorem ReachedFull_start (ctx : Context) (newMonitor : Nat) (heap : Heap) :
    ReachedFull ctx (CreateChannel ctx newMonitor (-1), heap) 20 := by
  have hwf := WellFormed_CreateChannel ctx newMonitor (-1) (by decide)
  obtain ⟨c', heap', hrun, hwf', hs, hc, hd, hh⟩ :=
    queueRun_fill ctx Obj.null 10 (CreateChannel ctx newMonitor (-1)) heap hwf
      (by show 0 + 2 * 10 ≤ 20; omega)
  exact ⟨_, c', heap', hrun, hwf', by rw [hd]; rfl, by rw [hs]; rfl, by rw [hc]; rfl,
    by rw [hh]; rfl⟩

/-- From a full dynamic channel of `k` slots, in the range where the product does not
wrap, `ExpandChannel` and further sends reach a full channel of `expandCapacity k`
slots. -/
theorem ReachedFull_grow (ctx : Context) (st0 : Channel × Heap) (k : Nat)
    (h : ReachedFull ctx st0 k) (hr : k * 25 < 2 ^ 32) :
    ReachedFull ctx st0 (expandCapacity k) := by
  obtain ⟨steps, c, heap, hrun, hwf, hdyn, hsize, hcap, hhead⟩ := h
  have hfull : c.size = c.capacity := by rw [hsize, hcap]
  obtain ⟨h1, h2, _, h4, h5, h6, _⟩ := ExpandChannel_full c hwf hfull (by rw [hcap]; exact hr)
  have heven : k % 2 = 0 := by rw [← hcap]; exact hwf.2.2.2.2.2.1
  obtain ⟨hge, heven', _⟩ := expandCapacity_spec k hr heven
  obtain ⟨c', heap', hrun', hwf', hs, hc, hd, hh⟩ :=
    queueRun_fill ctx Obj.null ((expandCapacity k - k) / 2) (ExpandChannel c) heap h1
      (by rw [h2, hsize, h6, hcap]; omega)
  refine ⟨steps ++ ([QueueStep.expand] ++
      List.replicate ((expandCapacity k - k) / 2) (QueueStep.add Obj.null false)), c', heap',
    ?_, hwf', by rw [hd, h4, hdyn], by rw [hs, h2, hsize]; omega,
    by rw [hc, h6, hcap], by rw [hh, h5, hhead]⟩
  rw [queueRun_append, hrun, Option.some_bind, queueRun_append]
  have hstep : queueRun ctx [QueueStep.expand] (c, heap) = some (ExpandChannel c, heap) := by
    simp only [queueRun, queueStep, hfull, hdyn, and_self, if_true]
  rw [hstep, Option.some_bind]
  exact hrun'

/-- The growth of a dynamic channel, expansion after expansion, as long as the product
does not wrap. -/
theorem ReachedFull_iterate (ctx : Context) (st0 : Channel × Heap) (k : Nat)
    (h : ReachedFull ctx st0 k) (n : Nat) :
    (∀ i, i < n → expandCapacity^[i] k * 25 < 2 ^ 32) →
      ReachedFull ctx st0 (expandCapacity^[n] k) := by
  induction n with
  | zero => intro _; exact h
  | succ n ih =>
    intro hr
    rw [Function.iterate_succ_apply']
    exact ReachedFull_grow ctx st0 _ (ih (fun i hi => hr i (by omega))) (hr n (by omega))

/-- A full dynamic channel of 210601682 slots is reached from the fresh dynamic channel:
the capacities 20, 32, 52, ... of the 36 expansions before it do not wrap. -/
theorem ReachedFull_wrap (ctx : Context) (newMonitor : Nat) (heap : Heap) :
    ReachedFull ctx (CreateChannel ctx newMonitor (-1), heap) 210601682 := by
  have h := ReachedFull_iterate ctx _ 20 (ReachedFull_start ctx newMonitor heap) 36 (by decide)
  have heq : expandCapacity^[36] 20 = 210601682 := by decide
  rw [heq] at h
  exact h

/-- The queue built by `ExpandChannel` has the new capacity as its length. -/
theorem ExpandChannel_queue_length (c : Channel) :
    (ExpandChannel c).queue.length = (ExpandChannel c).capacity := by
  show (expandCopyTail c.queue c.tail _ _ (expandCopyHead c.queue c.head _ _)).length = _
  rw [expandCopyTail_eq, foldl_set_length, expandCopyHead_eq, foldl_set_length,
    List.length_replicate]
  rfl

/-- The call of `ExpandChannel` on a full channel of 210601682 slots whose contents start at
slot 0: the product `oldCapacity * 25` wraps. -/
theorem ExpandChannel_at_wrap (c : Channel) (hcap : c.capacity = 210601682)
    (hsize : c.size = 210601682) (hhead : c.head = 0) :
    (ExpandChannel c).capacity = 60629674 ∧ (ExpandChannel c).size = 210601682 ∧
      (ExpandChannel c).head = 0 ∧ (ExpandChannel c).tail = 149972008 ∧
      (ExpandChannel c).dynamic = c.dynamic := by
  have h1 : (ExpandChannel c).capacity = expandCapacity (c.capacity % 2 ^ 32) := rfl
  have h2 : (ExpandChannel c).tail =
      (if c.head + c.capacity % 2 ^ 32 ≥ expandCapacity (c.capacity % 2 ^ 32) then
        c.head + c.capacity % 2 ^ 32 - expandCapacity (c.capacity % 2 ^ 32)
       else c.head + c.capacity % 2 ^ 32) := rfl
  have h3 : expandCapacity (210601682 % 2 ^ 32) = 60629674 := by decide
  rw [hcap, h3] at h1
  rw [hcap, hhead, h3] at h2
  refine ⟨h1, hsize, hhead, ?_, rfl⟩
  rw [h2]
  decide

/-! ## The expansion that wraps -/

/-- C23. The layout invariant is broken by a step the code makes: from the fresh dynamic
channel, sends and expansions (through the capacities 20, 32, 52, ..., 134785076, none of
which makes the product wrap) reach a full channel of 210601682 slots in which the four
conditions hold; `ExpandChannel`, which the next send calls there, computes
`oldCapacity * 25` past `2 ^ 32` and leaves the capacity 60629674 with the size 210601682
and the tail 149972008, so `size ≤ capacity`, `tail < capacity` and
`tail = (head + size) mod capacity` all fail. -/
theorem ExpandChannel_wrap_breaks_invariant (ctx : Context) (newMonitor : Nat) (heap : Heap) :
    ∃ (steps : List QueueStep) (c : Channel) (heap' : Heap),
      queueRun ctx steps (CreateChannel ctx newMonitor (-1), heap) = some (c, heap') ∧
      (c.size ≤ c.capacity ∧ c.head < c.capacity ∧ c.tail < c.capacity ∧
        c.tail = (c.head + c.size) % c.capacity) ∧
      c.size = c.capacity ∧ c.capacity = 210601682 ∧
      queueRun ctx (steps ++ [QueueStep.expand]) (CreateChannel ctx newMonitor (-1), heap) =
        some (ExpandChannel c, heap') ∧
      (ExpandChannel c).capacity = 60629674 ∧ (ExpandChannel c).size = 210601682 ∧
      (ExpandChannel c).tail = 149972008 ∧
      ¬ (ExpandChannel c).size ≤ (ExpandChannel c).capacity ∧
      ¬ (ExpandChannel c).tail < (ExpandChannel c).capacity ∧
      ¬ (ExpandChannel c).tail =
        ((ExpandChannel c).head + (ExpandChannel c).size) % (ExpandChannel c).capacity := by
  obtain ⟨steps, c, heap', hrun, hwf, hdyn, hsize, hcap, hhead⟩ :=
    ReachedFull_wrap ctx newMonitor heap
  obtain ⟨e1, e2, e3, e4, _⟩ := ExpandChannel_at_wrap c hcap hsize hhead
  have hstep : queueRun ctx [QueueStep.expand] (c, heap') = some (ExpandChannel c, heap') := by
    simp only [queueRun, queueStep, hsize, hcap, hdyn, and_self, if_true]
  refine ⟨steps, c, heap', hrun, ⟨hwf.2.1, hwf.2.2.1, hwf.2.2.2.1, hwf.2.2.2.2.1⟩,
    by rw [hsize, hcap], hcap, ?_, e1, e2, e4, ?_, ?_, ?_⟩
  · rw [queueRun_append, hrun, Option.some_bind, hstep]
  · rw [e1, e2]; decide
  · rw [e1, e4]; decide
  · rw [e1, e2, e3, e4]; decide

/-- C25. The capacity of a channel decreases at a step the code makes: at the full dynamic
channel of 210601682 slots, reached from the fresh dynamic channel by sends and
expansions, `old * 25` is at least `2 ^ 32` and `ExpandChannel` sets the capacity to
60629674, which is below the old capacity and is not `((old * 25 / 16) | 1) + 1`. -/
theorem ExpandChannel_wrap_lowers_capacity (ctx : Context) (newMonitor : Nat) (heap : Heap) :
    ∃ (steps : List QueueStep) (c : Channel) (heap' : Heap),
      queueRun ctx steps (CreateChannel ctx newMonitor (-1), heap) = some (c, heap') ∧
      c.capacity = 210601682 ∧ 2 ^ 32 ≤ c.capacity * 25 ∧
      queueRun ctx (steps ++ [QueueStep.expand]) (CreateChannel ctx newMonitor (-1), heap) =
        some (ExpandChannel c, heap') ∧
      (ExpandChannel c).capacity = 60629674 ∧
      (ExpandChannel c).capacity < c.capacity ∧
      (ExpandChannel c).capacity ≠ ((c.capacity * 25 / 16) ||| 1) + 1 := by
  obtain ⟨steps, c, heap', hrun, hwf, hdyn, hsize, hcap, hhead⟩ :=
    ReachedFull_wrap ctx newMonitor heap
  obtain ⟨e1, _, _, _, _⟩ := ExpandChannel_at_wrap c hcap hsize hhead
  have hstep : queueRun ctx [QueueStep.expand] (c, heap') = some (ExpandChannel c, heap') := by
    simp only [queueRun, queueStep, hsize, hcap, hdyn, and_self, if_true]
  refine ⟨steps, c, heap', hrun, hcap, by rw [hcap]; decide, ?_, e1, by rw [e1, hcap]; decide,
    by rw [e1, hcap]; decide⟩
  rw [queueRun_append, hrun, Option.some_bind, hstep]

/-- C28. In the state reached by the expansion that wraps, the fields `capacity`, `size`,
`head` and `tail` are even and the queue has `capacity` = 60629674 slots, yet
`size ≠ capacity`, so the senders call `AddToChannel` with `tail` = 149972008: the index
after the two increments is above `capacity`, the wrap test does not reset it, and both
stores fall outside the queue (which is left as it was). -/
theorem AddToChannel_past_capacity (ctx : Context) (newMonitor : Nat) (heap : Heap) :
    ∃ (steps : List QueueStep) (c : Channel) (heap' : Heap),
      queueRun ctx steps (CreateChannel ctx newMonitor (-1), heap) = some (c, heap') ∧
      (c.capacity % 2 = 0 ∧ c.size % 2 = 0 ∧ c.head % 2 = 0 ∧ c.tail % 2 = 0) ∧
      c.queue.length = c.capacity ∧ c.capacity = 60629674 ∧ c.tail = 149972008 ∧
      c.size ≠ c.capacity ∧
      ∀ (obj : Obj) (migrate : Bool),
        queueStep ctx (c, heap') (QueueStep.add obj migrate) =
          some (AddToChannel ctx heap' c obj migrate) ∧
        c.capacity < c.tail + 2 ∧
        (AddToChannel ctx heap' c obj migrate).1.tail = c.tail + 2 ∧
        (AddToChannel ctx heap' c obj migrate).1.queue = c.queue := by
  obtain ⟨steps, c, heap', hrun, hwf, hdyn, hsize, hcap, hhead⟩ :=
    ReachedFull_wrap ctx newMonitor heap
  obtain ⟨e1, e2, e3, e4, _⟩ := ExpandChannel_at_wrap c hcap hsize hhead
  have hstep : queueRun ctx [QueueStep.expand] (c, heap') = some (ExpandChannel c, heap') := by
    simp only [queueRun, queueStep, hsize, hcap, hdyn, and_self, if_true]
  have hlen := ExpandChannel_queue_length c
  have hne : (ExpandChannel c).size ≠ (ExpandChannel c).capacity := by rw [e1, e2]; decide
  refine ⟨steps ++ [QueueStep.expand], ExpandChannel c, heap', ?_, ?_, hlen, e1, e4, hne, ?_⟩
  · rw [queueRun_append, hrun, Option.some_bind, hstep]
  · rw [e1, e2, e3, e4]; decide
  · intro obj migrate
    refine ⟨by simp only [queueStep, hne, ne_eq, not_false_eq_true, if_true],
      by rw [e1, e4]; decide, ?_, ?_⟩
    · show (if (ExpandChannel c).tail + 2 = (ExpandChannel c).capacity then 0
        else (ExpandChannel c).tail + 2) = (ExpandChannel c).tail + 2
      rw [e1, e4]; decide
    · show ((ExpandChannel c).queue.set (ExpandChannel c).tail obj).set
        ((ExpandChannel c).tail + 1) _ = (ExpandChannel c).queue
      rw [List.set_eq_of_length_le, List.set_eq_of_length_le]
      · rw [hlen, e1, e4]; decide
      · rw [List.length_set, hlen, e1, e4]; decide

/-! ## The wait list stays a doubly-linked list -/

/-- A stretch over `l1 ++ l2` is a stretch over `l1` followed by one over `l2`. -/
theorem waitSegment_append (nodes : Nat → WaitList) (l1 l2 : List Nat) :
    ∀ (prev queue last rest : Option Nat),
      waitSegment nodes prev queue (l1 ++ l2) last rest ↔
        ∃ pm qm, waitSegment nodes prev queue l1 pm qm ∧ waitSegment nodes pm qm l2 last rest := by
  induction l1 with
  | nil =>
    intro prev queue last rest
    simp only [List.nil_append, waitSegment]
    constructor
    · intro h; exact ⟨prev, queue, ⟨rfl, rfl⟩, h⟩
    · rintro ⟨pm, qm, ⟨rfl, rfl⟩, h⟩; exact h
  | cons a l1 ih =>
    intro prev queue last rest
    show (queue = some a ∧ (nodes a).prev = prev ∧
        waitSegment nodes (some a) (nodes a).next (l1 ++ l2) last rest) ↔
      ∃ pm qm, (queue = some a ∧ (nodes a).prev = prev ∧
        waitSegment nodes (some a) (nodes a).next l1 pm qm) ∧ waitSegment nodes pm qm l2 last rest
    rw [ih]
    constructor
    · rintro ⟨h1, h2, pm, qm, h3, h4⟩; exact ⟨pm, qm, ⟨h1, h2, h3⟩, h4⟩
    · rintro ⟨pm, qm, ⟨h1, h2, h3⟩, h4⟩; exact ⟨h1, h2, pm, qm, h3, h4⟩

/-- A stretch depends on the memory at its own nodes only. -/
theorem waitSegment_frame (nodes nodes' : Nat → WaitList) (l : List Nat) :
    ∀ (prev queue last rest : Option Nat), (∀ a ∈ l, nodes' a = nodes a) →
      waitSegment nodes prev queue l last rest → waitSegment nodes' prev queue l last rest := by
  induction l with
  | nil => intro prev queue last rest _ h; exact h
  | cons a l ih =>
    intro prev queue last rest hsame h
    obtain ⟨h1, h2, h3⟩ := h
    have ha := hsame a (List.mem_cons_self _ _)
    refine ⟨h1, by rw [ha]; exact h2, ?_⟩
    rw [ha]
    exact ih _ _ _ _ (fun x hx => hsame x (List.mem_cons_of_mem _ hx)) h3

/-- Following `next` from the start of a stretch that ends in null gives its nodes. -/
theorem waitersFrom_segment (nodes : Nat → WaitList) (l : List Nat) :
    ∀ (prev queue last : Option Nat) (fuel : Nat),
      waitSegment nodes prev queue l last none → l.length ≤ fuel →
      waitersFrom nodes fuel queue = l := by
  induction l with
  | nil =>
    intro prev queue last fuel h _
    obtain ⟨_, h2⟩ := h
    rw [← h2]
    cases fuel <;> rfl
  | cons a l ih =>
    intro prev queue last fuel h hfuel
    obtain ⟨h1, _, h3⟩ := h
    subst h1
    match fuel, hfuel with
    | fuel + 1, hfuel =>
      simp only [waitersFrom]
      rw [ih _ _ _ fuel h3 (by simpa using hfuel)]

/-- Following `prev` from the end of a stretch that starts the list gives its nodes in
reverse. -/
theorem waitersBack_segment (nodes : Nat → WaitList) (l : List Nat) :
    ∀ (queue last rest : Option Nat) (fuel : Nat),
      waitSegment nodes none queue l last rest → l.length ≤ fuel →
      waitersBack nodes fuel last = l.reverse := by
  induction l using List.reverseRecOn with
  | nil =>
    intro queue last rest fuel h _
    obtain ⟨h1, _⟩ := h
    subst h1
    cases fuel <;> rfl
  | append_singleton init x ih =>
    intro queue last rest fuel h hfuel
    rw [waitSegment_append] at h
    obtain ⟨pm, qm, hinit, hx1, hx2, hx3, _⟩ := h
    subst hx3
    rw [List.length_append, List.length_singleton] at hfuel
    match fuel, hfuel with
    | fuel + 1, hfuel =>
      simp only [waitersBack, List.reverse_append, List.reverse_singleton, List.singleton_append]
      rw [hx2, ih _ _ _ fuel hinit (by omega)]

/-- A monitor whose `head` and `tail` are null has the empty wait list. -/
theorem WaitListOf_nil (s : MonitorState) (hhead : s.monitor.head = none)
    (htail : s.monitor.tail = none) : WaitListOf s [] :=
  ⟨List.nodup_nil, htail, hhead.symm⟩

/-- The memory after `AddWaitList` on a monitor whose wait list ends in the node `last`. -/
theorem AddWaitList_some (s : MonitorState) (node last : Nat)
    (htail : s.monitor.tail = some last) (hne : last ≠ node) :
    (AddWaitList s node).monitor = { head := s.monitor.head, tail := some node } ∧
      (AddWaitList s node).nodes node =
        { prev := some last, next := none, thread := (s.nodes node).thread } ∧
      (AddWaitList s node).nodes last = { s.nodes last with next := some node } ∧
      ∀ x, x ≠ node → x ≠ last → (AddWaitList s node).nodes x = s.nodes x := by
  simp only [AddWaitList, htail]
  refine ⟨trivial, ?_, ?_, ?_⟩
  · simp [Function.update_same, Function.update_noteq hne.symm]
  · simp [Function.update_same, Function.update_noteq hne]
  · intro x hxw hxl
    simp [Function.update_noteq hxw, Function.update_noteq hxl]

/-- The memory after `AddWaitList` on a monitor with an empty wait list. -/
theorem AddWaitList_none (s : MonitorState) (node : Nat) (htail : s.monitor.tail = none) :
    (AddWaitList s node).monitor = { head := some node, tail := some node } ∧
      (AddWaitList s node).nodes node =
        { prev := none, next := none, thread := (s.nodes node).thread } ∧
      ∀ x, x ≠ node → (AddWaitList s node).nodes x = s.nodes x := by
  simp only [AddWaitList, htail]
  refine ⟨trivial, ?_, ?_⟩
  · simp [Function.update_same]
  · intro x hxw
    simp [Function.update_noteq hxw]

/-- After `AddWaitList` of a node that is not in the list, the list is the old one followed
by that node. -/
theorem AddWaitList_WaitListOf (s : MonitorState) (l : List Nat) (node : Nat)
    (h : WaitListOf s l) (hnew : node ∉ l) : WaitListOf (AddWaitList s node) (l ++ [node]) := by
  obtain ⟨hnodup, hseg⟩ := h
  refine ⟨List.nodup_append.mpr ⟨hnodup, List.nodup_singleton _, ?_⟩, ?_⟩
  · intro a ha hb
    rw [List.mem_singleton] at hb
    exact hnew (hb ▸ ha)
  rcases List.eq_nil_or_concat l with hl | ⟨init, x, hl⟩
  · subst hl
    obtain ⟨htail, hhead⟩ := hseg
    obtain ⟨hmon, hn, _⟩ := AddWaitList_none s node htail
    simp only [List.nil_append, waitSegment, hmon, hn, and_self]
  · rw [List.concat_eq_append] at hl
    subst hl
    rw [waitSegment_append] at hseg
    obtain ⟨pm, qm, hinit, hx1, hx2, hx3, hx4⟩ := hseg
    have hxn : x ≠ node := fun heq => hnew (by rw [← heq]; simp)
    obtain ⟨hmon, hn, hx, hother⟩ := AddWaitList_some s node x hx3 hxn
    rw [waitSegment_append, hmon]
    refine ⟨some x, some node, ?_, ?_⟩
    · rw [waitSegment_append]
      refine ⟨pm, qm, ?_, ?_⟩
      · apply waitSegment_frame s.nodes _ init _ _ _ _ _ hinit
        intro a ha
        apply hother
        · intro heq; exact hnew (by rw [← heq]; simp [ha])
        · intro heq
          rw [List.nodup_append] at hnodup
          exact hnodup.2.2 ha (by rw [heq]; exact List.mem_singleton_self _)
      · simp only [waitSegment, hx1, hx, hx2, and_self]
    · simp only [waitSegment, hn, and_self]

/-- The first statement of `RemoveWaitList`, on the stretch `pre` that leads to the node:
the stretch then leads to the successor of the node. -/
theorem removePrevLink_segment (s : MonitorState) (pre : List Nat) (node : Nat)
    (pm : Option Nat) (hseg : waitSegment s.nodes none s.monitor.head pre pm (some node))
    (hprev : (s.nodes node).prev = pm) (hnodup : pre.Nodup) :
    waitSegment (removePrevLink s node).nodes none (removePrevLink s node).monitor.head pre pm
        (s.nodes node).next ∧
      (removePrevLink s node).monitor.tail = s.monitor.tail ∧
      ∀ a, a ∉ pre → (removePrevLink s node).nodes a = s.nodes a := by
  rcases List.eq_nil_or_concat pre with hl | ⟨init, x, hl⟩
  · subst hl
    obtain ⟨h1, _⟩ := hseg
    subst h1
    have heq : removePrevLink s node =
        { s with monitor := { s.monitor with head := (s.nodes node).next } } := by
      simp only [removePrevLink, hprev]
    rw [heq]
    exact ⟨⟨rfl, rfl⟩, rfl, fun _ _ => rfl⟩
  · rw [List.concat_eq_append] at hl
    subst hl
    rw [waitSegment_append] at hseg
    obtain ⟨pi, qi, hinit, hx1, hx2, hx3, _⟩ := hseg
    subst hx3
    have heq : removePrevLink s node =
        { s with nodes := (Function.update s.nodes x
            { s.nodes x with next := (s.nodes node).next }) } := by
      simp only [removePrevLink, hprev]
    rw [heq]
    refine ⟨?_, rfl, ?_⟩
    · rw [waitSegment_append]
      refine ⟨pi, qi, ?_, ?_⟩
      · apply waitSegment_frame s.nodes _ init _ _ _ _ _ hinit
        intro a ha
        apply Function.update_noteq
        intro heq
        rw [List.nodup_append] at hnodup
        exact hnodup.2.2 ha (by rw [heq]; exact List.mem_singleton_self _)
      · simp only [waitSegment, hx1, Function.update_same, hx2, and_self]
    · intro a ha
      apply Function.update_noteq
      intro heq
      exact ha (by rw [heq]; simp)

/-- The second statement of `RemoveWaitList`, on the stretch `post` that follows the node:
the stretch then follows the predecessor of the node. -/
theorem removeNextLink_segment (s : MonitorState) (post : List Nat) (node : Nat)
    (hseg : waitSegment s.nodes (some node) (s.nodes node).next post s.monitor.tail none)
    (hnodup : post.Nodup) :
    waitSegment (removeNextLink s node).nodes (s.nodes node).prev (s.nodes node).next post
        (removeNextLink s node).monitor.tail none ∧
      (removeNextLink s node).monitor.head = s.monitor.head ∧
      ∀ a, a ∉ post → (removeNextLink s node).nodes a = s.nodes a := by
  cases post with
  | nil =>
    obtain ⟨_, h2⟩ := hseg
    have heq : removeNextLink s node =
        { s with monitor := { s.monitor with tail := (s.nodes node).prev } } := by
      simp only [removeNextLink, ← h2]
    rw [heq]
    exact ⟨⟨rfl, h2⟩, rfl, fun _ _ => rfl⟩
  | cons y rest =>
    obtain ⟨h1, _, h3⟩ := hseg
    have heq : removeNextLink s node =
        { s with nodes := (Function.update s.nodes y
            { s.nodes y with prev := (s.nodes node).prev }) } := by
      simp only [removeNextLink, h1]
    rw [heq]
    refine ⟨⟨h1, by simp only [Function.update_same], ?_⟩, rfl, ?_⟩
    · simp only [Function.update_same]
      apply waitSegment_frame s.nodes _ rest _ _ _ _ _ h3
      intro a ha
      apply Function.update_noteq
      intro heq
      rw [List.nodup_cons] at hnodup
      exact hnodup.1 (heq ▸ ha)
    · intro a ha
      apply Function.update_noteq
      intro heq
      exact ha (by rw [heq]; simp)

/-- After `RemoveWaitList` of a node of the list, the list is the old one without that
node. -/
theorem RemoveWaitList_WaitListOf (s : MonitorState) (l : List Nat) (node : Nat)
    (h : WaitListOf s l) (hmem : node ∈ l) :
    WaitListOf (RemoveWaitList s node) (l.erase node) := by
  obtain ⟨hnodup, hseg⟩ := h
  obtain ⟨pre, post, hl⟩ := List.append_of_mem hmem
  subst hl
  rw [List.nodup_append] at hnodup
  obtain ⟨hpre, hpost, hdisj⟩ := hnodup
  have hnpre : node ∉ pre := fun hin => hdisj hin (List.mem_cons_self _ _)
  have hnpost : node ∉ post := (List.nodup_cons.mp hpost).1
  have hpost' : post.Nodup := (List.nodup_cons.mp hpost).2
  have herase : (pre ++ node :: post).erase node = pre ++ post := by
    rw [List.erase_append_right _ hnpre, List.erase_cons_head]
  rw [herase]
  refine ⟨List.nodup_append.mpr ⟨hpre, hpost', fun a ha hb =>
    hdisj ha (List.mem_cons_of_mem _ hb)⟩, ?_⟩
  rw [waitSegment_append] at hseg
  obtain ⟨pm, qm, hsegpre, hq, hprev, hsegpost⟩ := hseg
  subst hq
  have hhead : ∃ first, s.monitor.head = some first := by
    cases pre with
    | nil => exact ⟨node, hsegpre.2.symm⟩
    | cons a _ => exact ⟨a, hsegpre.1⟩
  obtain ⟨first, hfirst⟩ := hhead
  have hrem : RemoveWaitList s node = removeNextLink (removePrevLink s node) node := by
    simp only [RemoveWaitList, hfirst]
  rw [hrem]
  obtain ⟨h1a, h1b, h1c⟩ := removePrevLink_segment s pre node pm hsegpre hprev hpre
  have hnode1 : (removePrevLink s node).nodes node = s.nodes node := h1c node hnpre
  have hsegpost1 : waitSegment (removePrevLink s node).nodes (some node)
      ((removePrevLink s node).nodes node).next post (removePrevLink s node).monitor.tail
      none := by
    rw [hnode1, h1b]
    apply waitSegment_frame s.nodes _ post _ _ _ _ _ hsegpost
    intro a ha
    exact h1c a (fun hin => hdisj hin (List.mem_cons_of_mem _ ha))
  obtain ⟨h2a, h2b, h2c⟩ := removeNextLink_segment (removePrevLink s node) post node hsegpost1
    hpost'
  rw [hnode1, hprev] at h2a
  rw [waitSegment_append, h2b]
  refine ⟨pm, (s.nodes node).next, ?_, h2a⟩
  apply waitSegment_frame (removePrevLink s node).nodes _ pre _ _ _ _ _ h1a
  intro a ha
  exact h2c a (fun hin => hdisj ha (List.mem_cons_of_mem _ hin))

/-- C26. The monitor wait list stays a well-formed doubly-linked FIFO list: when the wait
list of the monitor is the doubly-linked list of the distinct nodes `l`, `AddWaitList` of
a node that is not in it gives the list `l` followed by that node, and `RemoveWaitList`
of a node of `l` (first, middle, last or only) gives `l` without that node, the others
in their order; following `next` from `head` gives `l` and following `prev` from `tail`
gives the reverse of `l`; the list is empty exactly when `head` and `tail` are both
null, and `head` is null exactly when `tail` is. -/
theorem WaitList_stays_wellformed (s : MonitorState) (l : List Nat) (node : Nat)
    (h : WaitListOf s l) :
    (node ∉ l → WaitListOf (AddWaitList s node) (l ++ [node])) ∧
      (node ∈ l → WaitListOf (RemoveWaitList s node) (l.erase node)) ∧
      (∀ fuel, l.length ≤ fuel →
        waitersFrom s.nodes fuel s.monitor.head = l ∧
          waitersBack s.nodes fuel s.monitor.tail = l.reverse) ∧
      (l = [] ↔ s.monitor.head = none ∧ s.monitor.tail = none) ∧
      (s.monitor.head = none ↔ s.monitor.tail = none) := by
  have hhead : s.monitor.head = none → l = [] := by
    intro hnone
    cases l with
    | nil => rfl
    | cons a _ =>
      have := h.2.1
      rw [hnone] at this
      cases this
  have htail : s.monitor.tail = none → l = [] := by
    intro hnone
    rcases List.eq_nil_or_concat l with hl | ⟨init, x, hl⟩
    · exact hl
    · rw [List.concat_eq_append] at hl
      subst hl
      have hseg := h.2
      rw [waitSegment_append] at hseg
      obtain ⟨_, _, _, _, _, hx3, _⟩ := hseg
      rw [hnone] at hx3
      cases hx3
  have hnil : l = [] → s.monitor.head = none ∧ s.monitor.tail = none := by
    intro hl
    subst hl
    exact ⟨h.2.2.symm, h.2.1⟩
  refine ⟨AddWaitList_WaitListOf s l node h, RemoveWaitList_WaitListOf s l node h, ?_,
    ⟨hnil, fun hboth => hhead hboth.1⟩,
    ⟨fun hh => (hnil (hhead hh)).2, fun ht => (hnil (htail ht)).1⟩⟩
  intro fuel hfuel
  exact ⟨waitersFrom_segment s.nodes l _ _ _ fuel h.2 hfuel,
    waitersBack_segment s.nodes l _ _ _ fuel h.2 hfuel⟩

/-- C26 at the wait list of the nodes 101, 102, 103 and the middle node: after
`RemoveWaitList` the list reads 101, 103 from `head` and 103, 101 from `tail`. -/
theorem WaitList_stays_wellformed_witness :
    waitersFrom (RemoveWaitList exampleEnqueued 102).nodes 3
        (RemoveWaitList exampleEnqueued 102).monitor.head = [101, 103] ∧
      waitersBack (RemoveWaitList exampleEnqueued 102).nodes 3
        (RemoveWaitList exampleEnqueued 102).monitor.tail = [103, 101] ∧
      ((102 ∉ [101, 102, 103] →
        WaitListOf (AddWaitList exampleEnqueued 102) ([101, 102, 103] ++ [102])) ∧
      (102 ∈ [101, 102, 103] →
        WaitListOf (RemoveWaitList exampleEnqueued 102) ([101, 102, 103].erase 102)) ∧
      (∀ fuel, [101, 102, 103].length ≤ fuel →
        waitersFrom exampleEnqueued.nodes fuel exampleEnqueued.monitor.head = [101, 102, 103] ∧
          waitersBack exampleEnqueued.nodes fuel exampleEnqueued.monitor.tail =
            [101, 102, 103].reverse) ∧
      ([101, 102, 103] = [] ↔
        exampleEnqueued.monitor.head = none ∧ exampleEnqueued.monitor.tail = none) ∧
      (exampleEnqueued.monitor.head = none ↔ exampleEnqueued.monitor.tail = none)) :=
  ⟨by decide, by decide,
    WaitList_stays_wellformed exampleEnqueued [101, 102, 103] 102
      ⟨by decide, rfl, rfl, rfl, rfl, rfl, rfl, rfl, rfl⟩⟩

/-- Removing the first, the last and the only node of a wait list, and appending a node. -/
theorem RemoveWaitList_examples :
    waitersFrom (RemoveWaitList exampleEnqueued 101).nodes 3
        (RemoveWaitList exampleEnqueued 101).monitor.head = [102, 103] ∧
      waitersBack (RemoveWaitList exampleEnqueued 101).nodes 3
        (RemoveWaitList exampleEnqueued 101).monitor.tail = [103, 102] ∧
      waitersFrom (RemoveWaitList exampleEnqueued 103).nodes 3
        (RemoveWaitList exampleEnqueued 103).monitor.head = [101, 102] ∧
      waitersBack (RemoveWaitList exampleEnqueued 103).nodes 3
        (RemoveWaitList exampleEnqueued 103).monitor.tail = [102, 101] ∧
      (RemoveWaitList (AddWaitList exampleMonitor 101) 101).monitor =
        { head := none, tail := none } ∧
      waitersFrom (AddWaitList exampleEnqueued 104).nodes 4
        (AddWaitList exampleEnqueued 104).monitor.head = [101, 102, 103, 104] := by
  decide

end ThreadAPI
